import Mathlib

/-!
# stitch: request parser, behavior model and response generator

A shallow embedding of `HttpRequest` / `HttpParser` (`src/http_parser.cpp`), of
`TestCommand` / `CommandInterpreter` (`src/command_interpreter.cpp`) and of
`HttpResponse` / `ResponseGenerator::generate` (`src/response_generator.cpp`), and
their properties.

Conventions of the embedding

* a `std::string` is a list of bytes, each byte a natural number below 256;
* a `std::map<std::string, std::string>` is an association list kept in ascending
  key order (the iteration order of `std::map`), with at most one entry per key;
* a loop that walks a string with an index `pos` is written as a recursion over the
  unread suffix `str[pos..]`;
* a call that leaves by a C++ exception is the `Except.error` outcome. No caller of
  `HttpParser::parse` has a handler, so nothing of the parser can be observed after it;
  `CommandInterpreter::parseInteger` catches every exception, so it is a total function.
-/

set_option autoImplicit false
set_option maxRecDepth 8192
set_option maxHeartbeats 1000000

namespace Stitch

/-! ## Strings and maps -/

/-- A `std::string`: its bytes in order. -/
abbrev Str := List Nat

/-- The bytes of an ASCII string literal (used to write inputs down). -/
def bytes (s : String) : Str := s.toList.map Char.toNat

/-- `std::string::operator<`: lexicographic order on the bytes. -/
def strLt : Str → Str → Bool
  | [], [] => false
  | [], _ :: _ => true
  | _ :: _, [] => false
  | a :: s, b :: t => if a < b then true else if b < a then false else strLt s t

/-- A `std::map<std::string, std::string>`, as its entries in iteration order. -/
abbrev StrMap := List (Str × Str)

/-- `m[key] = value`: replaces the value of an existing key, inserts a new key at
its place in key order. -/
def StrMap.assign (key value : Str) : StrMap → StrMap
  | [] => [(key, value)]
  | (k, v) :: rest =>
    if strLt key k then (key, value) :: (k, v) :: rest
    else if key = k then (key, value) :: rest
    else (k, v) :: StrMap.assign key value rest

/-- `m.find(key)`: the value stored under `key`, if any. -/
def StrMap.find (key : Str) : StrMap → Option Str
  | [] => none
  | (k, v) :: rest => if key = k then some v else StrMap.find key rest

/-- `s.find(pat)`: the least index at which `pat` occurs in `s`; `none` is `npos`. -/
def strFind (pat : Str) : Str → Option Nat
  | [] => if pat = [] then some 0 else none
  | c :: s =>
    if pat.isPrefixOf (c :: s) then some 0
    else (strFind pat s).map (· + 1)

/-- The successive pieces that a delimiter-terminated read visits: `std::getline`
with delimiter `d`, and equally the loop
`while (pos < s.length()) { end = s.find(d, pos) or s.length(); ...; pos = end + 1 }`.
Every delimiter closes a piece (possibly empty); text after the last delimiter is a
piece only when it is non-empty. `cur` holds the bytes of the piece being read. -/
def segmentsFrom (d : Nat) : Str → Str → List Str
  | cur, [] => if cur = [] then [] else [cur]
  | cur, c :: s => if c = d then cur :: segmentsFrom d [] s else segmentsFrom d (cur ++ [c]) s

/-- The pieces of `s` read up to delimiter `d`. -/
def segments (d : Nat) (s : Str) : List Str := segmentsFrom d [] s

/-- `std::isspace` in the "C" locale: space, `\t`, `\n`, `\v`, `\f`, `\r`. -/
def isSpace (c : Nat) : Bool := c = 32 || (9 ≤ c && c ≤ 13)

/-- The whitespace-delimited words that successive `stream >> word` extractions
yield. `cur` holds the bytes of the word being read. -/
def tokensFrom : Str → Str → List Str
  | cur, [] => if cur = [] then [] else [cur]
  | cur, c :: s =>
    if isSpace c then (if cur = [] then tokensFrom [] s else cur :: tokensFrom [] s)
    else tokensFrom (cur ++ [c]) s

/-- The whitespace-delimited words of a line. -/
def tokens (s : Str) : List Str := tokensFrom [] s

/-! ## `std::stoi(hex, nullptr, 16)` -/

/-- The exceptions `std::stoi` throws: `std::invalid_argument` when the text holds no
number, `std::out_of_range` when the number does not fit an `int`. -/
inductive Exn where
  | invalid_argument
  | out_of_range
  deriving DecidableEq, Repr

deriving instance DecidableEq for Except

/-- Value of a hexadecimal digit, if the byte is one. -/
def hexVal (c : Nat) : Option Nat :=
  if 48 ≤ c ∧ c ≤ 57 then some (c - 48)
  else if 97 ≤ c ∧ c ≤ 102 then some (c - 87)
  else if 65 ≤ c ∧ c ≤ 70 then some (c - 55)
  else none

/-- Whether the byte is a hexadecimal digit. -/
def isHex (c : Nat) : Bool := (hexVal c).isSome

/-- Base-16 value of a run of hexadecimal digits, most significant first. -/
def hexNum (acc : Nat) : Str → Nat
  | [] => acc
  | c :: s => hexNum (16 * acc + (hexVal c).getD 0) s

/-- Whether the text starts with `0x` or `0X` and a hexadecimal digit after it. -/
def hasHexPrefix : Str → Bool
  | z :: x :: h :: _ => z == 48 && (x == 120 || x == 88) && isHex h
  | _ => false

/-- `std::stoi(s, nullptr, 16)`: skips leading whitespace, takes an optional sign and
an optional `0x` / `0X` that is followed by a digit, then the longest run of
hexadecimal digits; throws `std::invalid_argument` when there is no digit. (The
strings the parser passes have two bytes, so the value always fits an `int`.) -/
def stoi16 (s : Str) : Except Exn Int :=
  let s1 := s.dropWhile isSpace
  let negative := s1.head? == some 45
  let s2 := if s1.head? == some 45 || s1.head? == some 43 then s1.tail else s1
  let s3 := if hasHexPrefix s2 then s2.drop 2 else s2
  let digits := s3.takeWhile isHex
  if digits = [] then .error Exn.invalid_argument
  else .ok (if negative then - (hexNum 0 digits : Int) else (hexNum 0 digits : Int))

/-- `static_cast<char>(n)`: the low eight bits, as a byte. -/
def toChar (n : Int) : Nat := (n % 256).toNat

/-! ## `HttpRequest` and `HttpParser` -/

/-- `class HttpRequest`. -/
structure HttpRequest where
  method : Str
  path : Str
  http_version : Str
  headers : StrMap
  query_params : StrMap
  deriving DecidableEq, Repr

/-- `HttpRequest::isValid`. -/
def HttpRequest.isValid (r : HttpRequest) : Bool :=
  !r.method.isEmpty && !r.path.isEmpty && !r.http_version.isEmpty

/-- `enum class HttpParser::ParseResult`. -/
inductive ParseResult where
  | COMPLETE
  | INCOMPLETE
  | ERROR
  deriving DecidableEq, Repr

/-- `class HttpParser`: its data members. -/
structure HttpParser where
  request_ : HttpRequest
  buffer_ : Str
  state_ : ParseResult
  error_message_ : Str
  headers_complete_ : Bool
  deriving DecidableEq, Repr

/-- `HttpRequest()`: every member empty. -/
def HttpRequest.empty : HttpRequest :=
  { method := [], path := [], http_version := [], headers := [], query_params := [] }

/-- `HttpParser::HttpParser()`. -/
def HttpParser.new : HttpParser :=
  { request_ := HttpRequest.empty, buffer_ := [], state_ := ParseResult.INCOMPLETE,
    error_message_ := [], headers_complete_ := false }

/-- `HttpParser::reset`. -/
def HttpParser.reset (p : HttpParser) : HttpParser :=
  { p with request_ := HttpRequest.empty, buffer_ := [], state_ := ParseResult.INCOMPLETE,
           error_message_ := [], headers_complete_ := false }

/-- `HttpParser::findEndOfHeaders`: the index just past the first `\r\n\r\n`. -/
def findEndOfHeaders (buffer : Str) : Option Nat :=
  match strFind [13, 10, 13, 10] buffer with
  | some pos => some (pos + 4)
  | none => none

/-- Puts one decoded byte in front of the rest of the decoded text. -/
def pushFront (b : Nat) : Except Exn Str → Except Exn Str
  | .error e => .error e
  | .ok r => .ok (b :: r)

/-- The byte `urlDecode` appends for a byte that does not start an escape: a space
for `+`, the byte itself otherwise (also for a `%` with fewer than two bytes after it). -/
def plainByte (c : Nat) : Nat := if c = 43 then 32 else c

/-- `HttpParser::urlDecode`, over the unread suffix `str[i..]`. The first clause is
the case `i + 2 < str.length()`: two bytes follow `str[i]`. -/
def urlDecode : Str → Except Exn Str
  | [] => .ok []
  | c :: h1 :: h2 :: rest =>
    if c = 37 then
      match stoi16 [h1, h2] with
      | .error e => .error e
      | .ok n => pushFront (toChar n) (urlDecode rest)
    else pushFront (plainByte c) (urlDecode (h1 :: h2 :: rest))
  | c :: rest => pushFront (plainByte c) (urlDecode rest)

/-- One turn of the loop of `HttpParser::extractQueryParams`: stores the parameter
`param` in `query_params`. -/
def storeParam (r : HttpRequest) (param : Str) : Except Exn HttpRequest :=
  match strFind [61] param with
  | some equals =>
    match urlDecode (param.drop (equals + 1)) with
    | .error e => .error e
    | .ok value => .ok { r with query_params := r.query_params.assign (param.take equals) value }
  | none => .ok { r with query_params := r.query_params.assign param [] }

/-- The loop of `HttpParser::extractQueryParams` over the parameters it visits. -/
def storeParams (r : HttpRequest) : List Str → Except Exn HttpRequest
  | [] => .ok r
  | param :: rest =>
    match storeParam r param with
    | .error e => .error e
    | .ok r1 => storeParams r1 rest

/-- `HttpParser::extractQueryParams`. -/
def extractQueryParams (r : HttpRequest) (path : Str) : Except Exn HttpRequest :=
  match strFind [63] path with
  | none => .ok r
  | some query_start => storeParams r (segments 38 (path.drop (query_start + 1)))

/-- `HttpParser::parseRequestLine`: the parser afterwards and the returned flag. -/
def parseRequestLine (p : HttpParser) (line : Str) : HttpParser × Bool :=
  match tokens line with
  | method :: path :: version :: _ =>
    if version.take 5 ≠ bytes "HTTP/" then
      ({ p with error_message_ := bytes "Invalid HTTP version" }, false)
    else
      let r := p.request_
      ({ p with request_ := { r with method := method, path := path, http_version := version } },
        true)
  | _ => ({ p with error_message_ := bytes "Invalid request line format" }, false)

/-- `HttpParser::parseHeader`: the parser afterwards and the returned flag. -/
def parseHeader (p : HttpParser) (line : Str) : HttpParser × Bool :=
  match strFind [58] line with
  | none => ({ p with error_message_ := bytes "Invalid header format (missing colon)" }, false)
  | some colon_pos =>
    let name := line.take colon_pos
    let value := (line.drop (colon_pos + 1)).dropWhile (fun c => c = 32 || c = 9)
    let r := p.request_
    ({ p with request_ := { r with headers := r.headers.assign name value } }, true)

/-- A line as the loop of `parse` sees it: a final `\r` removed. -/
def stripCR (line : Str) : Str :=
  if line.getLast? = some 13 then line.dropLast else line

/-- The `while (std::getline(stream, line))` loop of `HttpParser::parse` over the
lines still to be read; the flag returned is `false` when a line was rejected (the
parser is then in state `ERROR`). -/
def parseLines : List Str → Bool → HttpParser → HttpParser × Bool
  | [], _, p => (p, true)
  | raw :: rest, first_line, p =>
    if stripCR raw = [] then parseLines rest first_line p
    else if first_line then
      match parseRequestLine p (stripCR raw) with
      | (p1, false) => ({ p1 with state_ := ParseResult.ERROR }, false)
      | (p1, true) => parseLines rest false p1
    else
      match parseHeader p (stripCR raw) with
      | (p1, false) => ({ p1 with state_ := ParseResult.ERROR }, false)
      | (p1, true) => parseLines rest false p1

/-- `HttpParser::parse`: the parser afterwards and the returned result, or the
exception that leaves the call. -/
def HttpParser.parse (p : HttpParser) (data : Str) : Except Exn (HttpParser × ParseResult) :=
  if p.state_ = ParseResult.COMPLETE ∨ p.state_ = ParseResult.ERROR then .ok (p, p.state_)
  else
    let p0 := { p with buffer_ := p.buffer_ ++ data }
    match findEndOfHeaders p0.buffer_ with
    | none => .ok ({ p0 with state_ := ParseResult.INCOMPLETE }, ParseResult.INCOMPLETE)
    | some headers_end =>
      match parseLines (segments 10 (p0.buffer_.take headers_end)) true p0 with
      | (p1, false) => .ok (p1, p1.state_)
      | (p1, true) =>
        match extractQueryParams p1.request_ p1.request_.path with
        | .error e => .error e
        | .ok r => .ok ({ p1 with request_ := r, state_ := ParseResult.COMPLETE },
                        ParseResult.COMPLETE)

/-- A run of `parse` calls, one per chunk: the parser afterwards and the results
returned, in call order. -/
def HttpParser.parseAll (p : HttpParser) : List Str → Except Exn (HttpParser × List ParseResult)
  | [] => .ok (p, [])
  | data :: more =>
    match p.parse data with
    | .error e => .error e
    | .ok (p1, res) =>
      match HttpParser.parseAll p1 more with
      | .error e => .error e
      | .ok (p2, results) => .ok (p2, res :: results)

/-! ## Runs of `parse` calls and what they show -/

/-- What a caller can observe after a run of `parse` calls: the result of the last
call, `getRequest()` and `getErrorMessage()`; or the exception that ended the run. -/
def observe : Except Exn (HttpParser × List ParseResult) →
    Except Exn (Option ParseResult × HttpRequest × Str)
  | .error e => .error e
  | .ok (p, results) => .ok (results.getLast?, p.request_, p.error_message_)

/-- The result of the last call of a run of `parse` calls; `none` when the run was
ended by an exception (or had no call). -/
def lastResult : Except Exn (HttpParser × List ParseResult) → Option ParseResult
  | .error _ => none
  | .ok (_, results) => results.getLast?

/-! ## The loop of `parse`, restated over the lines it keeps -/

/-- The value `parse` computes once the buffer holds a terminator: the outcome of
the header lines, then of the query parameters. -/
def finishParse : HttpParser × Bool → Except Exn (HttpParser × ParseResult)
  | (p1, false) => .ok (p1, p1.state_)
  | (p1, true) =>
    match extractQueryParams p1.request_ p1.request_.path with
    | .error e => .error e
    | .ok r => .ok ({ p1 with request_ := r, state_ := ParseResult.COMPLETE },
                    ParseResult.COMPLETE)

/-- The lines `parse` does not skip, as it sees them: each line of the block with a
final `\r` removed, the empty ones left out. -/
def keptLines (ls : List Str) : List Str := (ls.map stripCR).filter (fun l => l ≠ [])

/-- The non-empty lines of the header block `block` (the buffer up to and including
the first terminator). -/
def headerLines (block : Str) : List Str := keptLines (segments 10 block)

/-- The loop of `parse` over the lines it does not skip: the first one goes to
`parseRequestLine`, the others to `parseHeader`. -/
def parseKept : List Str → Bool → HttpParser → HttpParser × Bool
  | [], _, p => (p, true)
  | line :: rest, first_line, p =>
    match (if first_line then parseRequestLine p line else parseHeader p line) with
    | (p1, false) => ({ p1 with state_ := ParseResult.ERROR }, false)
    | (p1, true) => parseKept rest false p1

/-! ## The words of the specification -/

/-- Puts a byte in front of the first piece of a split. -/
def consHead (c : Nat) : List Str → List Str
  | [] => [[c]]
  | piece :: more => (c :: piece) :: more

/-- Splitting a text on a separator byte: the pieces between successive occurrences
of `d`, one piece more than there are occurrences, empty pieces included. -/
def splitOnByte (d : Nat) : Str → List Str
  | [] => [[]]
  | c :: s => if c = d then [] :: splitOnByte d s else consHead c (splitOnByte d s)

/-- A list of pieces without its last piece when that one is empty. -/
def dropFinalEmpty (pieces : List Str) : List Str :=
  if pieces.getLast? = some [] then pieces.dropLast else pieces

/-- What one segment of the query string adds to the map, in the words of the
specification: the text before the first `=` mapped to the decoded text after it, or
the whole segment mapped to the empty string when it has no `=`. -/
def specInsert (m : StrMap) (seg : Str) : Except Exn StrMap :=
  if 61 ∈ seg then
    match urlDecode ((seg.dropWhile (fun c => c != 61)).tail) with
    | .error e => .error e
    | .ok v => .ok (m.assign (seg.takeWhile (fun c => c != 61)) v)
  else .ok (m.assign seg [])

/-- The segments inserted in order, a later key overwriting an earlier one. -/
def specInsertAll (m : StrMap) : List Str → Except Exn StrMap
  | [] => .ok m
  | seg :: more =>
    match specInsert m seg with
    | .error e => .error e
    | .ok m1 => specInsertAll m1 more

/-- The query-parameter map of a path in the words of the specification, for a given
way `split` of cutting the query string into segments: empty when the path has no
`?`, otherwise built from the segments of the text after the first `?`. -/
def specQueryParams (split : Str → List Str) (path : Str) : Except Exn StrMap :=
  if 63 ∈ path then specInsertAll [] (split ((path.dropWhile (fun c => c != 63)).tail))
  else .ok []

/-- The name of a header line in the words of the specification: the text before its
first `:`. -/
def headerName (line : Str) : Str := line.takeWhile (fun c => c != 58)

/-- The value of a header line in the words of the specification: the text after
its first `:` without its leading spaces and tabs. -/
def headerValue (line : Str) : Str :=
  ((line.dropWhile (fun c => c != 58)).tail).dropWhile (fun c => c = 32 || c = 9)

/-- The value the specification gives the header `name`: that of the last of the
lines `later` (the non-empty lines after the request line) named `name`, if any. -/
def specHeader (later : List Str) (name : Str) : Option Str :=
  ((later.filter (fun l => headerName l = name)).getLast?).map headerValue

/-- The hexadecimal digit for `n < 16`, in upper or in lower case. -/
def hexDigit (upper : Bool) (n : Nat) : Nat :=
  if n < 10 then 48 + n else if upper then 55 + n else 87 + n

/-- Percent-encoding: every byte written as `%` and its two hexadecimal digits, each
digit in the case given with the byte. -/
def pctEncode : List (Nat × Bool × Bool) → Str
  | [] => []
  | (b, upper1, upper2) :: rest =>
    37 :: hexDigit upper1 (b / 16) :: hexDigit upper2 (b % 16) :: pctEncode rest

/-- The reference decoder of the specification, left to right: `%XX` with two
hexadecimal digits becomes the byte of value `XX`, `+` becomes a space, every other
byte (a `%` with fewer than two bytes after it included) is copied. -/
def refDecode : Str → Str
  | [] => []
  | c :: h1 :: h2 :: rest =>
    if c = 37 ∧ isHex h1 ∧ isHex h2 then
      (16 * (hexVal h1).getD 0 + (hexVal h2).getD 0) :: refDecode rest
    else (if c = 43 then 32 else c) :: refDecode (h1 :: h2 :: rest)
  | c :: rest => (if c = 43 then 32 else c) :: refDecode rest

/-- Every `%` of the text is followed by two hexadecimal digits or has fewer than
two bytes after it. -/
def wellEscaped : Str → Bool
  | [] => true
  | c :: h1 :: h2 :: rest => (c != 37 || (isHex h1 && isHex h2)) && wellEscaped (h1 :: h2 :: rest)
  | _ :: rest => wellEscaped rest

/-! ## Sample requests -/

/-- The request line used in the examples, with its terminator. -/
def sampleRequest : Str := bytes "GET /test?behavior=error&code=502 HTTP/1.1\r\n\r\n"

/-- The request `sampleRequest` parses to. -/
def sampleParsed : HttpRequest :=
  { method := bytes "GET", path := bytes "/test?behavior=error&code=502",
    http_version := bytes "HTTP/1.1", headers := [],
    query_params := [(bytes "behavior", bytes "error"), (bytes "code", bytes "502")] }

/-- The parser after `GET / HTTP/1.1` and the blank line have been fed. -/
def parsedRoot : HttpParser :=
  { request_ := { method := bytes "GET", path := bytes "/", http_version := bytes "HTTP/1.1",
                  headers := [], query_params := [] },
    buffer_ := bytes "GET / HTTP/1.1\r\n\r\n", state_ := ParseResult.COMPLETE,
    error_message_ := [], headers_complete_ := false }

/-- The parser after `GET /?behavior=error&code=502&delay=1000 HTTP/1.1` and the
blank line have been fed. -/
def parsedQuery : HttpParser :=
  { request_ := { method := bytes "GET", path := bytes "/?behavior=error&code=502&delay=1000",
                  http_version := bytes "HTTP/1.1", headers := [],
                  query_params := [(bytes "behavior", bytes "error"), (bytes "code", bytes "502"),
                                   (bytes "delay", bytes "1000")] },
    buffer_ := bytes "GET /?behavior=error&code=502&delay=1000 HTTP/1.1\r\n\r\n",
    state_ := ParseResult.COMPLETE, error_message_ := [], headers_complete_ := false }

/-- The parser after `GET /test HTTP/1.1`, `Host: example.com` and the blank line. -/
def parsedHost : HttpParser :=
  { request_ := { method := bytes "GET", path := bytes "/test", http_version := bytes "HTTP/1.1",
                  headers := [(bytes "Host", bytes "example.com")], query_params := [] },
    buffer_ := bytes "GET /test HTTP/1.1\r\nHost: example.com\r\n\r\n",
    state_ := ParseResult.COMPLETE, error_message_ := [], headers_complete_ := false }

/-! ## `TestCommand` and `CommandInterpreter` (`src/command_interpreter.cpp`)

An `int` is an integer between `-2^31` and `2^31 - 1`, a `size_t` a natural number
below `2^64`. -/

/-- `enum class BehaviorType`. -/
inductive BehaviorType where
  | NORMAL
  | ERROR_RESPONSE
  | CLOSE_IMMEDIATELY
  | CLOSE_AFTER_HEADERS
  | CLOSE_AFTER_PARTIAL
  | SLOW_RESPONSE
  | SLOW_HEADERS
  | SLOW_BODY
  | INVALID_STATUS_LINE
  | INVALID_HEADERS
  | WRONG_CONTENT_LENGTH
  | MALFORMED_CHUNKING
  | TIMEOUT
  deriving DecidableEq, Repr

/-- `struct TestCommand`. -/
structure TestCommand where
  behavior : BehaviorType
  status_code : Int
  reason_phrase : Str
  delay_ms : Int
  bytes_per_second : Int
  bytes_before_close : Nat
  body_content : Str
  deriving DecidableEq, Repr

/-- `TestCommand::TestCommand()`. -/
def TestCommand.new : TestCommand :=
  { behavior := BehaviorType.NORMAL, status_code := 200, reason_phrase := bytes "OK",
    delay_ms := 0, bytes_per_second := 0, bytes_before_close := 0, body_content := bytes "OK" }

/-- Whether the byte is a decimal digit. -/
def isDigit (c : Nat) : Bool := 48 ≤ c && c ≤ 57

/-- Value of a decimal digit. -/
def digitVal (c : Nat) : Nat := c - 48

/-- Base-10 value of a run of decimal digits, most significant first. -/
def decNum (acc : Nat) : Str → Nat
  | [] => acc
  | c :: s => decNum (10 * acc + digitVal c) s

/-- `std::stoi(s)`: skips leading whitespace, takes an optional sign, then the longest
run of decimal digits, and ignores what follows; throws `std::invalid_argument` when
there is no digit and `std::out_of_range` when the number does not fit an `int`. -/
def stoi10 (s : Str) : Except Exn Int :=
  let s1 := s.dropWhile isSpace
  let negative := s1.head? == some 45
  let s2 := if s1.head? == some 45 || s1.head? == some 43 then s1.tail else s1
  let digits := s2.takeWhile isDigit
  if digits = [] then .error Exn.invalid_argument
  else
    let n : Int := if negative then - (decNum 0 digits : Int) else (decNum 0 digits : Int)
    if n < -2147483648 ∨ 2147483647 < n then .error Exn.out_of_range else .ok n

/-- `CommandInterpreter::parseInteger`: every exception of `std::stoi` is caught. -/
def parseInteger (value : Str) (default_value : Int) : Int :=
  if value = [] then default_value
  else
    match stoi10 value with
    | .ok n => n
    | .error _ => default_value

/-- `CommandInterpreter::parseBehavior`. -/
def parseBehavior (behavior_str : Str) : BehaviorType :=
  if behavior_str = bytes "error" then BehaviorType.ERROR_RESPONSE
  else if behavior_str = bytes "close" then BehaviorType.CLOSE_IMMEDIATELY
  else if behavior_str = bytes "close_headers" then BehaviorType.CLOSE_AFTER_HEADERS
  else if behavior_str = bytes "close_partial" then BehaviorType.CLOSE_AFTER_PARTIAL
  else if behavior_str = bytes "slow" then BehaviorType.SLOW_RESPONSE
  else if behavior_str = bytes "slow_headers" then BehaviorType.SLOW_HEADERS
  else if behavior_str = bytes "slow_body" then BehaviorType.SLOW_BODY
  else if behavior_str = bytes "invalid_status" then BehaviorType.INVALID_STATUS_LINE
  else if behavior_str = bytes "invalid_headers" then BehaviorType.INVALID_HEADERS
  else if behavior_str = bytes "wrong_length" then BehaviorType.WRONG_CONTENT_LENGTH
  else if behavior_str = bytes "malformed_chunking" then BehaviorType.MALFORMED_CHUNKING
  else if behavior_str = bytes "timeout" then BehaviorType.TIMEOUT
  else BehaviorType.NORMAL

/-- `query_params.count(key) ? query_params.at(key) : ""`. -/
def paramOrEmpty (query_params : StrMap) (key : Str) : Str :=
  match StrMap.find key query_params with
  | some value => value
  | none => []

/-- `static_cast<size_t>(n)` for an `int` `n`: the value modulo `2^64`. -/
def toSizeT (n : Int) : Nat := (n % 18446744073709551616).toNat

/-- `CommandInterpreter::interpret`. (For `WRONG_CONTENT_LENGTH` the source parses
`length` and drops the result.) -/
def interpret (query_params : StrMap) : TestCommand :=
  let cmd := TestCommand.new
  match StrMap.find (bytes "behavior") query_params with
  | none => cmd
  | some behavior_str =>
    let cmd := { cmd with behavior := parseBehavior behavior_str }
    match cmd.behavior with
    | BehaviorType.ERROR_RESPONSE =>
      { cmd with
        status_code := parseInteger (paramOrEmpty query_params (bytes "code")) 500,
        reason_phrase :=
          match StrMap.find (bytes "reason") query_params with
          | some reason => reason
          | none => bytes "Internal Server Error" }
    | BehaviorType.CLOSE_AFTER_PARTIAL =>
      { cmd with
        bytes_before_close := toSizeT (parseInteger (paramOrEmpty query_params (bytes "bytes")) 0) }
    | BehaviorType.SLOW_RESPONSE =>
      { cmd with delay_ms := parseInteger (paramOrEmpty query_params (bytes "delay")) 0 }
    | BehaviorType.SLOW_HEADERS =>
      { cmd with bytes_per_second := parseInteger (paramOrEmpty query_params (bytes "rate")) 0 }
    | BehaviorType.SLOW_BODY =>
      { cmd with bytes_per_second := parseInteger (paramOrEmpty query_params (bytes "rate")) 0 }
    | BehaviorType.WRONG_CONTENT_LENGTH =>
      let _dropped := parseInteger (paramOrEmpty query_params (bytes "length")) 9999
      cmd
    | _ => cmd

/-- `CommandInterpreter::isValid`. -/
def isValid (cmd : TestCommand) : Bool :=
  if cmd.status_code < 100 ∨ cmd.status_code ≥ 600 then false
  else if cmd.behavior = BehaviorType.SLOW_RESPONSE ∧ cmd.delay_ms < 0 then false
  else if (cmd.behavior = BehaviorType.SLOW_HEADERS ∨ cmd.behavior = BehaviorType.SLOW_BODY) ∧
      cmd.bytes_per_second < 0 then false
  else true

/-! ## `HttpResponse` and `ResponseGenerator::generate` (`src/response_generator.cpp`) -/

/-- `struct HttpResponse`. -/
structure HttpResponse where
  status_code : Int
  reason_phrase : Str
  headers : StrMap
  body : Str
  malform_status_line : Bool
  malform_headers : Bool
  wrong_content_length : Bool
  wrong_content_length_value : Int
  malform_chunking : Bool
  deriving DecidableEq, Repr

/-- The response `generate` starts from and completes: no header, every flag cleared;
`status_code`, `reason_phrase` and `body` are assigned in every case of the switch. -/
def generateWith (status_code : Int) (reason_phrase body : Str) : HttpResponse :=
  { status_code := status_code, reason_phrase := reason_phrase, headers := [], body := body,
    malform_status_line := false, malform_headers := false, wrong_content_length := false,
    wrong_content_length_value := 0, malform_chunking := false }

/-- `ResponseGenerator::generate`. -/
def generate (cmd : TestCommand) : HttpResponse :=
  match cmd.behavior with
  | BehaviorType.NORMAL => generateWith 200 (bytes "OK") cmd.body_content
  | BehaviorType.ERROR_RESPONSE => generateWith cmd.status_code cmd.reason_phrase cmd.reason_phrase
  | BehaviorType.INVALID_STATUS_LINE =>
    { generateWith 200 (bytes "OK") (bytes "Invalid status line test") with
      malform_status_line := true }
  | BehaviorType.INVALID_HEADERS =>
    { generateWith 200 (bytes "OK") (bytes "Invalid headers test") with malform_headers := true }
  | BehaviorType.WRONG_CONTENT_LENGTH =>
    { generateWith 200 (bytes "OK") (bytes "Wrong content length test") with
      wrong_content_length := true, wrong_content_length_value := 9999 }
  | BehaviorType.MALFORMED_CHUNKING =>
    { generateWith 200 (bytes "OK") (bytes "Malformed chunking test") with
      malform_chunking := true }
  | _ => generateWith 200 (bytes "OK") cmd.body_content

/-! ## The words of the specification: the behavior model -/

/-- The twelve recognized values of the `behavior` parameter. -/
def recognizedBehaviors : List Str :=
  [bytes "error", bytes "close", bytes "close_headers", bytes "close_partial", bytes "slow",
   bytes "slow_headers", bytes "slow_body", bytes "invalid_status", bytes "invalid_headers",
   bytes "wrong_length", bytes "malformed_chunking", bytes "timeout"]

/-- The dispatch table of the specification. -/
def behaviorTable : List (Str × BehaviorType) :=
  [(bytes "error", BehaviorType.ERROR_RESPONSE),
   (bytes "close", BehaviorType.CLOSE_IMMEDIATELY),
   (bytes "close_headers", BehaviorType.CLOSE_AFTER_HEADERS),
   (bytes "close_partial", BehaviorType.CLOSE_AFTER_PARTIAL),
   (bytes "slow", BehaviorType.SLOW_RESPONSE),
   (bytes "slow_headers", BehaviorType.SLOW_HEADERS),
   (bytes "slow_body", BehaviorType.SLOW_BODY),
   (bytes "invalid_status", BehaviorType.INVALID_STATUS_LINE),
   (bytes "invalid_headers", BehaviorType.INVALID_HEADERS),
   (bytes "wrong_length", BehaviorType.WRONG_CONTENT_LENGTH),
   (bytes "malformed_chunking", BehaviorType.MALFORMED_CHUNKING),
   (bytes "timeout", BehaviorType.TIMEOUT)]

/-- The behavior kind the table gives a `behavior` parameter: the entry of its exact
value, `NORMAL` when the value has no entry or the parameter is absent. -/
def specBehavior : Option Str → BehaviorType
  | none => BehaviorType.NORMAL
  | some value =>
    match behaviorTable.find? (fun entry => entry.1 = value) with
    | some entry => entry.2
    | none => BehaviorType.NORMAL

/-- The number a run of decimal digits denotes. -/
def decimalValue (digits : Str) : Nat :=
  digits.foldl (fun acc c => 10 * acc + digitVal c) 0

/-- A plain non-negative decimal integer: one or more decimal digits and nothing else. -/
def isDecimal (v : Str) : Bool := v ≠ [] && v.all isDigit

/-- The integer a text denotes when it is a decimal integer: decimal digits, with an
optional sign in front. -/
def signedDecimal (v : Str) : Option Int :=
  if v.head? = some 45 then
    (if isDecimal v.tail then some (- (decimalValue v.tail : Int)) else none)
  else if v.head? = some 43 then
    (if isDecimal v.tail then some (decimalValue v.tail : Int) else none)
  else if isDecimal v then some (decimalValue v : Int)
  else none

/-- Whether a text has a leading integer: after its leading whitespace and an optional
sign comes a decimal digit. -/
def hasLeadingInteger (v : Str) : Bool :=
  let t := v.dropWhile isSpace
  let u := if t.head? = some 45 ∨ t.head? = some 43 then t.tail else t
  match u.head? with
  | some c => isDigit c
  | none => false

/-- What the specification says of a numeric parameter `param` (absent: `none`) with
default `default_value` and of the field `field` it sets: the field is the integer
denoted when the parameter is a plain non-negative decimal integer within `int` range,
and the default when the parameter is absent, empty, has no leading integer or is a
decimal integer out of `int` range. -/
def NumericRule (param : Option Str) (default_value : Int) (field : Int) : Prop :=
  (∀ v, param = some v → isDecimal v = true → (decimalValue v : Int) ≤ 2147483647 →
    field = (decimalValue v : Int)) ∧
  (param = none → field = default_value) ∧
  (param = some [] → field = default_value) ∧
  (∀ v, param = some v → hasLeadingInteger v = false → field = default_value) ∧
  (∀ v n, param = some v → signedDecimal v = some n → (n < -2147483648 ∨ 2147483647 < n) →
    field = default_value)

/-! ## Sample query-parameter maps -/

/-- The map `behavior = unknown_behavior_xyz`, `code = 502`, `delay = 5000`,
`reason = Bad Gateway`. -/
def unknownBehaviorParams : StrMap :=
  [(bytes "behavior", bytes "unknown_behavior_xyz"), (bytes "code", bytes "502"),
   (bytes "delay", bytes "5000"), (bytes "reason", bytes "Bad Gateway")]

/-- The map `bytes = 10`, `code = 502`, `length = 7`, `rate = 100` (no `behavior`). -/
def noBehaviorParams : StrMap :=
  [(bytes "bytes", bytes "10"), (bytes "code", bytes "502"), (bytes "length", bytes "7"),
   (bytes "rate", bytes "100")]

/-- The map `behavior = error`. -/
def errorParams : StrMap := [(bytes "behavior", bytes "error")]

/-- The map `behavior = error`, `code = 502`, `reason = Bad Gateway`. -/
def errorCustomParams : StrMap :=
  [(bytes "behavior", bytes "error"), (bytes "code", bytes "502"),
   (bytes "reason", bytes "Bad Gateway")]

/-- The map `behavior = error`, `code = 99999999999`. -/
def errorHugeParams : StrMap :=
  [(bytes "behavior", bytes "error"), (bytes "code", bytes "99999999999")]

/-- The map `behavior = error`, `code = 999`. -/
def errorBadCodeParams : StrMap := [(bytes "behavior", bytes "error"), (bytes "code", bytes "999")]

/-- The map `behavior = slow`, `delay = 5000`. -/
def slowParams : StrMap := [(bytes "behavior", bytes "slow"), (bytes "delay", bytes "5000")]

/-- The map `behavior = slow`, `delay = not_a_number`. -/
def slowBadParams : StrMap :=
  [(bytes "behavior", bytes "slow"), (bytes "delay", bytes "not_a_number")]

/-- The map `behavior = slow`, `delay = -5`. -/
def slowNegativeParams : StrMap := [(bytes "behavior", bytes "slow"), (bytes "delay", bytes "-5")]

/-- The map `behavior = close_partial`, `bytes = 100`. -/
def closePartialParams : StrMap :=
  [(bytes "behavior", bytes "close_partial"), (bytes "bytes", bytes "100")]

/-- The map `behavior = slow_headers`, `rate = 100`. -/
def slowHeadersParams : StrMap :=
  [(bytes "behavior", bytes "slow_headers"), (bytes "rate", bytes "100")]

/-- The map `behavior = slow_body`, `rate = 100`. -/
def slowBodyParams : StrMap := [(bytes "behavior", bytes "slow_body"), (bytes "rate", bytes "100")]

/-! ## The words of the specification: generated responses -/

/-- The behavior kinds whose response is the plain `200 OK` one: `NORMAL` and the
close, slow and timeout kinds. -/
def plainKinds : List BehaviorType :=
  [BehaviorType.NORMAL, BehaviorType.CLOSE_IMMEDIATELY, BehaviorType.CLOSE_AFTER_HEADERS,
   BehaviorType.CLOSE_AFTER_PARTIAL, BehaviorType.SLOW_RESPONSE, BehaviorType.SLOW_HEADERS,
   BehaviorType.SLOW_BODY, BehaviorType.TIMEOUT]

/-- Whether no malformation flag of a response is set. -/
def noMalformation (r : HttpResponse) : Bool :=
  !r.malform_status_line && !r.malform_headers && !r.wrong_content_length && !r.malform_chunking

/-! ## Sample directives -/

/-- A `NORMAL` directive with status 99. -/
def lowStatusCommand : TestCommand := { TestCommand.new with status_code := 99 }

/-- A `TIMEOUT` directive with status 600. -/
def highStatusCommand : TestCommand :=
  { TestCommand.new with behavior := BehaviorType.TIMEOUT, status_code := 600 }

/-- A `NORMAL` directive with delay -1 and rate -1. -/
def negativeNormalCommand : TestCommand :=
  { TestCommand.new with delay_ms := -1, bytes_per_second := -1 }

/-- A `SLOW_RESPONSE` directive with delay -1. -/
def negativeDelayCommand : TestCommand :=
  { TestCommand.new with behavior := BehaviorType.SLOW_RESPONSE, delay_ms := -1 }

/-- A `SLOW_RESPONSE` directive with rate -1 (and delay 0). -/
def slowNegativeRateCommand : TestCommand :=
  { TestCommand.new with behavior := BehaviorType.SLOW_RESPONSE, bytes_per_second := -1 }

/-- A `SLOW_BODY` directive with rate -1. -/
def negativeRateCommand : TestCommand :=
  { TestCommand.new with behavior := BehaviorType.SLOW_BODY, bytes_per_second := -1 }

/-- The `ERROR_RESPONSE` directive 503 `Service Unavailable`. -/
def unavailableCommand : TestCommand :=
  { TestCommand.new with behavior := BehaviorType.ERROR_RESPONSE, status_code := 503,
                         reason_phrase := bytes "Service Unavailable" }

/-- A `CLOSE_AFTER_PARTIAL` directive whose other fields are all unusual. -/
def oddPlainCommand : TestCommand :=
  { behavior := BehaviorType.CLOSE_AFTER_PARTIAL, status_code := 404,
    reason_phrase := bytes "Not Found", delay_ms := 7, bytes_per_second := -3,
    bytes_before_close := 10, body_content := bytes "Hello" }

/-! ## `ResponseGenerator::serialize` (`src/response_generator.cpp`) -/

/-- `stream << n` for an unsigned number: its decimal digits. -/
def showNat (n : Nat) : Str := (Nat.toDigits 10 n).map Char.toNat

/-- `stream << n` for an `int`: a minus sign for a negative number, then the digits. -/
def showInt (n : Int) : Str := if n < 0 then 45 :: showNat n.natAbs else showNat n.toNat

/-- The line end `\r\n`. -/
def crlf : Str := [13, 10]

/-- `ResponseGenerator::serializeStatusLine`. -/
def serializeStatusLine (response : HttpResponse) : Str :=
  if response.malform_status_line then bytes "INVALID STATUS LINE\r\n"
  else bytes "HTTP/1.1 " ++ showInt response.status_code ++ bytes " " ++
    response.reason_phrase ++ crlf

/-- The loop of `serializeHeaders` over the entries of the mapping, in its iteration
order: `name: value\r\n` for each. -/
def headerEntries : StrMap → Str
  | [] => []
  | (name, value) :: rest => name ++ bytes ": " ++ value ++ crlf ++ headerEntries rest

/-- `ResponseGenerator::serializeHeaders`. -/
def serializeHeaders (response : HttpResponse) : Str :=
  (if response.malform_headers then
    bytes "InvalidHeaderWithoutColon\r\n" ++ bytes "Another Bad Header Format\r\n"
   else headerEntries response.headers) ++
  (if response.body ≠ [] then
    (if response.wrong_content_length then
      bytes "Content-Length: " ++ showInt response.wrong_content_length_value ++ crlf
     else if response.malform_chunking then bytes "Transfer-Encoding: chunked\r\n"
     else bytes "Content-Length: " ++ showNat response.body.length ++ crlf)
   else [])

/-- `ResponseGenerator::serializeBody`. -/
def serializeBody (response : HttpResponse) : Str :=
  if response.malform_chunking then bytes "INVALID_CHUNK_SIZE\r\n" ++ response.body ++ crlf
  else response.body

/-- `ResponseGenerator::serialize`. -/
def serialize (response : HttpResponse) : Str :=
  serializeStatusLine response ++ serializeHeaders response ++ crlf ++ serializeBody response

/-- `ResponseGenerator::createOkResponse`. -/
def createOkResponse (body : Str) : HttpResponse :=
  { status_code := 200, reason_phrase := bytes "OK", headers := [], body := body,
    malform_status_line := false, malform_headers := false, wrong_content_length := false,
    wrong_content_length_value := 0, malform_chunking := false }

/-! ## `ConnectionHandler` (`src/connection_handler.cpp`)

The socket and the clock are the environment of a connection. What `recv` returns is
an argument of `onReadable`, the reading of the steady clock (in milliseconds) an
argument of the handlers that read it, and the results of the `send` calls still to
come are held, in order, in a `Wire`, which also records every `send` call made and
the bytes the socket accepted. -/

/-- `enum class ConnectionState`. -/
inductive ConnectionState where
  | READING_REQUEST
  | PROCESSING_COMMAND
  | SENDING_RESPONSE
  | WAITING
  | CLOSING
  | CLOSED
  deriving DecidableEq, Repr

/-- What a `recv` call returns: the bytes read (`n` of them; none when the peer has
closed), or `-1` with `EAGAIN`, or `-1` with another error. -/
inductive RecvResult where
  | received (data : Str)
  | wouldBlock
  | failed
  deriving DecidableEq, Repr

/-- What a `send` call returns: the number of bytes accepted, or `-1` with `EAGAIN`, or
`-1` with another error. (A `send` call that does not return, on a broken connection,
is an outcome of `SendCall`.) -/
inductive SendResult where
  | accepted (n : Nat)
  | wouldBlock
  | failed
  deriving DecidableEq, Repr

/-- The socket as the sending side sees it: the results of the `send` calls still to
come, the size of every `send` call made so far and the bytes accepted so far. -/
structure Wire where
  pending : List SendResult
  attempts : List Nat
  delivered : Str
  deriving DecidableEq, Repr

/-- `class ConnectionHandler`: its data members (the parser, the interpreter and the
generator have no state of their own beyond the parser's). -/
structure ConnectionHandler where
  state_ : ConnectionState
  parser_ : HttpParser
  current_command_ : TestCommand
  response_data_ : Str
  bytes_sent_ : Nat
  delay_start_ : Int
  delay_duration_ms_ : Int
  deriving DecidableEq, Repr

/-- `ConnectionHandler::ConnectionHandler`. (`delay_start_` is left unset by the
constructor; it is read only after `handleRequest` has set it.) -/
def ConnectionHandler.new : ConnectionHandler :=
  { state_ := ConnectionState.READING_REQUEST, parser_ := HttpParser.new,
    current_command_ := TestCommand.new, response_data_ := [], bytes_sent_ := 0,
    delay_start_ := 0, delay_duration_ms_ := 0 }

/-- Whether `sendResponse` paces the directive: `SLOW_HEADERS` or `SLOW_BODY` with a
positive rate. -/
def isPaced (cmd : TestCommand) : Bool :=
  (cmd.behavior = BehaviorType.SLOW_HEADERS || cmd.behavior = BehaviorType.SLOW_BODY) &&
    decide (cmd.bytes_per_second > 0)

/-- The size `sendResponse` asks `send` for when `remaining` bytes are left. -/
def sendSize (cmd : TestCommand) (remaining : Nat) : Nat :=
  if isPaced cmd then
    (if min remaining (cmd.bytes_per_second / 10).toNat = 0 then 1
     else min remaining (cmd.bytes_per_second / 10).toNat)
  else remaining

/-- The loop of `ConnectionHandler::sendResponse`, over the results of the `send`
calls still to come; `none` when the loop needs a result that is not given. -/
def sendLoop : List SendResult → ConnectionHandler → List Nat → Str →
    Option (ConnectionHandler × Wire)
  | pending, c, attempts, delivered =>
    if c.bytes_sent_ < c.response_data_.length then
      match pending with
      | [] => none
      | result :: rest =>
        let remaining := c.response_data_.length - c.bytes_sent_
        let to_send := sendSize c.current_command_ remaining
        match result with
        | SendResult.wouldBlock =>
          some (c, { pending := rest, attempts := attempts ++ [to_send], delivered := delivered })
        | SendResult.failed =>
          some ({ c with state_ := ConnectionState.CLOSING },
                { pending := rest, attempts := attempts ++ [to_send], delivered := delivered })
        | SendResult.accepted n =>
          let chunk := ((c.response_data_.drop c.bytes_sent_).take to_send).take n
          if isPaced c.current_command_ then
            some ({ c with bytes_sent_ := c.bytes_sent_ + n },
                  { pending := rest, attempts := attempts ++ [to_send],
                    delivered := delivered ++ chunk })
          else
            sendLoop rest { c with bytes_sent_ := c.bytes_sent_ + n } (attempts ++ [to_send])
              (delivered ++ chunk)
    else
      some ({ c with state_ := ConnectionState.CLOSING },
            { pending := pending, attempts := attempts, delivered := delivered })

/-- `ConnectionHandler::sendResponse`. -/
def ConnectionHandler.sendResponse (c : ConnectionHandler) (w : Wire) :
    Option (ConnectionHandler × Wire) :=
  sendLoop w.pending c w.attempts w.delivered

/-- The truncation `handleRequest` applies to the serialized response. -/
def truncateResponse (cmd : TestCommand) (data : Str) : Str :=
  let data1 :=
    if cmd.behavior = BehaviorType.CLOSE_AFTER_HEADERS then
      match strFind [13, 10, 13, 10] data with
      | some headers_end => data.take (headers_end + 4)
      | none => data
    else data
  if cmd.behavior = BehaviorType.CLOSE_AFTER_PARTIAL then
    (if data1.length > cmd.bytes_before_close then data1.take cmd.bytes_before_close else data1)
  else data1

/-- The part of `handleRequest` after the switch: generate, serialize, truncate, send. -/
def ConnectionHandler.respond (c : ConnectionHandler) (w : Wire) :
    Option (ConnectionHandler × Wire) :=
  ConnectionHandler.sendResponse
    { c with response_data_ := truncateResponse c.current_command_
                                 (serialize (generate c.current_command_)),
             bytes_sent_ := 0, state_ := ConnectionState.SENDING_RESPONSE } w

/-- `ConnectionHandler::handleRequest`; `now` is the reading of the clock. -/
def ConnectionHandler.handleRequest (c : ConnectionHandler) (now : Int) (w : Wire) :
    Option (ConnectionHandler × Wire) :=
  let cmd := interpret c.parser_.request_.query_params
  let c1 := { c with current_command_ := cmd }
  match cmd.behavior with
  | BehaviorType.CLOSE_IMMEDIATELY => some ({ c1 with state_ := ConnectionState.CLOSING }, w)
  | BehaviorType.TIMEOUT =>
    some ({ c1 with state_ := ConnectionState.WAITING, delay_duration_ms_ := 2147483647,
                    delay_start_ := now }, w)
  | BehaviorType.SLOW_RESPONSE =>
    if cmd.delay_ms > 0 then
      some ({ c1 with state_ := ConnectionState.WAITING, delay_duration_ms_ := cmd.delay_ms,
                      delay_start_ := now }, w)
    else ConnectionHandler.respond c1 w
  | _ => ConnectionHandler.respond c1 w

/-- `ConnectionHandler::onReadable`; `received` is what `recv` returns. The outer
`Except.error` is the exception that leaves `parse`. -/
def ConnectionHandler.onReadable (c : ConnectionHandler) (received : RecvResult) (now : Int)
    (w : Wire) : Except Exn (Option (ConnectionHandler × Wire)) :=
  if c.state_ ≠ ConnectionState.READING_REQUEST then .ok (some (c, w))
  else
    match received with
    | RecvResult.wouldBlock => .ok (some (c, w))
    | RecvResult.failed => .ok (some ({ c with state_ := ConnectionState.CLOSING }, w))
    | RecvResult.received data =>
      if data = [] then .ok (some ({ c with state_ := ConnectionState.CLOSING }, w))
      else
        match c.parser_.parse data with
        | .error e => .error e
        | .ok (p, ParseResult.COMPLETE) =>
          .ok (ConnectionHandler.handleRequest
            { c with parser_ := p, state_ := ConnectionState.PROCESSING_COMMAND } now w)
        | .ok (p, ParseResult.ERROR) =>
          .ok (some ({ c with parser_ := p, state_ := ConnectionState.CLOSING }, w))
        | .ok (p, ParseResult.INCOMPLETE) => .ok (some ({ c with parser_ := p }, w))

/-- `ConnectionHandler::onWritable`. -/
def ConnectionHandler.onWritable (c : ConnectionHandler) (w : Wire) :
    Option (ConnectionHandler × Wire) :=
  if c.state_ ≠ ConnectionState.SENDING_RESPONSE then some (c, w)
  else ConnectionHandler.sendResponse c w

/-- `ConnectionHandler::onTimer`; `now` is the reading of the clock. -/
def ConnectionHandler.onTimer (c : ConnectionHandler) (now : Int) (w : Wire) :
    Option (ConnectionHandler × Wire) :=
  if c.state_ = ConnectionState.WAITING then
    (if now - c.delay_start_ ≥ c.delay_duration_ms_ then
      ConnectionHandler.sendResponse { c with state_ := ConnectionState.SENDING_RESPONSE } w
     else some (c, w))
  else some (c, w)

/-! ## The words of the specification: serialized responses -/

/-- The number of malformation flags a response has set. -/
def flagCount (r : HttpResponse) : Nat :=
  (if r.malform_status_line then 1 else 0) + (if r.malform_headers then 1 else 0) +
  (if r.wrong_content_length then 1 else 0) + (if r.malform_chunking then 1 else 0)

/-- The behavior kinds that set a malformation flag. -/
def malformedKinds : List BehaviorType :=
  [BehaviorType.INVALID_STATUS_LINE, BehaviorType.INVALID_HEADERS,
   BehaviorType.WRONG_CONTENT_LENGTH, BehaviorType.MALFORMED_CHUNKING]

/-- The bytes the specification gives a well-formed model: the status line, one line
per entry of the headers mapping, the `Content-Length` line when the body is not
empty, the empty line, the body. -/
def specSerialize (r : HttpResponse) : Str :=
  bytes "HTTP/1.1 " ++ showInt r.status_code ++ bytes " " ++ r.reason_phrase ++ bytes "\r\n" ++
  (r.headers.map (fun entry => entry.1 ++ bytes ": " ++ entry.2 ++ bytes "\r\n")).flatten ++
  (if r.body.length = 0 then []
   else bytes "Content-Length: " ++ showNat r.body.length ++ bytes "\r\n") ++
  bytes "\r\n" ++ r.body

/-- A mapping whose entries come in ascending order of their names. -/
def StrMap.ordered (m : StrMap) : Prop := m.Pairwise (fun a b => strLt a.1 b.1 = true)

/-- The mapping built by `m[name] = value` for each of the pairs in turn. -/
def StrMap.ofList (entries : List (Str × Str)) : StrMap :=
  entries.foldl (fun m entry => StrMap.assign entry.1 entry.2 m) []

/-- The line that follows the header lines in the output of `serialize`: nothing for
an empty body; otherwise `Content-Length` with the fabricated value when
`wrong_content_length` is set, else `Transfer-Encoding: chunked` when
`malform_chunking` is set, else `Content-Length` with the length of the body. -/
def specLengthLine (r : HttpResponse) : Str :=
  if r.body.length = 0 then []
  else if r.wrong_content_length then
    bytes "Content-Length: " ++ showInt r.wrong_content_length_value ++ bytes "\r\n"
  else if r.malform_chunking then bytes "Transfer-Encoding: chunked\r\n"
  else bytes "Content-Length: " ++ showNat r.body.length ++ bytes "\r\n"

/-- The serialized response of a directive whose response is the plain one:
`HTTP/1.1 200 OK`, `Content-Length: 2`, the empty line and the body `OK`. -/
def fullOkResponse : Str := bytes "HTTP/1.1 200 OK\r\nContent-Length: 2\r\n\r\nOK"

/-- Every `send` succeeds until `remaining` bytes have been accepted: each of the
results that are needed is a count between 1 and the number of bytes still to send. -/
def allAccepted : List SendResult → Nat → Bool
  | pending, remaining =>
    if remaining = 0 then true
    else
      match pending with
      | SendResult.accepted n :: rest =>
        decide (1 ≤ n ∧ n ≤ remaining) && allAccepted rest (remaining - n)
      | _ => false

/-! ## Sample responses and connections -/

/-- A model with `malform_headers` and `malform_chunking` both set. -/
def badHeadersChunkedResponse : HttpResponse :=
  { status_code := 200, reason_phrase := bytes "OK", headers := [(bytes "A", bytes "b")],
    body := bytes "x", malform_status_line := false, malform_headers := true,
    wrong_content_length := false, wrong_content_length_value := 0, malform_chunking := true }

/-- The model `createOkResponse("Body")` with the headers `X-Custom-Header` and
`Content-Type` assigned, in that order. -/
def okWithHeaders : HttpResponse :=
  { createOkResponse (bytes "Body") with
    headers := StrMap.ofList [(bytes "X-Custom-Header", bytes "test-value"),
                              (bytes "Content-Type", bytes "text/plain")] }

/-- A socket that has accepted nothing yet and will give the results `results`. -/
def Wire.fresh (results : List SendResult) : Wire :=
  { pending := results, attempts := [], delivered := [] }

/-- A connection whose parser holds a request with the query parameters `params`, as
`onReadable` hands it to `handleRequest`. -/
def connectionWith (params : StrMap) : ConnectionHandler :=
  { state_ := ConnectionState.PROCESSING_COMMAND,
    parser_ := { request_ := { method := bytes "GET", path := bytes "/",
                               http_version := bytes "HTTP/1.1", headers := [],
                               query_params := params },
                 buffer_ := [], state_ := ParseResult.COMPLETE, error_message_ := [],
                 headers_complete_ := false },
    current_command_ := TestCommand.new, response_data_ := [], bytes_sent_ := 0,
    delay_start_ := 0, delay_duration_ms_ := 0 }

/-- The map `behavior = close_partial`, `bytes = 10`. -/
def closePartialTenParams : StrMap :=
  [(bytes "behavior", bytes "close_partial"), (bytes "bytes", bytes "10")]

/-- The map `behavior = close_headers`. -/
def closeHeadersParams : StrMap := [(bytes "behavior", bytes "close_headers")]

/-- The map `behavior = timeout`. -/
def timeoutParams : StrMap := [(bytes "behavior", bytes "timeout")]

/-- The plain response up to and including its first empty line. -/
def okHeadersOnly : Str := bytes "HTTP/1.1 200 OK\r\nContent-Length: 2\r\n\r\n"

/-- A request for a response delayed by 100 milliseconds. -/
def slowDelayRequest : Str := bytes "GET /?behavior=slow&delay=100 HTTP/1.1\r\n\r\n"

/-- A request for the timeout behavior. -/
def timeoutRequest : Str := bytes "GET /?behavior=timeout HTTP/1.1\r\n\r\n"

/-- A request for the close-after-partial behavior with 10 bytes. -/
def closePartialTenRequest : Str :=
  bytes "GET /?behavior=close_partial&bytes=10 HTTP/1.1\r\n\r\n"

/-! ## Handler calls in sequence -/

/-- One call the main loop makes on a connection: `onReadable` (with what `recv`
returns and the reading of the clock), `onWritable`, or `onTimer` (with the reading of
the clock). -/
inductive Event where
  | readable (received : RecvResult) (now : Int)
  | writable
  | timer (now : Int)
  deriving DecidableEq, Repr

/-- The handler call of an event. -/
def ConnectionHandler.onEvent (c : ConnectionHandler) (w : Wire) :
    Event → Except Exn (Option (ConnectionHandler × Wire))
  | Event.readable received now => c.onReadable received now w
  | Event.writable => .ok (c.onWritable w)
  | Event.timer now => .ok (c.onTimer now w)

/-- The handler calls of a list of events, one after the other, as the main loop makes
them on a connection. -/
def runEvents : List Event → ConnectionHandler → Wire →
    Except Exn (Option (ConnectionHandler × Wire))
  | [], c, w => .ok (some (c, w))
  | e :: es, c, w =>
    match c.onEvent w e with
    | .ok (some (c2, w2)) => runEvents es c2 w2
    | .ok none => .ok none
    | .error x => .error x

/-- The handling of a parsed request followed by the handler calls of a list of
events. -/
def requestThenEvents (c : ConnectionHandler) (now : Int) (w : Wire) (events : List Event) :
    Except Exn (Option (ConnectionHandler × Wire)) :=
  match c.handleRequest now w with
  | some (c2, w2) => runEvents events c2 w2
  | none => .ok none

/-! ## The words of the specification: the connection engine -/

/-- What a connection shows on the wire side: its state, its output buffer and its
send cursor. -/
def wireView (c : ConnectionHandler) : ConnectionState × Str × Nat :=
  (c.state_, c.response_data_, c.bytes_sent_)

/-- The size the pacing rule gives one send attempt at rate `r` with `m` bytes left:
`min(m, max(1, r / 10))`. -/
def pacedSize (r : Int) (m : Nat) : Nat := min m (max 1 (r / 10).toNat)

/-- A request for the close-immediately behavior. -/
def closeRequest : Str := bytes "GET /?behavior=close HTTP/1.1\r\n\r\n"

/-- The map `behavior = slow_body`, `rate = 1000`. -/
def slowBodyFastParams : StrMap :=
  [(bytes "behavior", bytes "slow_body"), (bytes "rate", bytes "1000")]

/-- A request for the slow-body behavior at 1000 bytes per second. -/
def slowBodyFastRequest : Str := bytes "GET /?behavior=slow_body&rate=1000 HTTP/1.1\r\n\r\n"

/-- The map `behavior = slow_body`, `rate = 0`. -/
def slowBodyZeroParams : StrMap :=
  [(bytes "behavior", bytes "slow_body"), (bytes "rate", bytes "0")]

/-- The map `behavior = close_partial`, `bytes = -1`. -/
def closePartialNegativeParams : StrMap :=
  [(bytes "behavior", bytes "close_partial"), (bytes "bytes", bytes "-1")]

/-- The map `behavior = error`, `code = 502abc`. -/
def errorTrailingParams : StrMap :=
  [(bytes "behavior", bytes "error"), (bytes "code", bytes "502abc")]

/-- A connection in the middle of sending the plain response with the directive of
`params`: 10 of the 40 bytes are sent. -/
def sendingWith (params : StrMap) : ConnectionHandler :=
  { connectionWith params with
    state_ := ConnectionState.SENDING_RESPONSE, current_command_ := interpret params,
    response_data_ := fullOkResponse, bytes_sent_ := 10 }

/-- The parser of a new connection after it has read `closeRequest`. -/
def closeRequestParser : HttpParser :=
  match HttpParser.new.parse closeRequest with
  | .ok (p, _) => p
  | .error _ => HttpParser.new

/-- A connection that has been told to close. -/
def closingConnection : ConnectionHandler :=
  { ConnectionHandler.new with state_ := ConnectionState.CLOSING }

/-! ## A send pass in the process -/

/-- What a call of `send` with flags 0 does: it returns (a count, `EAGAIN` or another
error), or, when the peer has hung up and the connection is broken, `SIGPIPE` is
raised in the call. `sendResponse` passes no `MSG_NOSIGNAL` and `main` sets a handler
for `SIGINT` and `SIGTERM` only, so the default disposition of `SIGPIPE` applies: the
process ends there. -/
inductive SendCall where
  | returns (result : SendResult)
  | sigpipe
  deriving DecidableEq, Repr

/-- How a pass of `sendResponse` ends: it returns, with the connection, the `send`
calls still to come, the size of every `send` call made so far and the bytes accepted
so far; or the process is ended by `SIGPIPE` inside a `send` call; or the pass needs a
`send` call that is not given. -/
inductive PassEnd where
  | returned (c : ConnectionHandler) (rest : List SendCall) (attempts : List Nat)
      (delivered : Str)
  | killed (attempts : List Nat) (delivered : Str)
  | notGiven
  deriving DecidableEq, Repr

/-- The loop of `ConnectionHandler::sendResponse` in the process, over the `send`
calls to come. -/
def sendLoopInProcess : List SendCall → ConnectionHandler → List Nat → Str → PassEnd
  | calls, c, attempts, delivered =>
    if c.bytes_sent_ < c.response_data_.length then
      match calls with
      | [] => PassEnd.notGiven
      | call :: rest =>
        let remaining := c.response_data_.length - c.bytes_sent_
        let to_send := sendSize c.current_command_ remaining
        match call with
        | SendCall.sigpipe => PassEnd.killed (attempts ++ [to_send]) delivered
        | SendCall.returns SendResult.wouldBlock =>
          PassEnd.returned c rest (attempts ++ [to_send]) delivered
        | SendCall.returns SendResult.failed =>
          PassEnd.returned { c with state_ := ConnectionState.CLOSING } rest
            (attempts ++ [to_send]) delivered
        | SendCall.returns (SendResult.accepted n) =>
          let chunk := ((c.response_data_.drop c.bytes_sent_).take to_send).take n
          if isPaced c.current_command_ then
            PassEnd.returned { c with bytes_sent_ := c.bytes_sent_ + n } rest
              (attempts ++ [to_send]) (delivered ++ chunk)
          else
            sendLoopInProcess rest { c with bytes_sent_ := c.bytes_sent_ + n }
              (attempts ++ [to_send]) (delivered ++ chunk)
    else
      PassEnd.returned { c with state_ := ConnectionState.CLOSING } calls attempts delivered

/-- `ConnectionHandler::onWritable` in the process. -/
def ConnectionHandler.onWritableInProcess (c : ConnectionHandler) (calls : List SendCall)
    (attempts : List Nat) (delivered : Str) : PassEnd :=
  if c.state_ ≠ ConnectionState.SENDING_RESPONSE then
    PassEnd.returned c calls attempts delivered
  else sendLoopInProcess calls c attempts delivered

/-- The pass of `sendLoop` seen as a pass in the process. -/
def PassEnd.ofPass : Option (ConnectionHandler × Wire) → PassEnd
  | some (c, w) => PassEnd.returned c (w.pending.map SendCall.returns) w.attempts w.delivered
  | none => PassEnd.notGiven

/-- A request for the slow-body behavior at 100 bytes per second. -/
def slowBodyRequest : Str := bytes "GET /?behavior=slow_body&rate=100 HTTP/1.1\r\n\r\n"

/-! ## Searching a string -/

theorem strFind_bound {pat : Str} : ∀ {s : Str} {i : Nat},
    strFind pat s = some i → i + pat.length ≤ s.length := by
  intro s
  induction s with
  | nil =>
    intro i h
    simp only [strFind] at h
    split at h
    · rename_i hp
      cases h
      simp [hp]
    · cases h
  | cons c s ih =>
    intro i h
    simp only [strFind] at h
    split at h
    · rename_i hp
      cases h
      have := (List.isPrefixOf_iff_prefix.mp hp).length_le
      simpa using this
    · cases hs : strFind pat s with
      | none => simp [hs] at h
      | some j =>
        simp [hs] at h
        have := ih hs
        simp only [List.length_cons]
        omega

theorem strFind_append {pat : Str} (b : Str) : ∀ {a : Str} {i : Nat},
    strFind pat a = some i → strFind pat (a ++ b) = some i := by
  intro a
  induction a with
  | nil =>
    intro i h
    simp only [strFind] at h
    split at h
    · rename_i hp
      cases h
      subst hp
      cases b <;> simp [strFind]
    · cases h
  | cons c s ih =>
    intro i h
    simp only [strFind] at h
    split at h
    · rename_i hp
      cases h
      have hp2 : pat <+: c :: (s ++ b) :=
        (List.isPrefixOf_iff_prefix.mp hp).trans (List.prefix_append (c :: s) b)
      rw [List.cons_append, strFind, if_pos (List.isPrefixOf_iff_prefix.mpr hp2)]
    · rename_i hp
      cases hs : strFind pat s with
      | none => simp [hs] at h
      | some j =>
        simp [hs] at h
        have hlen := strFind_bound hs
        have hnp : ¬ pat.isPrefixOf (c :: (s ++ b)) = true := by
          intro hq
          apply hp
          have h1 : pat <+: (c :: s) ++ b := List.isPrefixOf_iff_prefix.mp hq
          have h2 : (c :: s) <+: (c :: s) ++ b := List.prefix_append _ _
          exact List.isPrefixOf_iff_prefix.mpr
            (List.prefix_of_prefix_length_le h1 h2 (by simp only [List.length_cons]; omega))
        rw [List.cons_append, strFind, if_neg hnp, ih hs]
        simp [h]

theorem strFind_none_iff {pat : Str} : ∀ {s : Str}, strFind pat s = none ↔ ¬ pat <:+: s := by
  intro s
  induction s with
  | nil =>
    simp only [strFind]
    split
    · rename_i hp
      subst hp
      simp
    · rename_i hp
      simp [hp]
  | cons c s ih =>
    simp only [strFind, List.infix_cons_iff]
    split
    · rename_i hp
      simp [List.isPrefixOf_iff_prefix.mp hp]
    · rename_i hp
      have hnp : ¬ pat <+: c :: s := fun h => hp (List.isPrefixOf_iff_prefix.mpr h)
      simp [hnp, ih]

theorem findEndOfHeaders_none_iff {s : Str} :
    findEndOfHeaders s = none ↔ ¬ [13, 10, 13, 10] <:+: s := by
  rw [← strFind_none_iff]
  unfold findEndOfHeaders
  cases strFind [13, 10, 13, 10] s <;> simp

theorem findEndOfHeaders_append {a : Str} {e : Nat} (b : Str)
    (h : findEndOfHeaders a = some e) :
    findEndOfHeaders (a ++ b) = some e ∧ e ≤ a.length := by
  unfold findEndOfHeaders at h ⊢
  cases hs : strFind [13, 10, 13, 10] a with
  | none => simp [hs] at h
  | some pos =>
    simp [hs] at h
    have hb := strFind_bound hs
    rw [strFind_append b hs]
    simp at hb
    subst h
    exact ⟨rfl, hb⟩

/-! ## The parser: basic facts -/

theorem parse_terminal {p : HttpParser} (d : Str) (h : p.state_ ≠ ParseResult.INCOMPLETE) :
    p.parse d = .ok (p, p.state_) := by
  unfold HttpParser.parse
  have h2 : p.state_ = ParseResult.COMPLETE ∨ p.state_ = ParseResult.ERROR := by
    cases hs : p.state_ <;> simp_all
  rw [if_pos h2]

theorem parseAll_terminal {p : HttpParser} (h : p.state_ ≠ ParseResult.INCOMPLETE) :
    ∀ chunks : List Str, p.parseAll chunks = .ok (p, List.replicate chunks.length p.state_) := by
  intro chunks
  induction chunks with
  | nil => rfl
  | cons d more ih =>
    simp only [HttpParser.parseAll, parse_terminal d h, ih, List.length_cons, List.replicate_succ]

theorem parseRequestLine_buffer (p : HttpParser) (b line : Str) :
    parseRequestLine { p with buffer_ := b } line =
      ({ (parseRequestLine p line).1 with buffer_ := b }, (parseRequestLine p line).2) := by
  unfold parseRequestLine
  split
  · split <;> rfl
  · rfl

theorem parseHeader_buffer (p : HttpParser) (b line : Str) :
    parseHeader { p with buffer_ := b } line =
      ({ (parseHeader p line).1 with buffer_ := b }, (parseHeader p line).2) := by
  unfold parseHeader
  split <;> rfl

theorem parseLines_buffer (b : Str) : ∀ (ls : List Str) (first_line : Bool) (p : HttpParser),
    parseLines ls first_line { p with buffer_ := b } =
      ({ (parseLines ls first_line p).1 with buffer_ := b }, (parseLines ls first_line p).2) := by
  intro ls
  induction ls with
  | nil => intro first_line p; rfl
  | cons raw rest ih =>
    intro first_line p
    simp only [parseLines]
    split
    · exact ih first_line p
    · split
      · rw [parseRequestLine_buffer]
        rcases hq : parseRequestLine p (stripCR raw) with ⟨p1, ok⟩
        cases ok
        · rfl
        · exact ih false p1
      · rw [parseHeader_buffer]
        rcases hq : parseHeader p (stripCR raw) with ⟨p1, ok⟩
        cases ok
        · rfl
        · exact ih false p1

theorem parseRequestLine_false {p q : HttpParser} {line : Str}
    (h : parseRequestLine p line = (q, false)) :
    q.error_message_ ≠ [] ∧ q.request_ = p.request_ := by
  unfold parseRequestLine at h
  split at h
  · split at h
    · cases h
      exact ⟨by show bytes _ ≠ []; decide, rfl⟩
    · cases h
  · cases h
    exact ⟨by show bytes _ ≠ []; decide, rfl⟩

theorem parseHeader_false {p q : HttpParser} {line : Str}
    (h : parseHeader p line = (q, false)) :
    q.error_message_ ≠ [] ∧ q.request_ = p.request_ := by
  unfold parseHeader at h
  split at h
  · cases h
    exact ⟨by show bytes _ ≠ []; decide, rfl⟩
  · cases h

theorem parseRequestLine_true {p q : HttpParser} {line : Str}
    (h : parseRequestLine p line = (q, true)) :
    q.state_ = p.state_ ∧ q.error_message_ = p.error_message_ ∧
      q.request_.query_params = p.request_.query_params ∧
      q.request_.headers = p.request_.headers := by
  unfold parseRequestLine at h
  split at h
  · split at h
    · cases h
    · cases h
      exact ⟨rfl, rfl, rfl, rfl⟩
  · cases h

theorem parseHeader_true {p q : HttpParser} {line : Str}
    (h : parseHeader p line = (q, true)) :
    q.state_ = p.state_ ∧ q.error_message_ = p.error_message_ ∧
      q.request_.query_params = p.request_.query_params ∧
      q.request_.method = p.request_.method ∧ q.request_.path = p.request_.path ∧
      q.request_.http_version = p.request_.http_version := by
  unfold parseHeader at h
  split at h
  · cases h
  · cases h
    exact ⟨rfl, rfl, rfl, rfl, rfl, rfl⟩

theorem parseLines_false : ∀ {ls : List Str} {first_line : Bool} {p q : HttpParser},
    parseLines ls first_line p = (q, false) →
    q.state_ = ParseResult.ERROR ∧ q.error_message_ ≠ [] := by
  intro ls
  induction ls with
  | nil => intro first_line p q h; simp [parseLines] at h
  | cons raw rest ih =>
    intro first_line p q h
    simp only [parseLines] at h
    split at h
    · exact ih h
    · split at h
      · rcases hq : parseRequestLine p (stripCR raw) with ⟨p1, ok⟩
        rw [hq] at h
        cases ok
        · simp only [Prod.mk.injEq, and_true] at h
          subst h
          exact ⟨rfl, (parseRequestLine_false hq).1⟩
        · exact ih h
      · rcases hq : parseHeader p (stripCR raw) with ⟨p1, ok⟩
        rw [hq] at h
        cases ok
        · simp only [Prod.mk.injEq, and_true] at h
          subst h
          exact ⟨rfl, (parseHeader_false hq).1⟩
        · exact ih h

theorem parseLines_true : ∀ {ls : List Str} {first_line : Bool} {p q : HttpParser},
    parseLines ls first_line p = (q, true) →
    q.state_ = p.state_ ∧ q.error_message_ = p.error_message_ ∧
      q.request_.query_params = p.request_.query_params := by
  intro ls
  induction ls with
  | nil =>
    intro first_line p q h
    simp only [parseLines, Prod.mk.injEq, and_true] at h
    subst h
    exact ⟨rfl, rfl, rfl⟩
  | cons raw rest ih =>
    intro first_line p q h
    simp only [parseLines] at h
    split at h
    · exact ih h
    · split at h
      · rcases hq : parseRequestLine p (stripCR raw) with ⟨p1, ok⟩
        rw [hq] at h
        cases ok
        · simp at h
        · have h1 := parseRequestLine_true hq
          have h2 := ih h
          exact ⟨h2.1.trans h1.1, h2.2.1.trans h1.2.1, h2.2.2.trans h1.2.2.1⟩
      · rcases hq : parseHeader p (stripCR raw) with ⟨p1, ok⟩
        rw [hq] at h
        cases ok
        · simp at h
        · have h1 := parseHeader_true hq
          have h2 := ih h
          exact ⟨h2.1.trans h1.1, h2.2.1.trans h1.2.1, h2.2.2.trans h1.2.2.1⟩

theorem parse_incomplete_none {p : HttpParser} {d : Str}
    (hs : p.state_ = ParseResult.INCOMPLETE) (hf : findEndOfHeaders (p.buffer_ ++ d) = none) :
    p.parse d = .ok ({ p with buffer_ := p.buffer_ ++ d }, ParseResult.INCOMPLETE) := by
  unfold HttpParser.parse
  rw [if_neg (by simp [hs])]
  simp only [hf]
  cases p
  simp_all

theorem parse_incomplete_some {p : HttpParser} {d : Str} {e : Nat}
    (hs : p.state_ = ParseResult.INCOMPLETE) (hf : findEndOfHeaders (p.buffer_ ++ d) = some e) :
    p.parse d = finishParse (parseLines (segments 10 ((p.buffer_ ++ d).take e)) true
      { p with buffer_ := p.buffer_ ++ d }) := by
  unfold HttpParser.parse
  rw [if_neg (by simp [hs])]
  simp only [hf]
  rcases parseLines (segments 10 ((p.buffer_ ++ d).take e)) true
      { p with buffer_ := p.buffer_ ++ d } with ⟨p1, ok⟩
  cases ok <;> rfl

theorem finishParse_state {x : HttpParser × Bool} {q : HttpParser} {r : ParseResult}
    (h : finishParse x = .ok (q, r)) : q.state_ = r := by
  rcases x with ⟨p1, ok⟩
  cases ok
  · simp only [finishParse, Except.ok.injEq, Prod.mk.injEq] at h
    rw [← h.1]
    exact h.2
  · simp only [finishParse] at h
    split at h
    · cases h
    · simp only [Except.ok.injEq, Prod.mk.injEq] at h
      rw [← h.1]
      exact h.2

/-- `parse` returns `state_`. -/
theorem parse_result_eq_state {p q : HttpParser} {d : Str} {r : ParseResult}
    (h : p.parse d = .ok (q, r)) : q.state_ = r := by
  by_cases hs : p.state_ = ParseResult.INCOMPLETE
  · cases hf : findEndOfHeaders (p.buffer_ ++ d) with
    | none =>
      rw [parse_incomplete_none hs hf] at h
      simp only [Except.ok.injEq, Prod.mk.injEq] at h
      rw [← h.1, ← h.2]
      exact hs
    | some e =>
      rw [parse_incomplete_some hs hf] at h
      exact finishParse_state h
  · rw [parse_terminal d hs] at h
    simp only [Except.ok.injEq, Prod.mk.injEq] at h
    rw [← h.1]
    exact h.2

theorem finishParse_parseLines_terminal {ls : List Str} {first_line : Bool}
    {p q : HttpParser} {r : ParseResult}
    (h : finishParse (parseLines ls first_line p) = .ok (q, r)) :
    r ≠ ParseResult.INCOMPLETE := by
  rcases hx : parseLines ls first_line p with ⟨p1, ok⟩
  rw [hx] at h
  cases ok
  · simp only [finishParse, Except.ok.injEq, Prod.mk.injEq] at h
    rw [← h.2, (parseLines_false hx).1]
    decide
  · simp only [finishParse] at h
    split at h
    · cases h
    · simp only [Except.ok.injEq, Prod.mk.injEq] at h
      rw [← h.2]
      decide

/-! ## Feeding a request in two pieces -/

/-- Two feeds `a`, `b` and the single feed `a ++ b` cannot be told apart. -/
theorem observe_two_feeds (a b : Str) :
    observe (HttpParser.new.parseAll [a, b]) = observe (HttpParser.new.parseAll [a ++ b]) := by
  have hnew : HttpParser.new.state_ = ParseResult.INCOMPLETE := rfl
  cases hf : findEndOfHeaders a with
  | none =>
    have h1 : HttpParser.new.parse a =
        .ok ({ HttpParser.new with buffer_ := a }, ParseResult.INCOMPLETE) :=
      parse_incomplete_none hnew (by simpa [HttpParser.new] using hf)
    have h2 : HttpParser.parse { HttpParser.new with buffer_ := a } b =
        HttpParser.new.parse (a ++ b) := rfl
    simp only [HttpParser.parseAll, h1, h2]
    cases HttpParser.new.parse (a ++ b) with
    | error e => rfl
    | ok x => rfl
  | some e =>
    obtain ⟨hfs, hle⟩ := findEndOfHeaders_append b hf
    have h1 := parse_incomplete_some (p := HttpParser.new) (d := a) hnew
      (by simpa [HttpParser.new] using hf)
    have h2 := parse_incomplete_some (p := HttpParser.new) (d := a ++ b) hnew
      (by simpa [HttpParser.new] using hfs)
    have ht : (HttpParser.new.buffer_ ++ (a ++ b)).take e = (HttpParser.new.buffer_ ++ a).take e := by
      simp only [HttpParser.new, List.nil_append]
      exact List.take_append_of_le_length hle
    rw [ht, parseLines_buffer] at h2
    rw [parseLines_buffer] at h1
    rcases hx : parseLines (segments 10 ((HttpParser.new.buffer_ ++ a).take e)) true
      HttpParser.new with ⟨q, ok⟩
    rw [hx] at h1 h2
    cases ok
    · have hq := (parseLines_false hx).1
      simp only [finishParse] at h1 h2
      have h3 : HttpParser.parse { q with buffer_ := HttpParser.new.buffer_ ++ a } b =
          .ok ({ q with buffer_ := HttpParser.new.buffer_ ++ a }, q.state_) :=
        parse_terminal b (by simp [hq])
      simp only [HttpParser.parseAll, h1, h2, h3, observe, hq]
      rfl
    · simp only [finishParse] at h1 h2
      cases hq : extractQueryParams q.request_ q.request_.path with
      | error ex =>
        simp only [hq] at h1 h2
        simp only [HttpParser.parseAll, h1, h2, observe]
      | ok r =>
        simp only [hq] at h1 h2
        have h3 := parse_terminal (p := { request_ := r, buffer_ := HttpParser.new.buffer_ ++ a,
                                          state_ := ParseResult.COMPLETE,
                                          error_message_ := q.error_message_,
                                          headers_complete_ := q.headers_complete_ }) b (by simp)
        simp only [HttpParser.parseAll, h1, h2, h3, observe]
        rfl

/-- C1. Split-invariance of `HttpParser::parse`: for every byte string `s` and every
offset `k`, feeding `s[0..k)` and then `s[k..)` to a fresh parser ends with the same
result, the same parsed request and the same error message (or the same exception) as
feeding `s` in one call; and the sample request
`GET /test?behavior=error&code=502 HTTP/1.1` split at any offset is `COMPLETE` with
method `GET`, path `/test?behavior=error&code=502` and query parameters
`behavior = error`, `code = 502`. -/
theorem parse_split_invariant :
    (∀ (s : Str) (k : Nat),
      observe (HttpParser.new.parseAll [s.take k, s.drop k]) =
        observe (HttpParser.new.parseAll [s])) ∧
    (∀ k : Nat,
      observe (HttpParser.new.parseAll [List.take k sampleRequest, List.drop k sampleRequest]) =
        .ok (some ParseResult.COMPLETE, sampleParsed, [])) := by
  have key : ∀ (s : Str) (k : Nat),
      observe (HttpParser.new.parseAll [s.take k, s.drop k]) =
        observe (HttpParser.new.parseAll [s]) := by
    intro s k
    rw [observe_two_feeds, List.take_append_drop]
  refine ⟨key, fun k => ?_⟩
  rw [key]
  rfl

/-! ## When the parser asks for more bytes -/

theorem lastResult_parseAll_cons_cons (p : HttpParser) (d d2 : Str) (more : List Str) :
    lastResult (p.parseAll (d :: d2 :: more)) =
      match p.parse d with
      | .error _ => none
      | .ok (p1, _) => lastResult (p1.parseAll (d2 :: more)) := by
  rw [HttpParser.parseAll]
  cases h1 : p.parse d with
  | error e => rfl
  | ok x =>
    rcases x with ⟨p1, res⟩
    simp only []
    rw [HttpParser.parseAll]
    cases h2 : p1.parse d2 with
    | error e => rfl
    | ok y =>
      rcases y with ⟨p2, res2⟩
      simp only []
      cases h3 : p2.parseAll more with
      | error e => rfl
      | ok z =>
        rcases z with ⟨p3, results⟩
        simp [lastResult, List.getLast?_cons_cons]

theorem lastResult_incomplete_iff : ∀ (more : List Str) (p : HttpParser) (d : Str),
    p.state_ = ParseResult.INCOMPLETE →
    (lastResult (p.parseAll (d :: more)) = some ParseResult.INCOMPLETE ↔
      findEndOfHeaders (p.buffer_ ++ (d :: more).flatten) = none) := by
  intro more
  induction more with
  | nil =>
    intro p d hs
    simp only [List.flatten, List.append_nil]
    cases hf : findEndOfHeaders (p.buffer_ ++ d) with
    | none =>
      simp [HttpParser.parseAll, parse_incomplete_none hs hf, lastResult, hf]
    | some e =>
      simp only [HttpParser.parseAll, parse_incomplete_some hs hf]
      cases hx : finishParse (parseLines (segments 10 ((p.buffer_ ++ d).take e)) true
          { p with buffer_ := p.buffer_ ++ d }) with
      | error ex => simp [lastResult, hf]
      | ok x =>
        rcases x with ⟨q, r⟩
        have := finishParse_parseLines_terminal hx
        simp [lastResult, this, hf]
  | cons d2 more ih =>
    intro p d hs
    rw [lastResult_parseAll_cons_cons]
    cases hf : findEndOfHeaders (p.buffer_ ++ d) with
    | none =>
      rw [parse_incomplete_none hs hf]
      simp only []
      have hi := ih { p with buffer_ := p.buffer_ ++ d } d2 hs
      rw [hi]
      simp only [List.flatten, List.append_assoc]
    | some e =>
      have hfs := (findEndOfHeaders_append (d2 :: more).flatten hf).1
      have hrhs : findEndOfHeaders (p.buffer_ ++ (d :: d2 :: more).flatten) = some e := by
        simpa only [List.flatten, List.append_assoc] using hfs
      rw [hrhs, parse_incomplete_some hs hf]
      cases hx : finishParse (parseLines (segments 10 ((p.buffer_ ++ d).take e)) true
          { p with buffer_ := p.buffer_ ++ d }) with
      | error ex => simp
      | ok x =>
        rcases x with ⟨q, r⟩
        have hr := finishParse_parseLines_terminal hx
        have hq := finishParse_state hx
        simp only []
        rw [parseAll_terminal (by rw [hq]; exact hr)]
        simp [lastResult, List.getLast?_cons_cons, hq, hr, List.getLast?_replicate]

/-- C2. For every non-empty run of `parse` calls on a fresh parser, the last call
returns `INCOMPLETE` if and only if the concatenation of all bytes fed contains no
occurrence of the terminator `\r\n\r\n`; the empty input, `GET /test` and
`GET / HTTP/1.1\r\nHost: example.com\r\n` are `INCOMPLETE`. -/
theorem parse_incomplete_iff_no_terminator :
    (∀ (d : Str) (more : List Str),
      lastResult (HttpParser.new.parseAll (d :: more)) = some ParseResult.INCOMPLETE ↔
        ¬ [13, 10, 13, 10] <:+: (d :: more).flatten) ∧
    lastResult (HttpParser.new.parseAll [bytes ""]) = some ParseResult.INCOMPLETE ∧
    lastResult (HttpParser.new.parseAll [bytes "GET /test"]) = some ParseResult.INCOMPLETE ∧
    lastResult (HttpParser.new.parseAll [bytes "GET / HTTP/1.1\r\nHost: example.com\r\n"]) =
      some ParseResult.INCOMPLETE := by
  refine ⟨fun d more => ?_, rfl, rfl, rfl⟩
  rw [lastResult_incomplete_iff more HttpParser.new d rfl, findEndOfHeaders_none_iff]
  rfl

/-! ## Terminal states and `reset` -/

/-- C9. Terminal states are sticky: once a `parse` call has returned `COMPLETE` or
`ERROR`, every later `parse` call, with any bytes, returns that same result and
leaves the parser (parsed request and error message included) unchanged. -/
theorem parse_terminal_sticky (p0 p : HttpParser) (d0 : Str) (r : ParseResult)
    (h : p0.parse d0 = .ok (p, r))
    (hr : r = ParseResult.COMPLETE ∨ r = ParseResult.ERROR) :
    (∀ d : Str, p.parse d = .ok (p, r)) ∧
    (∀ chunks : List Str, p.parseAll chunks = .ok (p, List.replicate chunks.length r)) := by
  have hs : p.state_ = r := parse_result_eq_state h
  have hne : p.state_ ≠ ParseResult.INCOMPLETE := by
    rw [hs]
    rcases hr with hr | hr <;> simp [hr]
  constructor
  · intro d
    rw [parse_terminal d hne, hs]
  · intro chunks
    rw [parseAll_terminal hne, hs]

theorem parse_terminal_sticky_witness :
    (∀ d : Str, parsedRoot.parse d = .ok (parsedRoot, ParseResult.COMPLETE)) ∧
    (∀ chunks : List Str,
      parsedRoot.parseAll chunks =
        .ok (parsedRoot, List.replicate chunks.length ParseResult.COMPLETE)) :=
  parse_terminal_sticky HttpParser.new parsedRoot (bytes "GET / HTTP/1.1\r\n\r\n")
    ParseResult.COMPLETE rfl (Or.inl rfl)

/-- C10. `reset()` restores the fresh state: whatever the parser went through, after
`reset()` it is the newly constructed parser, so feeding any byte string gives the
same result, parsed request and error message as on a new parser; after
`GET /first HTTP/1.1`, `reset()`, the request `POST /second HTTP/1.1` is `COMPLETE`
with method `POST`, path `/second` and nothing left of the first request. -/
theorem reset_restores_fresh :
    (∀ p : HttpParser, p.reset = HttpParser.new) ∧
    (∀ (p : HttpParser) (s : Str), p.reset.parse s = HttpParser.new.parse s) ∧
    (∃ p1 r1 p2,
      HttpParser.new.parse (bytes "GET /first HTTP/1.1\r\n\r\n") = .ok (p1, r1) ∧
      p1.reset.parse (bytes "POST /second HTTP/1.1\r\n\r\n") = .ok (p2, ParseResult.COMPLETE) ∧
      p2.request_ = { method := bytes "POST", path := bytes "/second",
                      http_version := bytes "HTTP/1.1", headers := [], query_params := [] } ∧
      p2.buffer_ = bytes "POST /second HTTP/1.1\r\n\r\n" ∧ p2.error_message_ = []) := by
  refine ⟨fun p => rfl, fun p s => rfl, ?_⟩
  exact ⟨_, _, _, rfl, rfl, rfl, rfl, rfl⟩

/-- C4 (the code departs from the specification). Fed a header block made of empty lines
only, `\r\n\r\n`, `parse` returns `COMPLETE` although the request it hands out has
an empty method, path and version: `isValid()` is false. -/
theorem parse_complete_not_valid :
    ∃ p : HttpParser,
      HttpParser.new.parse (bytes "\r\n\r\n") = .ok (p, ParseResult.COMPLETE) ∧
      p.request_ = HttpRequest.empty ∧ p.request_.isValid = false :=
  ⟨_, rfl, rfl, rfl⟩

/-! ## The header block, line by line -/

theorem parseLines_eq_parseKept : ∀ (ls : List Str) (first_line : Bool) (p : HttpParser),
    parseLines ls first_line p = parseKept (keptLines ls) first_line p := by
  intro ls
  induction ls with
  | nil => intro first_line p; rfl
  | cons raw rest ih =>
    intro first_line p
    by_cases he : stripCR raw = []
    · have hk : keptLines (raw :: rest) = keptLines rest := by
        simp [keptLines, he]
      rw [hk, parseLines, if_pos he]
      exact ih first_line p
    · have hk : keptLines (raw :: rest) = stripCR raw :: keptLines rest := by
        simp [keptLines, he]
      rw [hk, parseLines, if_neg he, parseKept]
      cases first_line
      · simp only [Bool.false_eq_true, if_false]
        rcases parseHeader p (stripCR raw) with ⟨p1, ok⟩
        cases ok
        · rfl
        · exact ih false p1
      · simp only [if_true]
        rcases parseRequestLine p (stripCR raw) with ⟨p1, ok⟩
        cases ok
        · rfl
        · exact ih false p1

theorem strFind_byte_none {c : Nat} {l : Str} (h : c ∉ l) : strFind [c] l = none := by
  rw [strFind_none_iff]
  intro hin
  exact h (hin.subset (List.mem_singleton_self c))

theorem parseKept_header_without_colon : ∀ (ls : List Str) (p : HttpParser),
    (∃ l ∈ ls, 58 ∉ l) → (parseKept ls false p).2 = false := by
  intro ls
  induction ls with
  | nil => intro p h; simp at h
  | cons line rest ih =>
    intro p h
    simp only [parseKept, Bool.false_eq_true, if_false]
    rcases hq : parseHeader p line with ⟨p1, ok⟩
    cases ok
    · rfl
    · simp only []
      apply ih
      rcases h with ⟨l, hl, hc⟩
      rcases List.mem_cons.mp hl with rfl | hl
      · exfalso
        unfold parseHeader at hq
        rw [strFind_byte_none hc] at hq
        simp at hq
      · exact ⟨l, hl, hc⟩

theorem parseRequestLine_few_tokens (p : HttpParser) {line : Str}
    (h : (tokens line).length < 3) : (parseRequestLine p line).2 = false := by
  unfold parseRequestLine
  split
  · rename_i heq
    rw [heq] at h
    simp only [List.length_cons] at h
    omega
  · rfl

theorem parseRequestLine_bad_version (p : HttpParser) {line v : Str}
    (hv : (tokens line)[2]? = some v) (h : ¬ bytes "HTTP/" <+: v) :
    (parseRequestLine p line).2 = false := by
  unfold parseRequestLine
  split
  · rename_i m pth version tl heq
    rw [heq] at hv
    simp at hv
    subst hv
    have hne : List.take 5 version ≠ bytes "HTTP/" := by
      intro heq2
      apply h
      rw [← heq2]
      exact List.take_prefix 5 version
    rw [if_pos hne]
  · rfl

/-- C3. Malformed requests are rejected: for every input that contains the header
terminator, if the first non-empty line of the header block has fewer than three
whitespace-delimited tokens, or its third token does not begin with `HTTP/`, or a
later non-empty line has no `:`, then `parse` returns `ERROR` and the error message
is non-empty. -/
theorem malformed_request_rejected (s : Str) (e : Nat) (first : Str) (later : List Str)
    (hterm : findEndOfHeaders s = some e)
    (hlines : headerLines (s.take e) = first :: later)
    (hbad : (tokens first).length < 3 ∨
      (∃ v, (tokens first)[2]? = some v ∧ ¬ bytes "HTTP/" <+: v) ∨
      (∃ l ∈ later, 58 ∉ l)) :
    ∃ p : HttpParser,
      HttpParser.new.parse s = .ok (p, ParseResult.ERROR) ∧ p.error_message_ ≠ [] := by
  have hp := parse_incomplete_some (p := HttpParser.new) (d := s) rfl
    (by simpa [HttpParser.new] using hterm)
  have hl : keptLines (segments 10 ((HttpParser.new.buffer_ ++ s).take e)) = first :: later := by
    simpa [HttpParser.new, headerLines] using hlines
  have hfalse : ∀ p : HttpParser, (parseKept (first :: later) true p).2 = false := by
    intro p
    simp only [parseKept, if_true]
    rcases hq : parseRequestLine p first with ⟨p1, ok⟩
    cases ok
    · rfl
    · simp only []
      rcases hbad with h1 | ⟨v, hv, h2⟩ | h3
      · have := parseRequestLine_few_tokens p h1
        rw [hq] at this
        cases this
      · have := parseRequestLine_bad_version p hv h2
        rw [hq] at this
        cases this
      · exact parseKept_header_without_colon later p1 h3
  rcases hx : parseLines (segments 10 ((HttpParser.new.buffer_ ++ s).take e)) true
    { HttpParser.new with buffer_ := HttpParser.new.buffer_ ++ s } with ⟨q, ok⟩
  have hok : ok = false := by
    have := hfalse { HttpParser.new with buffer_ := HttpParser.new.buffer_ ++ s }
    rw [← hl, ← parseLines_eq_parseKept, hx] at this
    exact this
  subst hok
  rw [hx] at hp
  obtain ⟨hst, hmsg⟩ := parseLines_false hx
  refine ⟨q, ?_, hmsg⟩
  rw [hp, finishParse, hst]

/-- The malformed requests of the parser tests. -/
theorem malformed_request_rejected_witness :
    (∃ p : HttpParser,
      HttpParser.new.parse (bytes "INVALID REQUEST\r\n\r\n") = .ok (p, ParseResult.ERROR) ∧
        p.error_message_ ≠ []) ∧
    (∃ p : HttpParser,
      HttpParser.new.parse (bytes "GET / HTTP/1.1\r\nInvalidHeaderNoColon\r\n\r\n") =
        .ok (p, ParseResult.ERROR) ∧ p.error_message_ ≠ []) :=
  ⟨malformed_request_rejected (bytes "INVALID REQUEST\r\n\r\n") 19 (bytes "INVALID REQUEST") []
      rfl rfl (Or.inl (by decide)),
   malformed_request_rejected (bytes "GET / HTTP/1.1\r\nInvalidHeaderNoColon\r\n\r\n") 40
      (bytes "GET / HTTP/1.1") [bytes "InvalidHeaderNoColon"]
      rfl rfl (Or.inr (Or.inr ⟨bytes "InvalidHeaderNoColon", by simp, by decide⟩))⟩

/-! ## Query parameters -/

theorem splitOnByte_eq_splitOn (d : Nat) (s : Str) : splitOnByte d s = List.splitOn d s := by
  induction s with
  | nil => rfl
  | cons c s ih =>
    rw [splitOnByte, ih]
    simp only [List.splitOn, List.splitOnP_cons]
    by_cases h : c = d
    · simp [h]
    · simp only [h, if_false, beq_iff_eq]
      cases hs : List.splitOnP (fun x => x == d) s with
      | nil => exact absurd hs (List.splitOnP_ne_nil _ _)
      | cons a l => simp [consHead, List.modifyHead]

theorem splitOnByte_ne_nil (d : Nat) (s : Str) : splitOnByte d s ≠ [] := by
  cases s with
  | nil => simp [splitOnByte]
  | cons c s =>
    rw [splitOnByte]
    split
    · simp
    · cases splitOnByte d s <;> simp [consHead]

theorem dropFinalEmpty_cons_cons (a b : Str) (l : List Str) :
    dropFinalEmpty (a :: b :: l) = a :: dropFinalEmpty (b :: l) := by
  unfold dropFinalEmpty
  rw [List.getLast?_cons_cons]
  split <;> simp [List.dropLast]

theorem segmentsFrom_eq (d : Nat) : ∀ (s cur : Str) (piece : Str) (more : List Str),
    splitOnByte d s = piece :: more →
    segmentsFrom d cur s = dropFinalEmpty ((cur ++ piece) :: more) := by
  intro s
  induction s with
  | nil =>
    intro cur piece more h
    simp only [splitOnByte, List.cons.injEq] at h
    obtain ⟨rfl, rfl⟩ := h
    by_cases hc : cur = [] <;> simp [segmentsFrom, dropFinalEmpty, hc]
  | cons c s ih =>
    intro cur piece more h
    rw [splitOnByte] at h
    rcases hs : splitOnByte d s with _ | ⟨piece2, more2⟩
    · exact absurd hs (splitOnByte_ne_nil d s)
    · rw [hs] at h
      by_cases hc : c = d
      · rw [if_pos hc] at h
        simp only [List.cons.injEq] at h
        obtain ⟨rfl, rfl⟩ := h
        rw [segmentsFrom, if_pos hc, ih [] piece2 more2 hs, List.append_nil,
          dropFinalEmpty_cons_cons, List.nil_append]
      · rw [if_neg hc] at h
        simp only [consHead, List.cons.injEq] at h
        obtain ⟨rfl, rfl⟩ := h
        rw [segmentsFrom, if_neg hc, ih (cur ++ [c]) piece2 more2 hs]
        simp

/-- The pieces the loops of the parser visit are the pieces of the split, except
that a final empty piece is not visited. -/
theorem segments_eq_split (d : Nat) (s : Str) :
    segments d s = dropFinalEmpty (splitOnByte d s) := by
  rcases hs : splitOnByte d s with _ | ⟨piece, more⟩
  · exact absurd hs (splitOnByte_ne_nil d s)
  · rw [segments, segmentsFrom_eq d s [] piece more hs, List.nil_append]

theorem strFind_byte_some {c : Nat} : ∀ {l : Str} {i : Nat}, strFind [c] l = some i →
    c ∈ l ∧ l.take i = l.takeWhile (fun x => x != c) ∧
      l.drop (i + 1) = (l.dropWhile (fun x => x != c)).tail := by
  intro l
  induction l with
  | nil => intro i h; simp [strFind] at h
  | cons x l ih =>
    intro i h
    rw [strFind] at h
    by_cases hx : x = c
    · subst hx
      simp at h
      subst h
      simp
    · have hx2 : ¬ c = x := fun h => hx h.symm
      simp [List.isPrefixOf, hx2] at h
      obtain ⟨j, hj, rfl⟩ := h
      obtain ⟨h1, h2, h3⟩ := ih hj
      simp [hx, h1, h2, h3]

theorem strFind_byte_none_iff {c : Nat} {l : Str} : strFind [c] l = none ↔ c ∉ l := by
  constructor
  · intro h hc
    rw [strFind_none_iff] at h
    exact h (List.singleton_sublist.mpr hc |> fun _ => by
      obtain ⟨a, b, hab⟩ := List.append_of_mem hc
      exact ⟨a, b, by simp [hab]⟩)
  · exact strFind_byte_none

theorem parseKept_headers_keep : ∀ {ls : List Str} {p q : HttpParser},
    parseKept ls false p = (q, true) →
    q.request_.method = p.request_.method ∧ q.request_.path = p.request_.path ∧
      q.request_.http_version = p.request_.http_version := by
  intro ls
  induction ls with
  | nil =>
    intro p q h
    simp only [parseKept, Prod.mk.injEq, and_true] at h
    subst h
    exact ⟨rfl, rfl, rfl⟩
  | cons line rest ih =>
    intro p q h
    simp only [parseKept, Bool.false_eq_true, if_false] at h
    rcases hq : parseHeader p line with ⟨p1, ok⟩
    rw [hq] at h
    cases ok
    · simp at h
    · obtain ⟨_, _, _, h1, h2, h3⟩ := parseHeader_true hq
      obtain ⟨g1, g2, g3⟩ := ih h
      exact ⟨g1.trans h1, g2.trans h2, g3.trans h3⟩

/-- What a `COMPLETE` answer of a fresh parser rests on: a terminator, header lines
that were all accepted, and query parameters that decoded. -/
theorem parse_new_complete {s : Str} {p : HttpParser}
    (h : HttpParser.new.parse s = .ok (p, ParseResult.COMPLETE)) :
    ∃ e q, findEndOfHeaders s = some e ∧
      parseKept (headerLines (s.take e)) true HttpParser.new = (q, true) ∧
      extractQueryParams q.request_ q.request_.path = .ok p.request_ ∧
      p.error_message_ = [] ∧ q.request_.query_params = [] := by
  cases hf : findEndOfHeaders s with
  | none =>
    rw [parse_incomplete_none (p := HttpParser.new) rfl (by simpa [HttpParser.new] using hf)] at h
    simp at h
  | some e =>
    rw [parse_incomplete_some (p := HttpParser.new) (e := e) rfl
      (by simpa [HttpParser.new] using hf), parseLines_buffer] at h
    have hb : HttpParser.new.buffer_ ++ s = s := rfl
    rw [hb] at h
    rcases hx : parseLines (segments 10 (s.take e)) true HttpParser.new with ⟨q, ok⟩
    rw [hx] at h
    cases ok
    · have hst := (parseLines_false hx).1
      simp only [finishParse, Except.ok.injEq, Prod.mk.injEq] at h
      rw [hst] at h
      simp at h
    · obtain ⟨_, hmsg, hqp⟩ := parseLines_true hx
      simp only [finishParse] at h
      cases hq : extractQueryParams q.request_ q.request_.path with
      | error ex => simp [hq] at h
      | ok r =>
        simp only [hq, Except.ok.injEq, Prod.mk.injEq, and_true] at h
        subst h
        rw [parseLines_eq_parseKept] at hx
        exact ⟨e, q, rfl, hx, hq, hmsg, hqp⟩

theorem storeParam_spec (r : HttpRequest) (seg : Str) :
    storeParam r seg =
      match specInsert r.query_params seg with
      | .error e => .error e
      | .ok m => .ok { r with query_params := m } := by
  unfold storeParam specInsert
  cases hf : strFind [61] seg with
  | none =>
    have hn : 61 ∉ seg := strFind_byte_none_iff.mp hf
    simp only [hn, if_false]
  | some i =>
    obtain ⟨hm, ht, hd⟩ := strFind_byte_some hf
    simp only [hm, if_true, ht, hd]
    cases urlDecode ((seg.dropWhile (fun c => c != 61)).tail) <;> rfl

theorem storeParams_spec : ∀ (segs : List Str) (r : HttpRequest),
    storeParams r segs =
      match specInsertAll r.query_params segs with
      | .error e => .error e
      | .ok m => .ok { r with query_params := m } := by
  intro segs
  induction segs with
  | nil => intro r; rfl
  | cons seg more ih =>
    intro r
    rw [storeParams, storeParam_spec, specInsertAll]
    cases specInsert r.query_params seg with
    | error e => rfl
    | ok m => exact ih _

theorem extractQueryParams_spec {r r2 : HttpRequest} {path : Str}
    (hempty : r.query_params = [])
    (h : extractQueryParams r path = .ok r2) :
    specQueryParams (segments 38) path = .ok r2.query_params ∧ r2.path = r.path ∧
      r2.method = r.method ∧ r2.http_version = r.http_version ∧ r2.headers = r.headers := by
  unfold extractQueryParams at h
  unfold specQueryParams
  cases hf : strFind [63] path with
  | none =>
    have hn : 63 ∉ path := strFind_byte_none_iff.mp hf
    simp only [hf, Except.ok.injEq] at h
    subst h
    simp [hn, hempty]
  | some i =>
    obtain ⟨hm, _, hd⟩ := strFind_byte_some hf
    simp only [hf, storeParams_spec, hd, hempty] at h
    simp only [hm, if_true]
    cases hs : specInsertAll [] (segments 38 ((path.dropWhile (fun c => c != 63)).tail)) with
    | error ex => simp [hs] at h
    | ok m =>
      simp only [hs, Except.ok.injEq] at h
      subst h
      exact ⟨rfl, rfl, rfl, rfl, rfl⟩

/-- C5, as stated, fails: with every piece of the split on `&` inserted, the path `/?`
(an empty query string) would yield the one entry `"" -> ""`, and `/?a=1&` the
entries `"" -> ""` and `a -> 1`; `parse` stores no entry for the first and only
`a -> 1` for the second. -/
theorem query_params_every_piece_fails :
    (∃ p : HttpParser,
      HttpParser.new.parse (bytes "GET /? HTTP/1.1\r\n\r\n") = .ok (p, ParseResult.COMPLETE) ∧
      p.request_.path = bytes "/?" ∧ p.request_.query_params = [] ∧
      specQueryParams (splitOnByte 38) p.request_.path = .ok [([], [])]) ∧
    (∃ p : HttpParser,
      HttpParser.new.parse (bytes "GET /?a=1& HTTP/1.1\r\n\r\n") =
        .ok (p, ParseResult.COMPLETE) ∧
      p.request_.path = bytes "/?a=1&" ∧ p.request_.query_params = [(bytes "a", bytes "1")] ∧
      specQueryParams (splitOnByte 38) p.request_.path = .ok [([], []), (bytes "a", bytes "1")]) :=
  ⟨⟨_, rfl, rfl, rfl, rfl⟩, ⟨_, rfl, rfl, rfl, rfl⟩⟩

/-- C5 (amended). Query-parameter extraction: for every request that parses to
`COMPLETE`, the path is the second token of the request line, raw query string
included, and `query_params` is the map built from the text after the first `?` of
the path, split on `&` with a final empty piece left out (so an empty query string and
the text after a trailing `&` add nothing), by inserting for each piece in order
(text before the first `=`, verbatim -> `urlDecode` of the text after it) when the
piece contains `=` and (piece -> empty string) when it does not, a later duplicate
key overwriting an earlier one; when the path has no `?` the map is empty. -/
theorem query_params_extraction (s : Str) (p : HttpParser)
    (h : HttpParser.new.parse s = .ok (p, ParseResult.COMPLETE)) :
    specQueryParams (fun q => dropFinalEmpty (splitOnByte 38 q)) p.request_.path =
      .ok p.request_.query_params ∧
    (∀ (e : Nat) (first : Str) (later : List Str), findEndOfHeaders s = some e →
      headerLines (s.take e) = first :: later → (tokens first)[1]? = some p.request_.path) := by
  obtain ⟨e, q, hf, hk, hq, _, hqp⟩ := parse_new_complete h
  obtain ⟨hspec, hpath, _⟩ := extractQueryParams_spec hqp hq
  constructor
  · have hsplit : (fun q => dropFinalEmpty (splitOnByte 38 q)) = segments 38 :=
      funext fun q => (segments_eq_split 38 q).symm
    rw [hsplit, hpath]
    exact hspec
  · intro e2 first later hf2 hl
    rw [hf] at hf2
    cases hf2
    rw [hl] at hk
    simp only [parseKept, if_true] at hk
    rcases hr : parseRequestLine HttpParser.new first with ⟨p1, ok⟩
    rw [hr] at hk
    cases ok
    · simp at hk
    · have hkeep := (parseKept_headers_keep hk).2.1
      rw [hpath, hkeep]
      unfold parseRequestLine at hr
      split at hr
      · rename_i m pth v tl heq
        split at hr
        · cases hr
        · cases hr
          simp [heq]
      · cases hr

theorem query_params_extraction_witness :
    specQueryParams (fun q => dropFinalEmpty (splitOnByte 38 q))
        (bytes "/?behavior=error&code=502&delay=1000") =
      .ok [(bytes "behavior", bytes "error"), (bytes "code", bytes "502"),
           (bytes "delay", bytes "1000")] ∧
    (∀ (e : Nat) (first : Str) (later : List Str),
      findEndOfHeaders (bytes "GET /?behavior=error&code=502&delay=1000 HTTP/1.1\r\n\r\n") =
        some e →
      headerLines ((bytes "GET /?behavior=error&code=502&delay=1000 HTTP/1.1\r\n\r\n").take e) =
        first :: later →
      (tokens first)[1]? = some (bytes "/?behavior=error&code=502&delay=1000")) :=
  query_params_extraction (bytes "GET /?behavior=error&code=502&delay=1000 HTTP/1.1\r\n\r\n")
    parsedQuery rfl

/-! ## URL decoding -/

theorem isHex_facts {a : Nat} (h : isHex a = true) :
    isSpace a = false ∧ a ≠ 45 ∧ a ≠ 43 ∧ ∃ v, hexVal a = some v ∧ v < 16 := by
  unfold isHex hexVal at h
  unfold isSpace hexVal
  split at h
  · rename_i h1
    refine ⟨by simp; omega, by omega, by omega, a - 48, by simp [h1], by omega⟩
  · split at h
    · rename_i h0 h1
      refine ⟨by simp; omega, by omega, by omega, a - 87, by simp [h0, h1], by omega⟩
    · split at h
      · rename_i h0 h1 h2
        refine ⟨by simp; omega, by omega, by omega, a - 55, by simp [h0, h1, h2], by omega⟩
      · simp at h

theorem stoi16_two_digits {a b : Nat} (ha : isHex a = true) (hb : isHex b = true) :
    stoi16 [a, b] = .ok ((16 * (hexVal a).getD 0 + (hexVal b).getD 0 : Nat) : Int) := by
  obtain ⟨hs, h45, h43, _⟩ := isHex_facts ha
  simp [stoi16, List.dropWhile, hs, h45, h43, hasHexPrefix, List.takeWhile, ha, hb, hexNum]

theorem hexDigit_facts (upper : Bool) {n : Nat} (h : n < 16) :
    isHex (hexDigit upper n) = true ∧ hexVal (hexDigit upper n) = some n := by
  unfold isHex hexVal hexDigit
  by_cases h10 : n < 10
  · simp only [h10, if_true]
    rw [if_pos (by omega)]
    simp
  · cases upper
    · simp only [h10, if_false, Bool.false_eq_true]
      rw [if_neg (by omega), if_pos (by omega)]
      simp
    · simp only [h10, if_false, if_true]
      rw [if_neg (by omega), if_neg (by omega), if_pos (by omega)]
      simp

theorem toChar_byte {b : Nat} (h : b < 256) : toChar (b : Int) = b := by
  unfold toChar
  omega

/-- C6. URL-decoding inverts percent-encoding: for every byte string, written byte
by byte as `%` and two hexadecimal digits (each digit upper or lower case),
`urlDecode` gives back the byte string; a decoded `+` (from `%2B`) stays a `+`. -/
theorem urlDecode_pctEncode (v : List (Nat × Bool × Bool)) (hbytes : ∀ x ∈ v, x.1 < 256) :
    urlDecode (pctEncode v) = .ok (v.map (fun x => x.1)) := by
  induction v with
  | nil => rfl
  | cons x rest ih =>
    rcases x with ⟨b, u1, u2⟩
    have hb : b < 256 := hbytes (b, u1, u2) (List.mem_cons_self _ _)
    have h1 := hexDigit_facts u1 (n := b / 16) (by omega)
    have h2 := hexDigit_facts u2 (n := b % 16) (by omega)
    have hval : 16 * (hexVal (hexDigit u1 (b / 16))).getD 0 +
        (hexVal (hexDigit u2 (b % 16))).getD 0 = b := by
      rw [h1.2, h2.2]
      simp only [Option.getD_some]
      omega
    rw [pctEncode, urlDecode, if_pos rfl, stoi16_two_digits h1.1 h2.1, hval]
    simp only []
    rw [ih (fun y hy => hbytes y (List.mem_cons_of_mem _ hy)), toChar_byte hb]
    rfl

theorem urlDecode_pctEncode_witness :
    urlDecode (bytes "%2B%20%fF%00%2b") = .ok [43, 32, 255, 0, 43] ∧
    urlDecode (bytes "Bad%20Gateway") = .ok (bytes "Bad Gateway") ∧
    urlDecode (bytes "test%2Bvalue") = .ok (bytes "test+value") :=
  ⟨urlDecode_pctEncode
    [(43, true, true), (32, true, true), (255, false, true), (0, true, true), (43, true, false)]
    (by decide), rfl, rfl⟩

theorem wellEscaped_tail {c : Nat} {rest : Str} (h : wellEscaped (c :: rest) = true) :
    wellEscaped rest = true := by
  match rest, h with
  | [], _ => rfl
  | [_], _ => rfl
  | h1 :: h2 :: rest2, h =>
    rw [wellEscaped] at h
    simp only [Bool.and_eq_true] at h
    exact h.2

theorem urlDecode_eq_refDecode_aux : ∀ (n : Nat) (s : Str), s.length ≤ n →
    wellEscaped s = true → urlDecode s = .ok (refDecode s) := by
  intro n
  induction n with
  | zero =>
    intro s hl _
    have : s = [] := List.length_eq_zero.mp (Nat.le_zero.mp hl)
    subst this
    rfl
  | succ n ih =>
    intro s hl hw
    match s, hl, hw with
    | [], _, _ => rfl
    | [c], _, _ => rfl
    | [c, d], _, _ => rfl
    | c :: h1 :: h2 :: rest, hl, hw =>
      have hl1 : (h1 :: h2 :: rest).length ≤ n := by
        simp only [List.length_cons] at hl ⊢
        omega
      have hw1 := wellEscaped_tail hw
      have hw3 := wellEscaped_tail (wellEscaped_tail hw1)
      have hl3 : rest.length ≤ n := by
        simp only [List.length_cons] at hl
        omega
      rw [urlDecode, refDecode]
      by_cases hc : c = 37
      · subst hc
        rw [wellEscaped] at hw
        simp only [bne_self_eq_false, Bool.false_or, Bool.and_eq_true] at hw
        obtain ⟨⟨hh1, hh2⟩, _⟩ := hw
        obtain ⟨_, _, _, v1, hv1, hlt1⟩ := isHex_facts hh1
        obtain ⟨_, _, _, v2, hv2, hlt2⟩ := isHex_facts hh2
        rw [if_pos rfl, if_pos ⟨rfl, hh1, hh2⟩, stoi16_two_digits hh1 hh2]
        simp only []
        rw [ih rest hl3 hw3, toChar_byte (by rw [hv1, hv2]; simp only [Option.getD_some]; omega)]
        rfl
      · rw [if_neg hc, if_neg (fun h => hc h.1), ih _ hl1 hw1]
        rfl

/-- C7. `urlDecode` equals the reference decoder on every string in which each `%`
is followed by two hexadecimal digits or has fewer than two bytes after it: `%XX`
becomes the byte of value `XX`, `+` becomes a space, a `%` with fewer than two bytes
after it is copied (what follows it is decoded as usual), every other byte is copied. -/
theorem urlDecode_eq_refDecode (s : Str) (h : wellEscaped s = true) :
    urlDecode s = .ok (refDecode s) :=
  urlDecode_eq_refDecode_aux s.length s (Nat.le_refl _) h

theorem urlDecode_eq_refDecode_witness :
    urlDecode (bytes "+") = .ok (bytes " ") ∧ urlDecode (bytes "a%") = .ok (bytes "a%") ∧
    urlDecode (bytes "a%4") = .ok (bytes "a%4") ∧
    urlDecode (bytes "Bad%20Gateway") = .ok (bytes "Bad Gateway") ∧
    urlDecode (bytes "test%2Bvalue") = .ok (bytes "test+value") ∧
    urlDecode (bytes "%+") = .ok (bytes "% ") :=
  ⟨urlDecode_eq_refDecode (bytes "+") rfl, urlDecode_eq_refDecode (bytes "a%") rfl,
   urlDecode_eq_refDecode (bytes "a%4") rfl, urlDecode_eq_refDecode (bytes "Bad%20Gateway") rfl,
   urlDecode_eq_refDecode (bytes "test%2Bvalue") rfl, urlDecode_eq_refDecode (bytes "%+") rfl⟩

/-! ## Headers -/

theorem find_assign (n k v : Str) : ∀ m : StrMap,
    StrMap.find n (StrMap.assign k v m) = if n = k then some v else StrMap.find n m := by
  intro m
  induction m with
  | nil => simp [StrMap.assign, StrMap.find]
  | cons kv rest ih =>
    rcases kv with ⟨k2, v2⟩
    rw [StrMap.assign]
    by_cases hlt : strLt k k2 = true
    · rw [if_pos hlt]
      simp only [StrMap.find]
    · rw [if_neg hlt]
      by_cases hk : k = k2
      · subst hk
        rw [if_pos rfl]
        simp only [StrMap.find]
        by_cases hn : n = k <;> simp [hn]
      · rw [if_neg hk]
        simp only [StrMap.find, ih]
        by_cases hn2 : n = k2
        · subst hn2
          have hk2 : ¬ n = k := fun h => hk h.symm
          simp [hk2]
        · simp [hn2]

theorem specHeader_cons (line : Str) (rest : List Str) (n : Str) :
    specHeader (line :: rest) n =
      match specHeader rest n with
      | some v => some v
      | none => if n = headerName line then some (headerValue line) else none := by
  unfold specHeader
  rw [List.filter_cons]
  by_cases hn : headerName line = n
  · have hn2 : n = headerName line := hn.symm
    simp only [hn, decide_True, if_true]
    rcases hl : List.filter (fun l => decide (headerName l = n)) rest with _ | ⟨a, l⟩
    · simp [hn2]
    · rw [List.getLast?_cons_cons]
      cases hg : (a :: l).getLast? with
      | none => simp at hg
      | some x => rfl
  · have hn2 : ¬ n = headerName line := fun h => hn h.symm
    simp only [hn, decide_False, Bool.false_eq_true, if_false, hn2]
    cases ((List.filter (fun l => decide (headerName l = n)) rest).getLast?) <;> rfl

theorem parseHeader_headers {p q : HttpParser} {line : Str}
    (h : parseHeader p line = (q, true)) :
    q.request_.headers = p.request_.headers.assign (headerName line) (headerValue line) := by
  unfold parseHeader at h
  cases hf : strFind [58] line with
  | none => simp [hf] at h
  | some i =>
    obtain ⟨_, ht, hd⟩ := strFind_byte_some hf
    simp only [hf, Prod.mk.injEq, and_true] at h
    subst h
    simp only [headerName, headerValue, ht, hd]

theorem parseKept_headers : ∀ {later : List Str} {p q : HttpParser},
    parseKept later false p = (q, true) → ∀ n : Str,
    StrMap.find n q.request_.headers =
      match specHeader later n with
      | some v => some v
      | none => StrMap.find n p.request_.headers := by
  intro later
  induction later with
  | nil =>
    intro p q h n
    simp only [parseKept, Prod.mk.injEq, and_true] at h
    subst h
    rfl
  | cons line rest ih =>
    intro p q h n
    simp only [parseKept, Bool.false_eq_true, if_false] at h
    rcases hq : parseHeader p line with ⟨p1, ok⟩
    rw [hq] at h
    cases ok
    · simp at h
    · rw [ih h n, specHeader_cons, parseHeader_headers hq, find_assign]
      cases specHeader rest n with
      | some v => rfl
      | none =>
        simp only []
        split <;> rfl

/-- C8. Header mapping: for every request that parses to `COMPLETE` and every header
name `n`, `headers[n]` is the text after the first `:` of the last non-empty line
after the request line whose text before its first `:` is `n`, with its leading
spaces and tabs removed (trailing whitespace kept); a name with no such line is
absent. -/
theorem headers_mapping (s : Str) (p : HttpParser) (e : Nat)
    (h : HttpParser.new.parse s = .ok (p, ParseResult.COMPLETE))
    (hterm : findEndOfHeaders s = some e) (n : Str) :
    StrMap.find n p.request_.headers = specHeader (headerLines (s.take e)).tail n := by
  obtain ⟨e2, q, hf, hk, hq, _, hqp⟩ := parse_new_complete h
  rw [hterm] at hf
  cases hf
  obtain ⟨_, _, _, _, hhdr⟩ := extractQueryParams_spec hqp hq
  rw [hhdr]
  rcases hl : headerLines (s.take e) with _ | ⟨first, later⟩
  · rw [hl] at hk
    simp only [parseKept, Prod.mk.injEq, and_true] at hk
    subst hk
    rfl
  · rw [hl] at hk
    simp only [parseKept, if_true] at hk
    rcases hr : parseRequestLine HttpParser.new first with ⟨p1, ok⟩
    rw [hr] at hk
    cases ok
    · simp at hk
    · have h1 := (parseRequestLine_true hr).2.2.2
      rw [parseKept_headers hk n, h1, List.tail_cons]
      cases specHeader later n <;> rfl

theorem headers_mapping_witness :
    StrMap.find (bytes "Host") parsedHost.request_.headers = some (bytes "example.com") :=
  headers_mapping (bytes "GET /test HTTP/1.1\r\nHost: example.com\r\n\r\n") parsedHost 41
    rfl rfl (bytes "Host")

/-! ## Validity of a completed request -/

theorem tokensFrom_ne_nil : ∀ (s cur t : Str), t ∈ tokensFrom cur s → t ≠ [] := by
  intro s
  induction s with
  | nil =>
    intro cur t ht
    rw [tokensFrom] at ht
    split at ht
    · simp at ht
    · rename_i hc
      simp only [List.mem_singleton] at ht
      rw [ht]
      exact hc
  | cons c s ih =>
    intro cur t ht
    rw [tokensFrom] at ht
    split at ht
    · split at ht
      · exact ih [] t ht
      · rename_i hc
        rcases List.mem_cons.mp ht with rfl | ht
        · exact hc
        · exact ih [] t ht
    · exact ih (cur ++ [c]) t ht

/-- A `COMPLETE` request whose header block has a non-empty line is valid: the
request of C4 is invalid only because its header block has no line at all. -/
theorem parse_complete_valid_of_line (s : Str) (p : HttpParser) (e : Nat) (first : Str)
    (later : List Str) (h : HttpParser.new.parse s = .ok (p, ParseResult.COMPLETE))
    (hterm : findEndOfHeaders s = some e) (hl : headerLines (s.take e) = first :: later) :
    p.request_.isValid = true := by
  obtain ⟨e2, q, hf, hk, hq, _, hqp⟩ := parse_new_complete h
  rw [hterm] at hf
  cases hf
  obtain ⟨_, hpath, hmeth, hver, _⟩ := extractQueryParams_spec hqp hq
  rw [hl] at hk
  simp only [parseKept, if_true] at hk
  rcases hr : parseRequestLine HttpParser.new first with ⟨p1, ok⟩
  rw [hr] at hk
  cases ok
  · simp at hk
  · obtain ⟨g1, g2, g3⟩ := parseKept_headers_keep hk
    unfold parseRequestLine at hr
    split at hr
    · rename_i m pth v tl heq
      split at hr
      · cases hr
      · cases hr
        have hm : m ≠ [] := tokensFrom_ne_nil first [] m (by
          show m ∈ tokens first
          rw [heq]; simp)
        have hp : pth ≠ [] := tokensFrom_ne_nil first [] pth (by
          show pth ∈ tokens first
          rw [heq]; simp)
        have hv : v ≠ [] := tokensFrom_ne_nil first [] v (by
          show v ∈ tokens first
          rw [heq]; simp)
        simp only [HttpRequest.isValid, hmeth, hpath, hver, g1, g2, g3]
        simp [List.isEmpty_iff, hm, hp, hv]
    · cases hr

/-! ## The parser can throw -/

/-- C11 (the code departs from the specification). Fed the request
`GET /?a=%zz HTTP/1.1`, `parse` does not return: `urlDecode` hands `zz` to `std::stoi`,
which throws `std::invalid_argument`, and nothing catches it. -/
theorem parse_throws_on_bad_escape :
    HttpParser.new.parse (bytes "GET /?a=%zz HTTP/1.1\r\n\r\n") = .error Exn.invalid_argument ∧
    urlDecode (bytes "%zz") = .error Exn.invalid_argument ∧
    stoi16 (bytes "zz") = .error Exn.invalid_argument :=
  ⟨rfl, rfl, rfl⟩

/-! ## The behavior model: dispatch -/

theorem interpret_behavior (m : StrMap) (v : Str)
    (h : StrMap.find (bytes "behavior") m = some v) :
    (interpret m).behavior = parseBehavior v := by
  unfold interpret
  simp only [h]
  cases hb : parseBehavior v <;> rfl

theorem interpret_absent (m : StrMap) (h : StrMap.find (bytes "behavior") m = none) :
    interpret m = TestCommand.new := by
  unfold interpret
  simp only [h]

theorem interpret_normal (m : StrMap) (v : Str)
    (h : StrMap.find (bytes "behavior") m = some v)
    (hb : parseBehavior v = BehaviorType.NORMAL) : interpret m = TestCommand.new := by
  unfold interpret
  simp only [h, hb]
  rfl

theorem parseBehavior_unrecognized {v : Str} (h : v ∉ recognizedBehaviors) :
    parseBehavior v = BehaviorType.NORMAL := by
  simp only [recognizedBehaviors, List.mem_cons, List.mem_singleton, not_or, List.not_mem_nil,
    or_false] at h
  obtain ⟨h1, h2, h3, h4, h5, h6, h7, h8, h9, h10, h11, h12⟩ := h
  simp only [parseBehavior, h1, h2, h3, h4, h5, h6, h7, h8, h9, h10, h11, h12, if_false]

/-- C12. For every query-parameter map that has no `behavior` key, or whose `behavior`
value is not one of the twelve recognized strings, `interpret` returns the `NORMAL`
directive with status 200, reason `OK` and body `OK` (the default-constructed
directive), whatever else the map contains. -/
theorem interpret_default_when_unrecognized (m : StrMap)
    (h : StrMap.find (bytes "behavior") m = none ∨
      ∃ v, StrMap.find (bytes "behavior") m = some v ∧ v ∉ recognizedBehaviors) :
    interpret m = TestCommand.new ∧
    (interpret m).behavior = BehaviorType.NORMAL ∧ (interpret m).status_code = 200 ∧
    (interpret m).reason_phrase = bytes "OK" ∧ (interpret m).body_content = bytes "OK" := by
  have key : interpret m = TestCommand.new := by
    rcases h with h | ⟨v, hv, hn⟩
    · exact interpret_absent m h
    · exact interpret_normal m v hv (parseBehavior_unrecognized hn)
  rw [key]
  exact ⟨rfl, rfl, rfl, rfl, rfl⟩

theorem interpret_default_when_unrecognized_witness :
    interpret unknownBehaviorParams = TestCommand.new ∧
    interpret noBehaviorParams = TestCommand.new :=
  ⟨(interpret_default_when_unrecognized unknownBehaviorParams
      (Or.inr ⟨bytes "unknown_behavior_xyz", rfl, by decide⟩)).1,
   (interpret_default_when_unrecognized noBehaviorParams (Or.inl rfl)).1⟩

theorem parseBehavior_eq_table (v : Str) : parseBehavior v = specBehavior (some v) := by
  by_cases h1 : v = bytes "error"
  · subst h1
    rfl
  by_cases h2 : v = bytes "close"
  · subst h2
    rfl
  by_cases h3 : v = bytes "close_headers"
  · subst h3
    rfl
  by_cases h4 : v = bytes "close_partial"
  · subst h4
    rfl
  by_cases h5 : v = bytes "slow"
  · subst h5
    rfl
  by_cases h6 : v = bytes "slow_headers"
  · subst h6
    rfl
  by_cases h7 : v = bytes "slow_body"
  · subst h7
    rfl
  by_cases h8 : v = bytes "invalid_status"
  · subst h8
    rfl
  by_cases h9 : v = bytes "invalid_headers"
  · subst h9
    rfl
  by_cases h10 : v = bytes "wrong_length"
  · subst h10
    rfl
  by_cases h11 : v = bytes "malformed_chunking"
  · subst h11
    rfl
  by_cases h12 : v = bytes "timeout"
  · subst h12
    rfl
  have hn : v ∉ recognizedBehaviors := by
    simp only [recognizedBehaviors, List.mem_cons, List.mem_singleton, List.not_mem_nil,
      or_false, not_or]
    exact ⟨h1, h2, h3, h4, h5, h6, h7, h8, h9, h10, h11, h12⟩
  rw [parseBehavior_unrecognized hn]
  have hfind : behaviorTable.find? (fun entry => entry.1 = v) = none := by
    rw [List.find?_eq_none]
    intro entry he
    simp only [behaviorTable, List.mem_cons, List.mem_singleton, List.not_mem_nil,
      or_false] at he
    rcases he with rfl | rfl | rfl | rfl | rfl | rfl | rfl | rfl | rfl | rfl | rfl | rfl <;>
      simp only [decide_eq_true_eq] <;> intro e
    · exact h1 e.symm
    · exact h2 e.symm
    · exact h3 e.symm
    · exact h4 e.symm
    · exact h5 e.symm
    · exact h6 e.symm
    · exact h7 e.symm
    · exact h8 e.symm
    · exact h9 e.symm
    · exact h10 e.symm
    · exact h11 e.symm
    · exact h12 e.symm
  simp only [specBehavior, hfind]

/-- C13. Dispatch table: for every query-parameter map, the behavior kind of the
result of `interpret` is the one the table gives the exact value of `behavior`
(`error` -> `ERROR_RESPONSE`, ..., `timeout` -> `TIMEOUT`), and `NORMAL` for every
other value, values differing in case included, and when the key is absent. -/
theorem interpret_dispatch :
    (∀ m : StrMap, (interpret m).behavior = specBehavior (StrMap.find (bytes "behavior") m)) ∧
    (behaviorTable.map (fun entry => (interpret [(bytes "behavior", entry.1)]).behavior) =
      behaviorTable.map (fun entry => entry.2)) ∧
    (interpret [(bytes "behavior", bytes "ERROR")]).behavior = BehaviorType.NORMAL ∧
    (interpret [(bytes "behavior", bytes "error ")]).behavior = BehaviorType.NORMAL ∧
    (interpret [(bytes "code", bytes "502")]).behavior = BehaviorType.NORMAL := by
  refine ⟨fun m => ?_, rfl, rfl, rfl, rfl⟩
  cases h : StrMap.find (bytes "behavior") m with
  | none => rw [interpret_absent m h]; rfl
  | some v => rw [interpret_behavior m v h, parseBehavior_eq_table]

/-! ## The behavior model: numeric parameters -/

theorem decNum_cons (acc c : Nat) (s : Str) :
    decNum acc (c :: s) = decNum (10 * acc + digitVal c) s := rfl

theorem decNum_eq_foldl : ∀ (s : Str) (acc : Nat),
    decNum acc s = s.foldl (fun acc c => 10 * acc + digitVal c) acc := by
  intro s
  induction s with
  | nil => intro acc; rfl
  | cons c s ih =>
    intro acc
    rw [decNum_cons, List.foldl_cons]
    exact ih _

theorem isDigit_facts {c : Nat} (h : isDigit c = true) :
    isSpace c = false ∧ c ≠ 45 ∧ c ≠ 43 := by
  unfold isDigit at h
  unfold isSpace
  simp only [Bool.and_eq_true, decide_eq_true_eq] at h
  refine ⟨by simp; omega, by omega, by omega⟩

theorem isDecimal_facts {v : Str} (h : isDecimal v = true) :
    ∃ c t, v = c :: t ∧ isDigit c = true ∧ v.takeWhile isDigit = v := by
  unfold isDecimal at h
  simp only [Bool.and_eq_true, decide_eq_true_eq, List.all_eq_true] at h
  obtain ⟨hne, hall⟩ := h
  cases v with
  | nil => exact absurd rfl hne
  | cons c t =>
    exact ⟨c, t, rfl, hall c (List.mem_cons_self _ _), List.takeWhile_eq_self_iff.mpr hall⟩

/-- The result of `std::stoi` on a decimal integer with an optional sign. -/
theorem stoi10_signedDecimal {v : Str} {n : Int} (h : signedDecimal v = some n) :
    stoi10 v = if n < -2147483648 ∨ 2147483647 < n then .error Exn.out_of_range else .ok n := by
  unfold signedDecimal at h
  cases v with
  | nil => simp [isDecimal] at h
  | cons c t =>
    simp only [List.head?_cons, Option.some.injEq, List.tail_cons] at h
    by_cases h45 : c = 45
    · subst h45
      simp only [if_true] at h
      split at h
      · rename_i hd
        obtain ⟨d, t2, ht, _, htw⟩ := isDecimal_facts hd
        simp only [Option.some.injEq] at h
        subst h
        have hne : t ≠ [] := by rw [ht]; simp
        have hsp : isSpace 45 = false := by decide
        simp [stoi10, hsp, htw, hne, decNum_eq_foldl, decimalValue]
      · cases h
    · simp only [h45, if_false] at h
      by_cases h43 : c = 43
      · subst h43
        simp only [if_true] at h
        split at h
        · rename_i hd
          obtain ⟨d, t2, ht, _, htw⟩ := isDecimal_facts hd
          simp only [Option.some.injEq] at h
          subst h
          have hne : t ≠ [] := by rw [ht]; simp
          have hsp : isSpace 43 = false := by decide
          simp [stoi10, hsp, htw, hne, decNum_eq_foldl, decimalValue]
        · cases h
      · simp only [h43, if_false] at h
        split at h
        · rename_i hd
          obtain ⟨d, t2, ht, hdig, htw⟩ := isDecimal_facts hd
          simp only [Option.some.injEq] at h
          subst h
          simp only [List.cons.injEq] at ht
          obtain ⟨rfl, rfl⟩ := ht
          obtain ⟨hsp, _, _⟩ := isDigit_facts hdig
          simp [stoi10, hsp, htw, h45, h43, decNum_eq_foldl, decimalValue]
        · cases h

theorem signedDecimal_ne_nil {v : Str} {n : Int} (h : signedDecimal v = some n) : v ≠ [] := by
  intro hv
  subst hv
  simp [signedDecimal, isDecimal] at h

theorem isDecimal_signedDecimal {v : Str} (h : isDecimal v = true) :
    signedDecimal v = some (decimalValue v : Int) := by
  obtain ⟨c, t, hv, hdig, _⟩ := isDecimal_facts h
  obtain ⟨_, h45, h43⟩ := isDigit_facts hdig
  subst hv
  simp [signedDecimal, h45, h43, h]

theorem stoi10_no_leading {v : Str} (h : hasLeadingInteger v = false) :
    stoi10 v = .error Exn.invalid_argument := by
  unfold hasLeadingInteger at h
  unfold stoi10
  generalize List.dropWhile isSpace v = t at h
  cases t with
  | nil => simp
  | cons c r =>
    simp only [List.head?_cons, Option.some.injEq, List.tail_cons] at h
    by_cases h45 : c = 45
    · subst h45
      simp only [true_or, if_true] at h
      cases r with
      | nil => simp
      | cons d r2 =>
        simp only [List.head?_cons] at h
        simp [h]
    · by_cases h43 : c = 43
      · subst h43
        simp only [or_true, if_true] at h
        cases r with
        | nil => simp
        | cons d r2 =>
          simp only [List.head?_cons] at h
          simp [h]
      · simp only [h45, h43, or_self, if_false, List.head?_cons] at h
        simp [h45, h43, h]

theorem parseInteger_signed {v : Str} {n : Int} (d : Int) (h : signedDecimal v = some n)
    (hlo : -2147483648 ≤ n) (hhi : n ≤ 2147483647) : parseInteger v d = n := by
  unfold parseInteger
  rw [if_neg (signedDecimal_ne_nil h), stoi10_signedDecimal h, if_neg (by omega)]

theorem parseInteger_out_of_range {v : Str} {n : Int} (d : Int) (h : signedDecimal v = some n)
    (hout : n < -2147483648 ∨ 2147483647 < n) : parseInteger v d = d := by
  unfold parseInteger
  rw [if_neg (signedDecimal_ne_nil h), stoi10_signedDecimal h, if_pos hout]

theorem parseInteger_no_leading {v : Str} (d : Int) (h : hasLeadingInteger v = false) :
    parseInteger v d = d := by
  unfold parseInteger
  split
  · rfl
  · rw [stoi10_no_leading h]

theorem parseInteger_nil (d : Int) : parseInteger [] d = d := rfl

theorem stoi10_range_aux (digits : Str) (x n : Int)
    (h : (if digits = [] then (.error Exn.invalid_argument : Except Exn Int)
      else if x < -2147483648 ∨ 2147483647 < x then .error Exn.out_of_range else .ok x) =
      .ok n) :
    -2147483648 ≤ n ∧ n ≤ 2147483647 := by
  split_ifs at h with h1 h2
  simp only [Except.ok.injEq] at h
  omega

theorem stoi10_range {v : Str} {n : Int} (hs : stoi10 v = .ok n) :
    -2147483648 ≤ n ∧ n ≤ 2147483647 :=
  stoi10_range_aux _ _ n hs

/-- The result of `parseInteger` is within `int` range when the default is. -/
theorem parseInteger_range (v : Str) (d : Int) (hlo : -2147483648 ≤ d) (hhi : d ≤ 2147483647) :
    -2147483648 ≤ parseInteger v d ∧ parseInteger v d ≤ 2147483647 := by
  unfold parseInteger
  split
  · exact ⟨hlo, hhi⟩
  · cases hs : stoi10 v with
    | error e => exact ⟨hlo, hhi⟩
    | ok n => exact stoi10_range hs

theorem numericRule_parseInteger (m : StrMap) (key : Str) (d : Int) :
    NumericRule (StrMap.find key m) d (parseInteger (paramOrEmpty m key) d) := by
  unfold NumericRule paramOrEmpty
  refine ⟨?_, ?_, ?_, ?_, ?_⟩
  · intro v hv hdec hle
    rw [hv]
    exact parseInteger_signed d (isDecimal_signedDecimal hdec) (by omega) hle
  · intro hv
    rw [hv]
    rfl
  · intro hv
    rw [hv]
    rfl
  · intro v hv hno
    rw [hv]
    exact parseInteger_no_leading d hno
  · intro v n hv hs hout
    rw [hv]
    exact parseInteger_out_of_range d hs hout

theorem numericRule_cast {param : Option Str} {x : Int} (g : Int → Int)
    (h : NumericRule param 0 x)
    (hg : ∀ n : Nat, (n : Int) ≤ 2147483647 → g (n : Int) = (n : Int)) :
    NumericRule param 0 (g x) := by
  obtain ⟨h1, h2, h3, h4, h5⟩ := h
  have hg0 : g 0 = 0 := hg 0 (by decide)
  refine ⟨?_, ?_, ?_, ?_, ?_⟩
  · intro v hv hdec hle
    rw [h1 v hv hdec hle]
    exact hg _ hle
  · intro hv
    rw [h2 hv, hg0]
  · intro hv
    rw [h3 hv, hg0]
  · intro v hv hno
    rw [h4 v hv hno, hg0]
  · intro v n hv hs hout
    rw [h5 v n hv hs hout, hg0]

theorem toSizeT_nat (n : Nat) (h : n < 18446744073709551616) : toSizeT (n : Int) = n := by
  unfold toSizeT
  omega

theorem interpret_error (m : StrMap) (h : StrMap.find (bytes "behavior") m = some (bytes "error")) :
    (interpret m).behavior = BehaviorType.ERROR_RESPONSE ∧
    (interpret m).status_code = parseInteger (paramOrEmpty m (bytes "code")) 500 ∧
    (interpret m).reason_phrase =
      (match StrMap.find (bytes "reason") m with
       | some reason => reason
       | none => bytes "Internal Server Error") ∧
    (interpret m).delay_ms = 0 ∧ (interpret m).bytes_per_second = 0 := by
  unfold interpret
  simp only [h]
  exact ⟨rfl, rfl, rfl, rfl, rfl⟩

theorem interpret_close_after (m : StrMap)
    (h : StrMap.find (bytes "behavior") m = some (bytes "close_partial")) :
    (interpret m).bytes_before_close =
      toSizeT (parseInteger (paramOrEmpty m (bytes "bytes")) 0) ∧
    (interpret m).status_code = 200 := by
  unfold interpret
  simp only [h]
  exact ⟨rfl, rfl⟩

theorem interpret_slow (m : StrMap)
    (h : StrMap.find (bytes "behavior") m = some (bytes "slow")) :
    (interpret m).behavior = BehaviorType.SLOW_RESPONSE ∧
    (interpret m).delay_ms = parseInteger (paramOrEmpty m (bytes "delay")) 0 ∧
    (interpret m).status_code = 200 := by
  unfold interpret
  simp only [h]
  exact ⟨rfl, rfl, rfl⟩

theorem interpret_slow_headers (m : StrMap)
    (h : StrMap.find (bytes "behavior") m = some (bytes "slow_headers")) :
    (interpret m).behavior = BehaviorType.SLOW_HEADERS ∧
    (interpret m).bytes_per_second = parseInteger (paramOrEmpty m (bytes "rate")) 0 ∧
    (interpret m).status_code = 200 := by
  unfold interpret
  simp only [h]
  exact ⟨rfl, rfl, rfl⟩

theorem interpret_slow_body (m : StrMap)
    (h : StrMap.find (bytes "behavior") m = some (bytes "slow_body")) :
    (interpret m).behavior = BehaviorType.SLOW_BODY ∧
    (interpret m).bytes_per_second = parseInteger (paramOrEmpty m (bytes "rate")) 0 ∧
    (interpret m).status_code = 200 := by
  unfold interpret
  simp only [h]
  exact ⟨rfl, rfl, rfl⟩

/-- C14, as stated, fails: `99999999999` is a decimal integer, yet with
`behavior = error` and `code = 99999999999` the status code is 500, not that integer
(`std::stoi` throws `std::out_of_range` and `parseInteger` answers the default). -/
theorem error_code_beyond_int :
    StrMap.find (bytes "behavior") errorHugeParams = some (bytes "error") ∧
    StrMap.find (bytes "code") errorHugeParams = some (bytes "99999999999") ∧
    signedDecimal (bytes "99999999999") = some 99999999999 ∧
    (interpret errorHugeParams).status_code = 500 :=
  ⟨rfl, rfl, rfl, rfl⟩

/-- C14 (amended). For every query-parameter map with `behavior = error`:
`status_code` is the integer value of `code` when `code` is a decimal integer within
the range of an `int`, and 500 when `code` is absent; `reason_phrase` is the value of
`reason` when that key is present and `Internal Server Error` when it is absent. -/
theorem error_directive (m : StrMap)
    (h : StrMap.find (bytes "behavior") m = some (bytes "error")) :
    (∀ v n, StrMap.find (bytes "code") m = some v → signedDecimal v = some n →
      -2147483648 ≤ n → n ≤ 2147483647 → (interpret m).status_code = n) ∧
    (StrMap.find (bytes "code") m = none → (interpret m).status_code = 500) ∧
    (∀ r, StrMap.find (bytes "reason") m = some r → (interpret m).reason_phrase = r) ∧
    (StrMap.find (bytes "reason") m = none →
      (interpret m).reason_phrase = bytes "Internal Server Error") := by
  obtain ⟨_, hcode, hreason, _⟩ := interpret_error m h
  refine ⟨?_, ?_, ?_, ?_⟩
  · intro v n hv hs hlo hhi
    rw [hcode, paramOrEmpty, hv]
    exact parseInteger_signed 500 hs hlo hhi
  · intro hv
    rw [hcode, paramOrEmpty, hv]
    rfl
  · intro r hr
    rw [hreason, hr]
  · intro hr
    rw [hreason, hr]

theorem error_directive_witness :
    (interpret errorParams).status_code = 500 ∧
    (interpret errorParams).reason_phrase = bytes "Internal Server Error" ∧
    (interpret errorCustomParams).status_code = 502 ∧
    (interpret errorCustomParams).reason_phrase = bytes "Bad Gateway" :=
  ⟨(error_directive errorParams rfl).2.1 rfl,
   (error_directive errorParams rfl).2.2.2 rfl,
   (error_directive errorCustomParams rfl).1 (bytes "502") 502 rfl rfl (by decide) (by decide),
   (error_directive errorCustomParams rfl).2.2.1 (bytes "Bad Gateway") rfl⟩

/-- C15. Numeric parameters never cause an error and fall back to their default: for
`close_partial` / `bytes` -> `bytes_before_close` (default 0), `slow` / `delay` ->
`delay_ms` (default 0), `slow_headers` and `slow_body` / `rate` -> `bytes_per_second`
(default 0) and `error` / `code` -> `status_code` (default 500), the field is the
integer denoted by the parameter when that is a plain non-negative decimal integer
within `int` range, and the default when the parameter is absent, empty, has no
leading integer or is out of `int` range. (`interpret` is a total function: every
exception of `std::stoi` is caught in `parseInteger`.) -/
theorem numeric_parameters (m : StrMap) :
    (StrMap.find (bytes "behavior") m = some (bytes "close_partial") →
      NumericRule (StrMap.find (bytes "bytes") m) 0 ((interpret m).bytes_before_close : Int)) ∧
    (StrMap.find (bytes "behavior") m = some (bytes "slow") →
      NumericRule (StrMap.find (bytes "delay") m) 0 (interpret m).delay_ms) ∧
    (StrMap.find (bytes "behavior") m = some (bytes "slow_headers") →
      NumericRule (StrMap.find (bytes "rate") m) 0 (interpret m).bytes_per_second) ∧
    (StrMap.find (bytes "behavior") m = some (bytes "slow_body") →
      NumericRule (StrMap.find (bytes "rate") m) 0 (interpret m).bytes_per_second) ∧
    (StrMap.find (bytes "behavior") m = some (bytes "error") →
      NumericRule (StrMap.find (bytes "code") m) 500 (interpret m).status_code) := by
  refine ⟨?_, ?_, ?_, ?_, ?_⟩
  · intro h
    rw [(interpret_close_after m h).1]
    exact numericRule_cast (fun x => ((toSizeT x : Nat) : Int))
      (numericRule_parseInteger m (bytes "bytes") 0)
      (fun n hn => by
        show ((toSizeT (n : Int) : Nat) : Int) = (n : Int)
        unfold toSizeT
        omega)
  · intro h
    rw [(interpret_slow m h).2.1]
    exact numericRule_parseInteger m (bytes "delay") 0
  · intro h
    rw [(interpret_slow_headers m h).2.1]
    exact numericRule_parseInteger m (bytes "rate") 0
  · intro h
    rw [(interpret_slow_body m h).2.1]
    exact numericRule_parseInteger m (bytes "rate") 0
  · intro h
    rw [(interpret_error m h).2.1]
    exact numericRule_parseInteger m (bytes "code") 500

theorem numeric_parameters_witness :
    ((interpret closePartialParams).bytes_before_close : Int) = 100 ∧
    (interpret slowParams).delay_ms = 5000 ∧
    (interpret slowHeadersParams).bytes_per_second = 100 ∧
    (interpret slowBodyParams).bytes_per_second = 100 ∧
    (interpret slowBadParams).delay_ms = 0 ∧
    (interpret errorHugeParams).status_code = 500 ∧
    (interpret errorParams).status_code = 500 :=
  ⟨((numeric_parameters closePartialParams).1 rfl).1 (bytes "100") rfl rfl (by decide),
   ((numeric_parameters slowParams).2.1 rfl).1 (bytes "5000") rfl rfl (by decide),
   ((numeric_parameters slowHeadersParams).2.2.1 rfl).1 (bytes "100") rfl rfl (by decide),
   ((numeric_parameters slowBodyParams).2.2.2.1 rfl).1 (bytes "100") rfl rfl (by decide),
   ((numeric_parameters slowBadParams).2.1 rfl).2.2.2.1 (bytes "not_a_number") rfl rfl,
   ((numeric_parameters errorHugeParams).2.2.2.2 rfl).2.2.2.2 (bytes "99999999999") 99999999999
      rfl rfl (Or.inr (by decide)),
   ((numeric_parameters errorParams).2.2.2.2 rfl).2.1 rfl⟩

/-! ## Validation -/

theorem isValid_iff (cmd : TestCommand) :
    isValid cmd = true ↔
      (100 ≤ cmd.status_code ∧ cmd.status_code < 600) ∧
      ¬ (cmd.behavior = BehaviorType.SLOW_RESPONSE ∧ cmd.delay_ms < 0) ∧
      ¬ ((cmd.behavior = BehaviorType.SLOW_HEADERS ∨ cmd.behavior = BehaviorType.SLOW_BODY) ∧
        cmd.bytes_per_second < 0) := by
  unfold isValid
  split_ifs with h1 h2 h3
  · simp only [Bool.false_eq_true, false_iff]
    intro h
    omega
  · simp only [Bool.false_eq_true, false_iff]
    intro h
    exact h.2.1 h2
  · simp only [Bool.false_eq_true, false_iff]
    intro h
    exact h.2.2 h3
  · simp only [true_iff]
    exact ⟨by omega, h2, h3⟩

theorem parseBehavior_table_mem {v : Str} (h : parseBehavior v ≠ BehaviorType.NORMAL) :
    (v, parseBehavior v) ∈ behaviorTable := by
  by_cases hv : v ∈ recognizedBehaviors
  · simp only [recognizedBehaviors, List.mem_cons, List.mem_singleton, List.not_mem_nil,
      or_false] at hv
    rcases hv with rfl | rfl | rfl | rfl | rfl | rfl | rfl | rfl | rfl | rfl | rfl | rfl <;>
      decide
  · exact absurd (parseBehavior_unrecognized hv) h

theorem parseBehavior_eq_error (v : Str) :
    parseBehavior v = BehaviorType.ERROR_RESPONSE ↔ v = bytes "error" := by
  constructor
  · intro h
    have hm := parseBehavior_table_mem (v := v) (by rw [h]; decide)
    rw [h] at hm
    simpa [behaviorTable] using hm
  · intro h
    subst h
    rfl

theorem parseBehavior_eq_slow (v : Str) :
    parseBehavior v = BehaviorType.SLOW_RESPONSE ↔ v = bytes "slow" := by
  constructor
  · intro h
    have hm := parseBehavior_table_mem (v := v) (by rw [h]; decide)
    rw [h] at hm
    simpa [behaviorTable] using hm
  · intro h
    subst h
    rfl

theorem parseBehavior_eq_slow_headers (v : Str) :
    parseBehavior v = BehaviorType.SLOW_HEADERS ↔ v = bytes "slow_headers" := by
  constructor
  · intro h
    have hm := parseBehavior_table_mem (v := v) (by rw [h]; decide)
    rw [h] at hm
    simpa [behaviorTable] using hm
  · intro h
    subst h
    rfl

theorem parseBehavior_eq_slow_body (v : Str) :
    parseBehavior v = BehaviorType.SLOW_BODY ↔ v = bytes "slow_body" := by
  constructor
  · intro h
    have hm := parseBehavior_table_mem (v := v) (by rw [h]; decide)
    rw [h] at hm
    simpa [behaviorTable] using hm
  · intro h
    subst h
    rfl

theorem interpret_fields (m : StrMap) (v : Str)
    (h : StrMap.find (bytes "behavior") m = some v) :
    (interpret m).status_code =
      (if parseBehavior v = BehaviorType.ERROR_RESPONSE then
        parseInteger (paramOrEmpty m (bytes "code")) 500 else 200) ∧
    (interpret m).delay_ms =
      (if parseBehavior v = BehaviorType.SLOW_RESPONSE then
        parseInteger (paramOrEmpty m (bytes "delay")) 0 else 0) ∧
    (interpret m).bytes_per_second =
      (if parseBehavior v = BehaviorType.SLOW_HEADERS ∨ parseBehavior v = BehaviorType.SLOW_BODY
        then parseInteger (paramOrEmpty m (bytes "rate")) 0 else 0) := by
  unfold interpret
  simp only [h]
  cases hb : parseBehavior v <;> simp [TestCommand.new]

/-- C16, as stated, fails: for `behavior = error`, `code = 999` the directive has status
999, and for `behavior = slow`, `delay = -5` it has delay -5; `isValid` rejects both. -/
theorem interpret_invalid_directive :
    (interpret errorBadCodeParams).status_code = 999 ∧
    isValid (interpret errorBadCodeParams) = false ∧
    (interpret slowNegativeParams).delay_ms = -5 ∧
    isValid (interpret slowNegativeParams) = false :=
  ⟨rfl, rfl, rfl, rfl⟩

/-- C16 (amended). `isValid(interpret(p))` is true exactly when the number `interpret`
reads for the behavior is acceptable: with `behavior = error` the integer parsed from
`code` (500 when absent or unparsable) lies in `[100, 600)`, with `behavior = slow` the
integer parsed from `delay` is non-negative, with `behavior = slow_headers` or
`slow_body` the integer parsed from `rate` is non-negative; for every other map, the
empty one included, it is true. -/
theorem interpret_valid_iff (m : StrMap) :
    isValid (interpret m) = true ↔
      (StrMap.find (bytes "behavior") m = some (bytes "error") →
        100 ≤ parseInteger (paramOrEmpty m (bytes "code")) 500 ∧
        parseInteger (paramOrEmpty m (bytes "code")) 500 < 600) ∧
      (StrMap.find (bytes "behavior") m = some (bytes "slow") →
        0 ≤ parseInteger (paramOrEmpty m (bytes "delay")) 0) ∧
      (StrMap.find (bytes "behavior") m = some (bytes "slow_headers") ∨
        StrMap.find (bytes "behavior") m = some (bytes "slow_body") →
        0 ≤ parseInteger (paramOrEmpty m (bytes "rate")) 0) := by
  cases hf : StrMap.find (bytes "behavior") m with
  | none =>
    rw [interpret_absent m hf]
    simp only [false_implies, false_or, and_self, iff_true, reduceCtorEq]
    rfl
  | some v =>
    obtain ⟨hs, hd, hr⟩ := interpret_fields m v hf
    rw [isValid_iff, hs, hd, hr, interpret_behavior m v hf]
    simp only [Option.some.injEq, parseBehavior_eq_error, parseBehavior_eq_slow,
      parseBehavior_eq_slow_headers, parseBehavior_eq_slow_body]
    by_cases h1 : v = bytes "error"
    · subst h1
      have e2 : ¬ bytes "error" = bytes "slow" := by decide
      have e3 : ¬ bytes "error" = bytes "slow_headers" := by decide
      have e4 : ¬ bytes "error" = bytes "slow_body" := by decide
      simp only [e2, e3, e4, if_true, if_false, or_self, false_and, not_false_eq_true,
        and_true, true_implies, false_implies, true_and]
    · by_cases h2 : v = bytes "slow"
      · subst h2
        have e3 : ¬ bytes "slow" = bytes "slow_headers" := by decide
        have e4 : ¬ bytes "slow" = bytes "slow_body" := by decide
        simp only [h1, e3, e4, if_true, if_false, or_self, false_and, not_false_eq_true,
          and_true, true_implies, false_implies, true_and, not_lt]
        constructor
        · intro h
          exact h.2
        · intro h
          exact ⟨by decide, h⟩
      · by_cases h3 : v = bytes "slow_headers" ∨ v = bytes "slow_body"
        · simp only [h1, h2, h3, if_true, if_false, false_and, not_false_eq_true,
            and_true, true_implies, false_implies, true_and, not_lt]
          constructor
          · intro h
            exact h.2
          · intro h
            exact ⟨by decide, h⟩
        · simp only [h1, h2, h3, if_false, false_and, not_false_eq_true, and_true,
            false_implies, iff_true]
          decide

theorem interpret_valid_iff_witness :
    isValid (interpret errorCustomParams) = true ∧ isValid (interpret []) = true ∧
    isValid (interpret slowParams) = true :=
  ⟨(interpret_valid_iff errorCustomParams).mpr
      ⟨fun _ => (by decide), fun h => (by cases h),
       fun h => (by rcases h with h | h <;> cases h)⟩,
   (interpret_valid_iff []).mpr
      ⟨fun h => (by cases h), fun h => (by cases h),
       fun h => (by rcases h with h | h <;> cases h)⟩,
   (interpret_valid_iff slowParams).mpr
      ⟨fun h => (by cases h), fun _ => (by decide),
       fun h => (by rcases h with h | h <;> cases h)⟩⟩

/-- C17. Validation rejects out-of-range status codes: for every directive, of
every behavior kind, `isValid` returns false when `status_code < 100` or
`status_code >= 600`; the default-constructed directive (`NORMAL`, 200) is accepted. -/
theorem isValid_rejects_status :
    (∀ cmd : TestCommand, cmd.status_code < 100 ∨ cmd.status_code ≥ 600 →
      isValid cmd = false) ∧
    isValid TestCommand.new = true := by
  refine ⟨fun cmd h => ?_, rfl⟩
  unfold isValid
  rw [if_pos h]

theorem isValid_rejects_status_witness :
    isValid lowStatusCommand = false ∧ isValid highStatusCommand = false :=
  ⟨isValid_rejects_status.1 lowStatusCommand (Or.inl (by decide)),
   isValid_rejects_status.1 highStatusCommand (Or.inr (by decide))⟩

/-- C18, as stated, fails: a `NORMAL` directive with delay -1 and rate -1 is accepted,
and so is a `SLOW_RESPONSE` directive with rate -1. -/
theorem isValid_accepts_negative :
    negativeNormalCommand.delay_ms < 0 ∧ negativeNormalCommand.bytes_per_second < 0 ∧
    isValid negativeNormalCommand = true ∧
    slowNegativeRateCommand.bytes_per_second < 0 ∧ isValid slowNegativeRateCommand = true :=
  ⟨by decide, by decide, rfl, by decide, rfl⟩

/-- C18 (amended). Validation rejects a negative delay of a `SLOW_RESPONSE` directive
and a negative rate of a `SLOW_HEADERS` or `SLOW_BODY` directive: `isValid` returns
false exactly when the status code is outside `[100, 600)`, or the kind is
`SLOW_RESPONSE` and `delay_ms < 0`, or the kind is `SLOW_HEADERS` or `SLOW_BODY` and
`bytes_per_second < 0`; a negative delay or rate of any other kind is not rejected. -/
theorem isValid_rejects_negative (cmd : TestCommand) :
    isValid cmd = false ↔
      (cmd.status_code < 100 ∨ cmd.status_code ≥ 600) ∨
      (cmd.behavior = BehaviorType.SLOW_RESPONSE ∧ cmd.delay_ms < 0) ∨
      ((cmd.behavior = BehaviorType.SLOW_HEADERS ∨ cmd.behavior = BehaviorType.SLOW_BODY) ∧
        cmd.bytes_per_second < 0) := by
  unfold isValid
  split_ifs with h1 h2 h3
  · simp only [true_iff]
    exact Or.inl h1
  · simp only [true_iff]
    exact Or.inr (Or.inl h2)
  · simp only [true_iff]
    exact Or.inr (Or.inr h3)
  · simp only [Bool.true_eq_false, false_iff]
    intro h
    rcases h with h | h | h
    · exact h1 h
    · exact h2 h
    · exact h3 h

theorem isValid_rejects_negative_witness :
    isValid negativeDelayCommand = false ∧ isValid negativeRateCommand = false :=
  ⟨(isValid_rejects_negative negativeDelayCommand).mpr
      (Or.inr (Or.inl ⟨rfl, (by decide)⟩)),
   (isValid_rejects_negative negativeRateCommand).mpr
      (Or.inr (Or.inr ⟨Or.inr rfl, (by decide)⟩))⟩

/-! ## Generated responses -/

/-- C19. For every directive whose kind is `NORMAL`, `CLOSE_IMMEDIATELY`,
`CLOSE_AFTER_HEADERS`, `CLOSE_AFTER_PARTIAL`, `SLOW_RESPONSE`, `SLOW_HEADERS`,
`SLOW_BODY` or `TIMEOUT`, `generate` returns the model with status 200, reason `OK`,
the body of the directive, no header and no malformation flag, whatever the status
code, reason, delay, rate and byte count of the directive. -/
theorem generate_plain (cmd : TestCommand) (h : cmd.behavior ∈ plainKinds) :
    generate cmd =
      { status_code := 200, reason_phrase := bytes "OK", headers := [],
        body := cmd.body_content, malform_status_line := false, malform_headers := false,
        wrong_content_length := false, wrong_content_length_value := 0,
        malform_chunking := false } ∧
    noMalformation (generate cmd) = true ∧
    (∀ other : TestCommand, other.behavior ∈ plainKinds →
      other.body_content = cmd.body_content → generate other = generate cmd) := by
  have key : ∀ c : TestCommand, c.behavior ∈ plainKinds →
      generate c = generateWith 200 (bytes "OK") c.body_content := by
    intro c hc
    simp only [plainKinds, List.mem_cons, List.mem_singleton, List.not_mem_nil, or_false] at hc
    unfold generate
    rcases hc with hc | hc | hc | hc | hc | hc | hc | hc <;> rw [hc]
  refine ⟨key cmd h, ?_, ?_⟩
  · rw [key cmd h]
    rfl
  · intro other ho hb
    rw [key cmd h, key other ho, hb]

theorem generate_plain_witness :
    generate oddPlainCommand =
      { status_code := 200, reason_phrase := bytes "OK", headers := [],
        body := bytes "Hello", malform_status_line := false, malform_headers := false,
        wrong_content_length := false, wrong_content_length_value := 0,
        malform_chunking := false } :=
  (generate_plain oddPlainCommand (by decide)).1

/-- C20. For every directive of kind `ERROR_RESPONSE`, `generate` returns a model
whose status code and reason are those of the directive, whose body is the reason of
the directive, and with no malformation flag set (and no header). -/
theorem generate_error (cmd : TestCommand) (h : cmd.behavior = BehaviorType.ERROR_RESPONSE) :
    (generate cmd).status_code = cmd.status_code ∧
    (generate cmd).reason_phrase = cmd.reason_phrase ∧
    (generate cmd).body = cmd.reason_phrase ∧
    (generate cmd).malform_status_line = false ∧ (generate cmd).malform_headers = false ∧
    (generate cmd).wrong_content_length = false ∧ (generate cmd).malform_chunking = false ∧
    (generate cmd).headers = [] := by
  unfold generate
  rw [h]
  exact ⟨rfl, rfl, rfl, rfl, rfl, rfl, rfl, rfl⟩

theorem generate_error_witness :
    (generate unavailableCommand).status_code = 503 ∧
    (generate unavailableCommand).reason_phrase = bytes "Service Unavailable" ∧
    (generate unavailableCommand).body = bytes "Service Unavailable" ∧
    (generate unavailableCommand).malform_status_line = false ∧
    (generate unavailableCommand).malform_headers = false ∧
    (generate unavailableCommand).wrong_content_length = false ∧
    (generate unavailableCommand).malform_chunking = false ∧
    (generate unavailableCommand).headers = [] :=
  generate_error unavailableCommand rfl

/-! ## Malformation flags -/

theorem generate_invalid_status (cmd : TestCommand)
    (h : cmd.behavior = BehaviorType.INVALID_STATUS_LINE) :
    generate cmd =
      { status_code := 200, reason_phrase := bytes "OK", headers := [],
        body := bytes "Invalid status line test", malform_status_line := true,
        malform_headers := false, wrong_content_length := false,
        wrong_content_length_value := 0, malform_chunking := false } := by
  unfold generate
  rw [h]
  rfl

theorem generate_invalid_headers (cmd : TestCommand)
    (h : cmd.behavior = BehaviorType.INVALID_HEADERS) :
    generate cmd =
      { status_code := 200, reason_phrase := bytes "OK", headers := [],
        body := bytes "Invalid headers test", malform_status_line := false,
        malform_headers := true, wrong_content_length := false,
        wrong_content_length_value := 0, malform_chunking := false } := by
  unfold generate
  rw [h]
  rfl

theorem generate_wrong_length (cmd : TestCommand)
    (h : cmd.behavior = BehaviorType.WRONG_CONTENT_LENGTH) :
    generate cmd =
      { status_code := 200, reason_phrase := bytes "OK", headers := [],
        body := bytes "Wrong content length test", malform_status_line := false,
        malform_headers := false, wrong_content_length := true,
        wrong_content_length_value := 9999, malform_chunking := false } := by
  unfold generate
  rw [h]
  rfl

theorem generate_malformed_chunking (cmd : TestCommand)
    (h : cmd.behavior = BehaviorType.MALFORMED_CHUNKING) :
    generate cmd =
      { status_code := 200, reason_phrase := bytes "OK", headers := [],
        body := bytes "Malformed chunking test", malform_status_line := false,
        malform_headers := false, wrong_content_length := false,
        wrong_content_length_value := 0, malform_chunking := true } := by
  unfold generate
  rw [h]
  rfl

/-- C21. For every directive `generate` sets at most one of the four malformation
flags: `INVALID_STATUS_LINE` sets exactly `malform_status_line`, `INVALID_HEADERS`
exactly `malform_headers`, `WRONG_CONTENT_LENGTH` exactly `wrong_content_length` (with
the value 9999), `MALFORMED_CHUNKING` exactly `malform_chunking`, each with status 200,
reason `OK` and a fixed non-empty body; every other kind sets none. -/
theorem generate_flags (cmd : TestCommand) :
    flagCount (generate cmd) ≤ 1 ∧
    (cmd.behavior = BehaviorType.INVALID_STATUS_LINE →
      generate cmd =
        { status_code := 200, reason_phrase := bytes "OK", headers := [],
          body := bytes "Invalid status line test", malform_status_line := true,
          malform_headers := false, wrong_content_length := false,
          wrong_content_length_value := 0, malform_chunking := false }) ∧
    (cmd.behavior = BehaviorType.INVALID_HEADERS →
      generate cmd =
        { status_code := 200, reason_phrase := bytes "OK", headers := [],
          body := bytes "Invalid headers test", malform_status_line := false,
          malform_headers := true, wrong_content_length := false,
          wrong_content_length_value := 0, malform_chunking := false }) ∧
    (cmd.behavior = BehaviorType.WRONG_CONTENT_LENGTH →
      generate cmd =
        { status_code := 200, reason_phrase := bytes "OK", headers := [],
          body := bytes "Wrong content length test", malform_status_line := false,
          malform_headers := false, wrong_content_length := true,
          wrong_content_length_value := 9999, malform_chunking := false }) ∧
    (cmd.behavior = BehaviorType.MALFORMED_CHUNKING →
      generate cmd =
        { status_code := 200, reason_phrase := bytes "OK", headers := [],
          body := bytes "Malformed chunking test", malform_status_line := false,
          malform_headers := false, wrong_content_length := false,
          wrong_content_length_value := 0, malform_chunking := true }) ∧
    (cmd.behavior ∉ malformedKinds → flagCount (generate cmd) = 0 ∧
      noMalformation (generate cmd) = true) := by
  refine ⟨?_, ?_, ?_, ?_, ?_, ?_⟩
  · unfold generate
    cases cmd.behavior <;> simp [flagCount, generateWith]
  · exact generate_invalid_status cmd
  · exact generate_invalid_headers cmd
  · exact generate_wrong_length cmd
  · exact generate_malformed_chunking cmd
  · intro h
    unfold generate
    cases hb : cmd.behavior <;> first
      | exact ⟨rfl, rfl⟩
      | (rw [hb] at h; exact absurd (by decide) h)

theorem generate_flags_witness :
    (generate (interpret [(bytes "behavior", bytes "wrong_length")])).wrong_content_length_value =
      9999 ∧
    flagCount (generate (interpret [(bytes "behavior", bytes "wrong_length")])) = 1 ∧
    flagCount (generate oddPlainCommand) = 0 :=
  ⟨congrArg HttpResponse.wrong_content_length_value
      ((generate_flags (interpret [(bytes "behavior", bytes "wrong_length")])).2.2.2.1 rfl),
   congrArg flagCount
      ((generate_flags (interpret [(bytes "behavior", bytes "wrong_length")])).2.2.2.1 rfl),
   ((generate_flags oddPlainCommand).2.2.2.2.2 (by decide)).1⟩

/-! ## The iteration order of a mapping -/

theorem strLt_trans : ∀ {a b c : Str}, strLt a b = true → strLt b c = true → strLt a c = true := by
  intro a
  induction a with
  | nil =>
    intro b c hab hbc
    cases b with
    | nil => simp [strLt] at hab
    | cons y b =>
      cases c with
      | nil => simp [strLt] at hbc
      | cons z c => simp [strLt]
  | cons x a ih =>
    intro b c hab hbc
    cases b with
    | nil => simp [strLt] at hab
    | cons y b =>
      cases c with
      | nil => simp [strLt] at hbc
      | cons z c =>
        simp only [strLt] at hab hbc ⊢
        by_cases hxy : x < y
        · by_cases hyz : y < z
          · rw [if_pos (by omega)]
          · rw [if_neg hyz] at hbc
            by_cases hzy : z < y
            · rw [if_pos hzy] at hbc
              cases hbc
            · rw [if_pos (by omega)]
        · rw [if_neg hxy] at hab
          by_cases hyx : y < x
          · rw [if_pos hyx] at hab
            cases hab
          · rw [if_neg hyx] at hab
            have hxy2 : x = y := by omega
            subst hxy2
            by_cases hxz : x < z
            · rw [if_pos hxz]
            · rw [if_neg hxz] at hbc ⊢
              by_cases hzx : z < x
              · rw [if_pos hzx] at hbc
                cases hbc
              · rw [if_neg hzx] at hbc ⊢
                exact ih hab hbc

theorem strLt_total : ∀ {a b : Str}, strLt a b = false → a ≠ b → strLt b a = true := by
  intro a
  induction a with
  | nil =>
    intro b hab hne
    cases b with
    | nil => exact absurd rfl hne
    | cons y b => simp [strLt] at hab
  | cons x a ih =>
    intro b hab hne
    cases b with
    | nil => simp [strLt]
    | cons y b =>
      simp only [strLt] at hab ⊢
      by_cases hxy : x < y
      · rw [if_pos hxy] at hab
        cases hab
      · rw [if_neg hxy] at hab
        by_cases hyx : y < x
        · rw [if_pos hyx]
        · rw [if_neg hyx] at hab ⊢
          rw [if_neg hxy]
          have hxy2 : x = y := by omega
          subst hxy2
          exact ih hab (fun h => hne (by rw [h]))

theorem mem_assign {k v : Str} {x : Str × Str} : ∀ {m : StrMap},
    x ∈ StrMap.assign k v m → x = (k, v) ∨ x ∈ m := by
  intro m
  induction m with
  | nil =>
    intro h
    simp only [StrMap.assign, List.mem_singleton] at h
    exact Or.inl h
  | cons kv rest ih =>
    rcases kv with ⟨k2, v2⟩
    intro h
    rw [StrMap.assign] at h
    split at h
    · rcases List.mem_cons.mp h with h | h
      · exact Or.inl h
      · exact Or.inr h
    · split at h
      · rcases List.mem_cons.mp h with h | h
        · exact Or.inl h
        · exact Or.inr (List.mem_cons_of_mem _ h)
      · rcases List.mem_cons.mp h with h | h
        · exact Or.inr (by rw [h]; exact List.mem_cons_self _ _)
        · rcases ih h with h | h
          · exact Or.inl h
          · exact Or.inr (List.mem_cons_of_mem _ h)

/-- `operator[]` keeps the entries of a mapping in ascending order of their names. -/
theorem assign_ordered (k v : Str) : ∀ {m : StrMap},
    StrMap.ordered m → StrMap.ordered (StrMap.assign k v m) := by
  intro m
  induction m with
  | nil =>
    intro _
    simp [StrMap.assign, StrMap.ordered]
  | cons kv rest ih =>
    rcases kv with ⟨k2, v2⟩
    intro h
    unfold StrMap.ordered at h ih ⊢
    rw [List.pairwise_cons] at h
    obtain ⟨hhead, htail⟩ := h
    rw [StrMap.assign]
    split
    · rename_i hlt
      rw [List.pairwise_cons]
      refine ⟨?_, List.pairwise_cons.mpr ⟨hhead, htail⟩⟩
      intro y hy
      rcases List.mem_cons.mp hy with rfl | hy
      · exact hlt
      · exact strLt_trans hlt (hhead y hy)
    · rename_i hnlt
      split
      · rename_i heq
        subst heq
        exact List.pairwise_cons.mpr ⟨hhead, htail⟩
      · rename_i hne
        rw [List.pairwise_cons]
        refine ⟨?_, ih htail⟩
        intro y hy
        rcases mem_assign hy with rfl | hy
        · exact strLt_total (by simpa using hnlt) hne
        · exact hhead y hy

theorem ofList_ordered (entries : List (Str × Str)) : StrMap.ordered (StrMap.ofList entries) := by
  have key : ∀ (es : List (Str × Str)) (m : StrMap), StrMap.ordered m →
      StrMap.ordered (es.foldl (fun m entry => StrMap.assign entry.1 entry.2 m) m) := by
    intro es
    induction es with
    | nil => intro m hm; exact hm
    | cons e es ih =>
      intro m hm
      exact ih _ (assign_ordered e.1 e.2 hm)
  exact key entries [] List.Pairwise.nil

/-! ## Serialized responses -/

theorem headerEntries_eq (m : StrMap) :
    headerEntries m =
      (m.map (fun entry => entry.1 ++ bytes ": " ++ entry.2 ++ bytes "\r\n")).flatten := by
  induction m with
  | nil => rfl
  | cons e rest ih =>
    rcases e with ⟨k, v⟩
    rw [headerEntries, ih]
    simp [crlf, bytes]

/-- C22. Byte-exact serialization of a well-formed model: for every model with no
malformation flag set, `serialize` returns `HTTP/1.1 `, the decimal status code, a
space, the reason and `\r\n`, then one line `name: value\r\n` per entry of the headers
mapping in its iteration order, which is ascending name order for every mapping built
by assignments, then `Content-Length: ` with the decimal byte length of the body and
`\r\n` if and only if the body is not empty, then `\r\n`, then the body. -/
theorem serialize_well_formed (r : HttpResponse) (h : noMalformation r = true) :
    serialize r = specSerialize r ∧
    (∀ entries : List (Str × Str), StrMap.ordered (StrMap.ofList entries)) ∧
    (∀ (m : StrMap) (k v : Str), StrMap.ordered m → StrMap.ordered (StrMap.assign k v m)) := by
  refine ⟨?_, ofList_ordered, fun m k v hm => assign_ordered k v hm⟩
  unfold noMalformation at h
  simp only [Bool.and_eq_true, Bool.not_eq_true', ] at h
  obtain ⟨⟨⟨h1, h2⟩, h3⟩, h4⟩ := h
  unfold serialize specSerialize serializeStatusLine serializeHeaders serializeBody
  rw [h1, h2, h3, h4, headerEntries_eq]
  by_cases hb : r.body = []
  · simp [hb, crlf, bytes]
  · have hl : ¬ r.body.length = 0 := fun hl => hb (List.length_eq_zero.mp hl)
    simp [hb, hl, crlf, bytes]

theorem serialize_well_formed_witness :
    serialize (createOkResponse (bytes "Hello")) =
      bytes "HTTP/1.1 200 OK\r\nContent-Length: 5\r\n\r\nHello" ∧
    serialize (createOkResponse (bytes "")) = bytes "HTTP/1.1 200 OK\r\n\r\n" ∧
    serialize okWithHeaders =
      bytes ("HTTP/1.1 200 OK\r\nContent-Type: text/plain\r\nX-Custom-Header: test-value\r\n" ++
        "Content-Length: 4\r\n\r\nBody") :=
  ⟨(serialize_well_formed (createOkResponse (bytes "Hello")) rfl).1,
   (serialize_well_formed (createOkResponse (bytes "")) rfl).1,
   (serialize_well_formed okWithHeaders rfl).1⟩

theorem interpret_wrong_length (m : StrMap)
    (h : StrMap.find (bytes "behavior") m = some (bytes "wrong_length")) :
    interpret m = { TestCommand.new with behavior := BehaviorType.WRONG_CONTENT_LENGTH } := by
  unfold interpret
  simp only [h]
  rfl

/-- The serialized `MALFORMED_CHUNKING` response. -/
theorem serialize_chunking_bytes (cmd : TestCommand)
    (h : cmd.behavior = BehaviorType.MALFORMED_CHUNKING) :
    serialize (generate cmd) =
      bytes ("HTTP/1.1 200 OK\r\nTransfer-Encoding: chunked\r\n\r\n" ++
        "INVALID_CHUNK_SIZE\r\nMalformed chunking test\r\n") := by
  rw [generate_malformed_chunking cmd h]
  rfl

/-- C23. For every directive of kind `MALFORMED_CHUNKING`, `serialize(generate(d))` is
exactly `HTTP/1.1 200 OK`, `Transfer-Encoding: chunked`, an empty line,
`INVALID_CHUNK_SIZE`, `Malformed chunking test`, each ended by `\r\n`: the header
section has `Transfer-Encoding: chunked` and no `Content-Length`, what follows the
first `\r\n\r\n` begins with `INVALID_CHUNK_SIZE\r\n`, and the output does not end with
a zero-length chunk. -/
theorem serialize_malformed_chunking (cmd : TestCommand)
    (h : cmd.behavior = BehaviorType.MALFORMED_CHUNKING) :
    serialize (generate cmd) =
      bytes ("HTTP/1.1 200 OK\r\nTransfer-Encoding: chunked\r\n\r\n" ++
        "INVALID_CHUNK_SIZE\r\nMalformed chunking test\r\n") ∧
    (∃ e, findEndOfHeaders (serialize (generate cmd)) = some e ∧
      bytes "Transfer-Encoding: chunked" <:+: (serialize (generate cmd)).take e ∧
      strFind (bytes "Content-Length") (serialize (generate cmd)) = none ∧
      bytes "INVALID_CHUNK_SIZE\r\n" <+: (serialize (generate cmd)).drop e) ∧
    ¬ bytes "0\r\n\r\n" <:+ serialize (generate cmd) := by
  rw [serialize_chunking_bytes cmd h]
  refine ⟨rfl, ⟨47, rfl, ?_, rfl, ?_⟩, ?_⟩
  · exact ⟨bytes "HTTP/1.1 200 OK\r\n", bytes "\r\n\r\n", rfl⟩
  · exact ⟨bytes "Malformed chunking test\r\n", rfl⟩
  · intro hs
    have := List.isSuffixOf_iff_suffix.mpr hs
    revert this
    decide

theorem serialize_malformed_chunking_witness :
    serialize (generate (interpret [(bytes "behavior", bytes "malformed_chunking")])) =
      bytes ("HTTP/1.1 200 OK\r\nTransfer-Encoding: chunked\r\n\r\n" ++
        "INVALID_CHUNK_SIZE\r\nMalformed chunking test\r\n") :=
  (serialize_malformed_chunking (interpret [(bytes "behavior", bytes "malformed_chunking")])
    rfl).1

/-- C24. For every query-parameter map with `behavior = wrong_length`, whatever the
value of `length` or its absence, `serialize(generate(interpret(map)))` is exactly
`HTTP/1.1 200 OK`, `Content-Length: 9999`, an empty line and `Wrong content length
test`: the advertised length is 9999, the body has 25 bytes. -/
theorem serialize_wrong_length (m : StrMap)
    (h : StrMap.find (bytes "behavior") m = some (bytes "wrong_length")) :
    serialize (generate (interpret m)) =
      bytes "HTTP/1.1 200 OK\r\nContent-Length: 9999\r\n\r\nWrong content length test" ∧
    (generate (interpret m)).body.length = 25 ∧
    (generate (interpret m)).wrong_content_length_value = 9999 ∧
    serializeBody (generate (interpret m)) = bytes "Wrong content length test" := by
  rw [interpret_wrong_length m h]
  exact ⟨rfl, rfl, rfl, rfl⟩

theorem serialize_wrong_length_witness :
    serialize (generate (interpret
      [(bytes "behavior", bytes "wrong_length"), (bytes "length", bytes "5")])) =
      bytes "HTTP/1.1 200 OK\r\nContent-Length: 9999\r\n\r\nWrong content length test" ∧
    serialize (generate (interpret [(bytes "behavior", bytes "wrong_length")])) =
      bytes "HTTP/1.1 200 OK\r\nContent-Length: 9999\r\n\r\nWrong content length test" :=
  ⟨(serialize_wrong_length
      [(bytes "behavior", bytes "wrong_length"), (bytes "length", bytes "5")] rfl).1,
   (serialize_wrong_length [(bytes "behavior", bytes "wrong_length")] rfl).1⟩

/-- C25. For every model with `malform_status_line` set, the output of `serialize`
begins with the literal `INVALID STATUS LINE\r\n` and does not depend on the status
code and the reason; for the `INVALID_STATUS_LINE` directive the output is exactly
`INVALID STATUS LINE`, `Content-Length: 24`, an empty line and `Invalid status line
test`. -/
theorem serialize_malformed_status_line (r : HttpResponse)
    (h : r.malform_status_line = true) :
    bytes "INVALID STATUS LINE\r\n" <+: serialize r ∧
    (∀ (code : Int) (reason : Str),
      serialize { r with status_code := code, reason_phrase := reason } = serialize r) ∧
    (∀ cmd : TestCommand, cmd.behavior = BehaviorType.INVALID_STATUS_LINE →
      serialize (generate cmd) =
        bytes "INVALID STATUS LINE\r\nContent-Length: 24\r\n\r\nInvalid status line test") := by
  refine ⟨?_, ?_, ?_⟩
  · unfold serialize serializeStatusLine
    rw [h]
    simp only [if_true, List.append_assoc]
    exact List.prefix_append _ _
  · intro code reason
    unfold serialize serializeStatusLine serializeHeaders serializeBody
    simp only [h, if_true]
  · intro cmd hc
    rw [generate_invalid_status cmd hc]
    rfl

theorem serialize_malformed_status_line_witness :
    bytes "INVALID STATUS LINE\r\n" <+:
      serialize (generate (interpret [(bytes "behavior", bytes "invalid_status")])) ∧
    serialize (generate (interpret [(bytes "behavior", bytes "invalid_status")])) =
      bytes "INVALID STATUS LINE\r\nContent-Length: 24\r\n\r\nInvalid status line test" :=
  ⟨(serialize_malformed_status_line
      (generate (interpret [(bytes "behavior", bytes "invalid_status")])) rfl).1,
   (serialize_malformed_status_line
      (generate (interpret [(bytes "behavior", bytes "invalid_status")])) rfl).2.2
      (interpret [(bytes "behavior", bytes "invalid_status")]) rfl⟩

/-- C26, as stated, fails: a model with `malform_headers` and `malform_chunking` set
and the body `x` is serialized with `Transfer-Encoding: chunked` after the two invalid
lines; its output has no `Content-Length`. -/
theorem serialize_headers_without_length :
    badHeadersChunkedResponse.malform_headers = true ∧
    badHeadersChunkedResponse.body ≠ [] ∧
    strFind (bytes "Content-Length") (serialize badHeadersChunkedResponse) = none ∧
    serialize badHeadersChunkedResponse =
      bytes ("HTTP/1.1 200 OK\r\nInvalidHeaderWithoutColon\r\nAnother Bad Header Format\r\n" ++
        "Transfer-Encoding: chunked\r\n\r\nINVALID_CHUNK_SIZE\r\nx\r\n") :=
  ⟨rfl, by decide, rfl, rfl⟩

/-- C26 (amended). For every model with `malform_headers` set, `serialize` emits the
two lines `InvalidHeaderWithoutColon\r\n` and `Another Bad Header Format\r\n` in place
of the headers mapping (no entry of the mapping is emitted) and then, when the body
is not empty, the `Content-Length` line (with the fabricated value when
`wrong_content_length` is set), or `Transfer-Encoding: chunked` in its place when
`malform_chunking` is set and `wrong_content_length` is not; for the `INVALID_HEADERS`
directive the output is exactly `HTTP/1.1 200 OK`, the two lines, `Content-Length: 20`,
an empty line and `Invalid headers test`. -/
theorem serialize_malformed_headers (r : HttpResponse) (h : r.malform_headers = true) :
    serialize r =
      serializeStatusLine r ++ bytes "InvalidHeaderWithoutColon\r\n" ++
        bytes "Another Bad Header Format\r\n" ++ specLengthLine r ++ bytes "\r\n" ++
        serializeBody r ∧
    (∀ other : StrMap, serialize { r with headers := other } = serialize r) ∧
    (∀ cmd : TestCommand, cmd.behavior = BehaviorType.INVALID_HEADERS →
      serialize (generate cmd) =
        bytes ("HTTP/1.1 200 OK\r\nInvalidHeaderWithoutColon\r\nAnother Bad Header Format\r\n" ++
          "Content-Length: 20\r\n\r\nInvalid headers test")) := by
  refine ⟨?_, ?_, ?_⟩
  · unfold serialize serializeHeaders specLengthLine
    rw [h]
    by_cases hb : r.body = []
    · simp [hb, crlf, bytes]
    · have hl : ¬ r.body.length = 0 := fun hl => hb (List.length_eq_zero.mp hl)
      simp only [if_true, hb, hl, ne_eq, not_false_eq_true, if_false, List.append_assoc]
      by_cases hw : r.wrong_content_length = true
      · simp [hw, crlf, bytes]
      · by_cases hm : r.malform_chunking = true
        · simp [hw, hm, crlf, bytes]
        · simp [hw, hm, crlf, bytes]
  · intro other
    unfold serialize serializeStatusLine serializeHeaders serializeBody
    simp only [h, if_true]
  · intro cmd hc
    rw [generate_invalid_headers cmd hc]
    rfl

theorem serialize_malformed_headers_witness :
    serialize (generate (interpret [(bytes "behavior", bytes "invalid_headers")])) =
      bytes ("HTTP/1.1 200 OK\r\nInvalidHeaderWithoutColon\r\nAnother Bad Header Format\r\n" ++
        "Content-Length: 20\r\n\r\nInvalid headers test") :=
  (serialize_malformed_headers
      (generate (interpret [(bytes "behavior", bytes "invalid_headers")])) rfl).2.2
    (interpret [(bytes "behavior", bytes "invalid_headers")]) rfl

/-! ## The connection engine -/

theorem interpret_body_content (m : StrMap) : (interpret m).body_content = bytes "OK" := by
  unfold interpret
  cases StrMap.find (bytes "behavior") m with
  | none => rfl
  | some v =>
    simp only
    cases parseBehavior v <;> rfl

theorem serialize_generate_ok (cmd : TestCommand) (hp : cmd.behavior ∈ plainKinds)
    (hb : cmd.body_content = bytes "OK") : serialize (generate cmd) = fullOkResponse := by
  have key : generate cmd = generateWith 200 (bytes "OK") cmd.body_content := by
    simp only [plainKinds, List.mem_cons, List.mem_singleton, List.not_mem_nil, or_false] at hp
    unfold generate
    rcases hp with hc | hc | hc | hc | hc | hc | hc | hc <;> rw [hc]
  rw [key, hb]
  rfl

theorem sendLoop_done (pending : List SendResult) (c : ConnectionHandler) (attempts : List Nat)
    (delivered : Str) (h : ¬ c.bytes_sent_ < c.response_data_.length) :
    sendLoop pending c attempts delivered =
      some ({ c with state_ := ConnectionState.CLOSING },
            { pending := pending, attempts := attempts, delivered := delivered }) := by
  cases pending <;> rw [sendLoop] <;> simp [h]

theorem sendLoop_accepted (n : Nat) (rest : List SendResult) (c : ConnectionHandler)
    (attempts : List Nat) (delivered : Str) (h : c.bytes_sent_ < c.response_data_.length)
    (hp : isPaced c.current_command_ = false) :
    sendLoop (SendResult.accepted n :: rest) c attempts delivered =
      sendLoop rest { c with bytes_sent_ := c.bytes_sent_ + n }
        (attempts ++ [c.response_data_.length - c.bytes_sent_])
        (delivered ++ (c.response_data_.drop c.bytes_sent_).take n) := by
  rw [sendLoop]
  have hs : sendSize c.current_command_ (c.response_data_.length - c.bytes_sent_) =
      c.response_data_.length - c.bytes_sent_ := by
    simp [sendSize, hp]
  have ht : (c.response_data_.drop c.bytes_sent_).take
      (c.response_data_.length - c.bytes_sent_) = c.response_data_.drop c.bytes_sent_ :=
    List.take_of_length_le (by simp)
  simp [h, hp, hs, ht]

theorem allAccepted_nil (remaining : Nat) (h : allAccepted [] remaining = true) :
    remaining = 0 := by
  unfold allAccepted at h
  by_contra hne
  simp [hne] at h

theorem allAccepted_cons (result : SendResult) (rest : List SendResult) (remaining : Nat)
    (hne : remaining ≠ 0) (h : allAccepted (result :: rest) remaining = true) :
    ∃ n, result = SendResult.accepted n ∧ 1 ≤ n ∧ n ≤ remaining ∧
      allAccepted rest (remaining - n) = true := by
  unfold allAccepted at h
  cases result with
  | wouldBlock => simp [hne] at h
  | failed => simp [hne] at h
  | accepted n =>
    simp only [hne, if_false, Bool.and_eq_true, decide_eq_true_eq] at h
    exact ⟨n, rfl, h.1.1, h.1.2, h.2⟩

theorem sendLoop_allAccepted (pending : List SendResult) :
    ∀ (c : ConnectionHandler) (attempts : List Nat) (delivered : Str),
      isPaced c.current_command_ = false →
      allAccepted pending (c.response_data_.length - c.bytes_sent_) = true →
      ∃ w : Wire,
        sendLoop pending c attempts delivered =
          some ({ c with state_ := ConnectionState.CLOSING,
                         bytes_sent_ := max c.bytes_sent_ c.response_data_.length }, w) ∧
        w.delivered = delivered ++ c.response_data_.drop c.bytes_sent_ := by
  induction pending with
  | nil =>
    intro c attempts delivered _ ha
    have h0 := allAccepted_nil _ ha
    have hle : ¬ c.bytes_sent_ < c.response_data_.length := by omega
    refine ⟨{ pending := [], attempts := attempts, delivered := delivered }, ?_, ?_⟩
    · rw [sendLoop_done _ _ _ _ hle, max_eq_left (by omega)]
    · simp [List.drop_of_length_le (Nat.le_of_not_lt hle)]
  | cons result rest ih =>
    intro c attempts delivered hp ha
    by_cases hlt : c.bytes_sent_ < c.response_data_.length
    · obtain ⟨n, hres, h1, h2, hrest⟩ := allAccepted_cons result rest _ (by omega) ha
      subst hres
      have hrest2 : allAccepted rest
          (c.response_data_.length - (c.bytes_sent_ + n)) = true := by
        rw [← Nat.sub_sub]
        exact hrest
      obtain ⟨w, hw, hd⟩ := ih { c with bytes_sent_ := c.bytes_sent_ + n }
        (attempts ++ [c.response_data_.length - c.bytes_sent_])
        (delivered ++ (c.response_data_.drop c.bytes_sent_).take n) hp hrest2
      refine ⟨w, ?_, ?_⟩
      · rw [sendLoop_accepted n rest c attempts delivered hlt hp, hw]
        simp only [max_eq_right (show c.bytes_sent_ + n ≤ c.response_data_.length by omega),
          max_eq_right (Nat.le_of_lt hlt)]
      · rw [hd]
        have hdd : List.drop (c.bytes_sent_ + n) c.response_data_ =
            List.drop n (List.drop c.bytes_sent_ c.response_data_) := by
          rw [List.drop_drop]
        show (delivered ++ List.take n (List.drop c.bytes_sent_ c.response_data_)) ++
          List.drop (c.bytes_sent_ + n) c.response_data_ = _
        rw [hdd, List.append_assoc, List.take_append_drop]
    · refine ⟨{ pending := result :: rest, attempts := attempts, delivered := delivered },
        ?_, ?_⟩
      · rw [sendLoop_done _ _ _ _ hlt, max_eq_left (by omega)]
      · simp [List.drop_of_length_le (Nat.le_of_not_lt hlt)]

theorem sendLoop_keeps (pending : List SendResult) :
    ∀ (c : ConnectionHandler) (attempts : List Nat) (delivered : Str)
      (c2 : ConnectionHandler) (w : Wire),
      sendLoop pending c attempts delivered = some (c2, w) →
      c2.response_data_ = c.response_data_ ∧ c2.current_command_ = c.current_command_ ∧
      c2.parser_ = c.parser_ := by
  induction pending with
  | nil =>
    intro c attempts delivered c2 w h
    by_cases hlt : c.bytes_sent_ < c.response_data_.length
    · rw [sendLoop] at h
      simp [hlt] at h
    · rw [sendLoop_done _ _ _ _ hlt] at h
      simp only [Option.some.injEq, Prod.mk.injEq] at h
      obtain ⟨h1, _⟩ := h
      subst h1
      exact ⟨rfl, rfl, rfl⟩
  | cons result rest ih =>
    intro c attempts delivered c2 w h
    by_cases hlt : c.bytes_sent_ < c.response_data_.length
    · rw [sendLoop] at h
      simp only [hlt, if_true] at h
      cases result with
      | wouldBlock =>
        simp only [Option.some.injEq, Prod.mk.injEq] at h
        obtain ⟨h1, _⟩ := h
        subst h1
        exact ⟨rfl, rfl, rfl⟩
      | failed =>
        simp only [Option.some.injEq, Prod.mk.injEq] at h
        obtain ⟨h1, _⟩ := h
        subst h1
        exact ⟨rfl, rfl, rfl⟩
      | accepted n =>
        simp only at h
        by_cases hp : isPaced c.current_command_ = true
        · simp only [hp, if_true, Option.some.injEq, Prod.mk.injEq] at h
          obtain ⟨h1, _⟩ := h
          subst h1
          exact ⟨rfl, rfl, rfl⟩
        · simp only [hp, Bool.false_eq_true, if_false] at h
          have hk := ih _ _ _ c2 w h
          exact hk
    · rw [sendLoop_done _ _ _ _ hlt] at h
      simp only [Option.some.injEq, Prod.mk.injEq] at h
      obtain ⟨h1, _⟩ := h
      subst h1
      exact ⟨rfl, rfl, rfl⟩

theorem sendLoop_delivered (pending : List SendResult) :
    ∀ (c : ConnectionHandler) (attempts : List Nat) (delivered : Str)
      (c2 : ConnectionHandler) (w : Wire),
      sendLoop pending c attempts delivered = some (c2, w) →
      ∃ k, w.delivered = delivered ++ (c.response_data_.drop c.bytes_sent_).take k := by
  induction pending with
  | nil =>
    intro c attempts delivered c2 w h
    by_cases hlt : c.bytes_sent_ < c.response_data_.length
    · rw [sendLoop] at h
      simp [hlt] at h
    · rw [sendLoop_done _ _ _ _ hlt] at h
      simp only [Option.some.injEq, Prod.mk.injEq] at h
      obtain ⟨_, h2⟩ := h
      subst h2
      exact ⟨0, by simp⟩
  | cons result rest ih =>
    intro c attempts delivered c2 w h
    by_cases hlt : c.bytes_sent_ < c.response_data_.length
    · rw [sendLoop] at h
      simp only [hlt, if_true] at h
      cases result with
      | wouldBlock =>
        simp only [Option.some.injEq, Prod.mk.injEq] at h
        obtain ⟨_, h2⟩ := h
        subst h2
        exact ⟨0, by simp⟩
      | failed =>
        simp only [Option.some.injEq, Prod.mk.injEq] at h
        obtain ⟨_, h2⟩ := h
        subst h2
        exact ⟨0, by simp⟩
      | accepted n =>
        simp only at h
        by_cases hp : isPaced c.current_command_ = true
        · simp only [hp, if_true, Option.some.injEq, Prod.mk.injEq] at h
          obtain ⟨_, h2⟩ := h
          subst h2
          refine ⟨min n (sendSize c.current_command_
            (c.response_data_.length - c.bytes_sent_)), ?_⟩
          simp only [List.take_take]
        · have hp2 : isPaced c.current_command_ = false := by simpa using hp
          have hs : sendSize c.current_command_ (c.response_data_.length - c.bytes_sent_) =
              c.response_data_.length - c.bytes_sent_ := by
            simp [sendSize, hp2]
          have ht : (c.response_data_.drop c.bytes_sent_).take
              (c.response_data_.length - c.bytes_sent_) = c.response_data_.drop c.bytes_sent_ :=
            List.take_of_length_le (by simp)
          simp only [hp2, Bool.false_eq_true, if_false, hs, ht] at h
          obtain ⟨k, hk⟩ := ih _ _ _ c2 w h
          refine ⟨n + k, ?_⟩
          rw [hk, List.append_assoc, List.take_add]
          show _ ++ (_ ++ List.take k (List.drop (c.bytes_sent_ + n) c.response_data_)) = _
          rw [List.drop_drop]
    · rw [sendLoop_done _ _ _ _ hlt] at h
      simp only [Option.some.injEq, Prod.mk.injEq] at h
      obtain ⟨_, h2⟩ := h
      subst h2
      exact ⟨0, by simp⟩

theorem handleRequest_respond (c : ConnectionHandler) (now : Int) (w : Wire)
    (h1 : (interpret c.parser_.request_.query_params).behavior ≠ BehaviorType.CLOSE_IMMEDIATELY)
    (h2 : (interpret c.parser_.request_.query_params).behavior ≠ BehaviorType.TIMEOUT)
    (h3 : (interpret c.parser_.request_.query_params).behavior = BehaviorType.SLOW_RESPONSE →
      ¬ (interpret c.parser_.request_.query_params).delay_ms > 0) :
    ConnectionHandler.handleRequest c now w =
      sendLoop w.pending
        { c with current_command_ := interpret c.parser_.request_.query_params,
                 response_data_ :=
                   truncateResponse (interpret c.parser_.request_.query_params)
                     (serialize (generate (interpret c.parser_.request_.query_params))),
                 bytes_sent_ := 0, state_ := ConnectionState.SENDING_RESPONSE }
        w.attempts w.delivered := by
  unfold ConnectionHandler.handleRequest ConnectionHandler.respond
    ConnectionHandler.sendResponse
  simp only
  split
  · rename_i hb
    exact absurd hb h1
  · rename_i hb
    exact absurd hb h2
  · rename_i hb
    rw [if_neg (h3 hb)]
  · rfl

theorem truncate_partial_close (cmd : TestCommand)
    (h : cmd.behavior = BehaviorType.CLOSE_AFTER_PARTIAL) :
    truncateResponse cmd fullOkResponse =
      fullOkResponse.take (min cmd.bytes_before_close 40) := by
  have hne : ¬ (BehaviorType.CLOSE_AFTER_PARTIAL = BehaviorType.CLOSE_AFTER_HEADERS) := by
    decide
  unfold truncateResponse
  simp only [h, if_true, if_neg hne]
  have hl : fullOkResponse.length = 40 := rfl
  by_cases hn : fullOkResponse.length > cmd.bytes_before_close
  · rw [if_pos hn, min_eq_left (by omega)]
  · rw [if_neg hn, min_eq_right (by omega)]
    rfl

theorem truncate_close_headers (cmd : TestCommand)
    (h : cmd.behavior = BehaviorType.CLOSE_AFTER_HEADERS) :
    truncateResponse cmd fullOkResponse = okHeadersOnly := by
  have hne : ¬ (BehaviorType.CLOSE_AFTER_HEADERS = BehaviorType.CLOSE_AFTER_PARTIAL) := by
    decide
  unfold truncateResponse
  simp only [h, if_true, if_neg hne]
  rfl

/-- C27. When the request of a connection is interpreted as `CLOSE_AFTER_PARTIAL` with
`bytes_before_close = n`, the serialized response is the 40 bytes
`HTTP/1.1 200 OK`, `Content-Length: 2`, empty line, `OK`, and the buffer
`handleRequest` sends is its prefix of length `min n 40`; when every `send` succeeds,
`handleRequest` ends in `CLOSING` having sent exactly these `min n 40` bytes, and for
`n = 10` the bytes sent are `HTTP/1.1 2`. -/
theorem handleRequest_partial_close (c : ConnectionHandler) (now : Int) (w : Wire)
    (h : (interpret c.parser_.request_.query_params).behavior =
      BehaviorType.CLOSE_AFTER_PARTIAL) :
    serialize (generate (interpret c.parser_.request_.query_params)) = fullOkResponse ∧
    fullOkResponse.length = 40 ∧
    truncateResponse (interpret c.parser_.request_.query_params)
        (serialize (generate (interpret c.parser_.request_.query_params))) =
      fullOkResponse.take
        (min (interpret c.parser_.request_.query_params).bytes_before_close 40) ∧
    (∀ c2 w2, ConnectionHandler.handleRequest c now w = some (c2, w2) →
      c2.response_data_ = fullOkResponse.take
        (min (interpret c.parser_.request_.query_params).bytes_before_close 40)) ∧
    (allAccepted w.pending
        (min (interpret c.parser_.request_.query_params).bytes_before_close 40) = true →
      ∃ c2 w2, ConnectionHandler.handleRequest c now w = some (c2, w2) ∧
        c2.state_ = ConnectionState.CLOSING ∧
        c2.bytes_sent_ =
          min (interpret c.parser_.request_.query_params).bytes_before_close 40 ∧
        w2.delivered = w.delivered ++ fullOkResponse.take
          (min (interpret c.parser_.request_.query_params).bytes_before_close 40) ∧
        ((interpret c.parser_.request_.query_params).bytes_before_close = 10 →
          w2.delivered = w.delivered ++ bytes "HTTP/1.1 2")) := by
  have hfull : serialize (generate (interpret c.parser_.request_.query_params)) =
      fullOkResponse :=
    serialize_generate_ok _ (by rw [h]; decide) (interpret_body_content _)
  have htr := truncate_partial_close _ h
  have hlen : (fullOkResponse.take
      (min (interpret c.parser_.request_.query_params).bytes_before_close 40)).length =
      min (interpret c.parser_.request_.query_params).bytes_before_close 40 := by
    rw [List.length_take]
    have hl : fullOkResponse.length = 40 := rfl
    omega
  have hrun := handleRequest_respond c now w (by rw [h]; decide) (by rw [h]; decide)
    (by rw [h]; intro hb; exact absurd hb (by decide))
  rw [hfull, htr] at hrun
  refine ⟨hfull, rfl, by rw [hfull, htr], ?_, ?_⟩
  · intro c2 w2 hr
    rw [hrun] at hr
    exact (sendLoop_keeps _ _ _ _ _ _ hr).1
  · intro hall
    have hp : isPaced (interpret c.parser_.request_.query_params) = false := by
      simp [isPaced, h]
    obtain ⟨w2, hw, hd⟩ := sendLoop_allAccepted w.pending
      { c with current_command_ := interpret c.parser_.request_.query_params,
               response_data_ := fullOkResponse.take
                 (min (interpret c.parser_.request_.query_params).bytes_before_close 40),
               bytes_sent_ := 0, state_ := ConnectionState.SENDING_RESPONSE }
      w.attempts w.delivered hp (by simpa [hlen] using hall)
    refine ⟨_, w2, hrun.trans hw, rfl, ?_, ?_, ?_⟩
    · show max 0 (fullOkResponse.take _).length = _
      rw [hlen]
      simp
    · rw [hd]
      rfl
    · intro hn
      rw [hd, hn]
      rfl

theorem handleRequest_partial_close_witness :
    allAccepted (Wire.fresh [SendResult.accepted 4, SendResult.accepted 6]).pending
        (min (interpret
          (connectionWith closePartialTenParams).parser_.request_.query_params).bytes_before_close
          40) = true ∧
    ∃ c2 w2,
      ConnectionHandler.handleRequest (connectionWith closePartialTenParams) 0
          (Wire.fresh [SendResult.accepted 4, SendResult.accepted 6]) = some (c2, w2) ∧
        c2.state_ = ConnectionState.CLOSING ∧
        c2.bytes_sent_ =
          min (interpret
            (connectionWith closePartialTenParams).parser_.request_.query_params).bytes_before_close
            40 ∧
        w2.delivered =
          (Wire.fresh [SendResult.accepted 4, SendResult.accepted 6]).delivered ++
            fullOkResponse.take
              (min (interpret
                (connectionWith
                  closePartialTenParams).parser_.request_.query_params).bytes_before_close 40) ∧
        ((interpret
            (connectionWith closePartialTenParams).parser_.request_.query_params).bytes_before_close
              = 10 →
          w2.delivered =
            (Wire.fresh [SendResult.accepted 4, SendResult.accepted 6]).delivered ++
              bytes "HTTP/1.1 2") :=
  ⟨rfl, (handleRequest_partial_close (connectionWith closePartialTenParams) 0
    (Wire.fresh [SendResult.accepted 4, SendResult.accepted 6]) rfl).2.2.2.2 rfl⟩

/-- C28. When the request of a connection is interpreted as `CLOSE_AFTER_HEADERS`, the
buffer `handleRequest` sends is the serialized response cut after its first
`\r\n\r\n`: exactly `HTTP/1.1 200 OK`, `Content-Length: 2` and the empty line. Every
byte sent is a byte of this buffer, so the two body bytes `OK` are never sent, and when
every `send` succeeds all 38 bytes are sent and the state becomes `CLOSING`. -/
theorem handleRequest_close_headers (c : ConnectionHandler) (now : Int) (w : Wire)
    (h : (interpret c.parser_.request_.query_params).behavior =
      BehaviorType.CLOSE_AFTER_HEADERS) :
    serialize (generate (interpret c.parser_.request_.query_params)) = okHeadersOnly ++ bytes "OK" ∧
    strFind (bytes "\r\n\r\n") okHeadersOnly = some (okHeadersOnly.length - 4) ∧
    truncateResponse (interpret c.parser_.request_.query_params)
        (serialize (generate (interpret c.parser_.request_.query_params))) = okHeadersOnly ∧
    (∀ c2 w2, ConnectionHandler.handleRequest c now w = some (c2, w2) →
      c2.response_data_ = okHeadersOnly ∧
      ∃ k, w2.delivered = w.delivered ++ okHeadersOnly.take k) ∧
    (allAccepted w.pending okHeadersOnly.length = true →
      ∃ c2 w2, ConnectionHandler.handleRequest c now w = some (c2, w2) ∧
        c2.state_ = ConnectionState.CLOSING ∧ c2.bytes_sent_ = okHeadersOnly.length ∧
        w2.delivered = w.delivered ++ okHeadersOnly) := by
  have hfull : serialize (generate (interpret c.parser_.request_.query_params)) =
      fullOkResponse :=
    serialize_generate_ok _ (by rw [h]; decide) (interpret_body_content _)
  have htr := truncate_close_headers _ h
  have hrun := handleRequest_respond c now w (by rw [h]; decide) (by rw [h]; decide)
    (by rw [h]; intro hb; exact absurd hb (by decide))
  rw [hfull, htr] at hrun
  refine ⟨hfull, rfl, by rw [hfull, htr], ?_, ?_⟩
  · intro c2 w2 hr
    rw [hrun] at hr
    refine ⟨(sendLoop_keeps _ _ _ _ _ _ hr).1, ?_⟩
    obtain ⟨k, hk⟩ := sendLoop_delivered _ _ _ _ _ _ hr
    exact ⟨k, hk⟩
  · intro hall
    have hp : isPaced (interpret c.parser_.request_.query_params) = false := by
      simp [isPaced, h]
    obtain ⟨w2, hw, hd⟩ := sendLoop_allAccepted w.pending
      { c with current_command_ := interpret c.parser_.request_.query_params,
               response_data_ := okHeadersOnly,
               bytes_sent_ := 0, state_ := ConnectionState.SENDING_RESPONSE }
      w.attempts w.delivered hp hall
    exact ⟨_, w2, hrun.trans hw, rfl, rfl, hd⟩

theorem handleRequest_close_headers_witness :
    allAccepted (Wire.fresh [SendResult.accepted 38]).pending okHeadersOnly.length = true ∧
    ∃ c2 w2,
      ConnectionHandler.handleRequest (connectionWith closeHeadersParams) 0
          (Wire.fresh [SendResult.accepted 38]) = some (c2, w2) ∧
        c2.state_ = ConnectionState.CLOSING ∧ c2.bytes_sent_ = okHeadersOnly.length ∧
        w2.delivered = (Wire.fresh [SendResult.accepted 38]).delivered ++ okHeadersOnly :=
  ⟨rfl, (handleRequest_close_headers (connectionWith closeHeadersParams) 0
    (Wire.fresh [SendResult.accepted 38]) rfl).2.2.2.2 rfl⟩

theorem onTimer_expired (c : ConnectionHandler) (now : Int) (w : Wire)
    (hs : c.state_ = ConnectionState.WAITING) (he : c.response_data_ = [])
    (hl : now - c.delay_start_ ≥ c.delay_duration_ms_) :
    ConnectionHandler.onTimer c now w =
      some ({ c with state_ := ConnectionState.CLOSING }, w) := by
  unfold ConnectionHandler.onTimer ConnectionHandler.sendResponse
  rw [if_pos hs, if_pos hl, sendLoop_done _ _ _ _ (by simp [he])]

theorem onTimer_pending (c : ConnectionHandler) (now : Int) (w : Wire)
    (hl : now - c.delay_start_ < c.delay_duration_ms_) :
    ConnectionHandler.onTimer c now w = some (c, w) := by
  unfold ConnectionHandler.onTimer
  rw [if_neg (not_le.mpr hl)]
  split_ifs <;> rfl

/-- C29. The delayed response is never generated: when the request of a connection
with an empty output buffer is interpreted as `SLOW_RESPONSE` with `delay_ms > 0`,
`handleRequest` moves to `WAITING` without calling `send`, every timer tick before the
deadline changes nothing, and a timer tick at or after the deadline calls
`sendResponse` on the empty buffer: the state becomes `CLOSING`, no `send` is
attempted and no byte is delivered, although the serialized response of the directive
is the 40 bytes `HTTP/1.1 200 OK`, `Content-Length: 2`, empty line, `OK`. -/
theorem onTimer_delayed_response_sends_nothing (c : ConnectionHandler) (now later : Int)
    (w : Wire)
    (h : (interpret c.parser_.request_.query_params).behavior = BehaviorType.SLOW_RESPONSE)
    (hd : (interpret c.parser_.request_.query_params).delay_ms > 0)
    (he : c.response_data_ = [])
    (hl : later - now ≥ (interpret c.parser_.request_.query_params).delay_ms) :
    ∃ c1, ConnectionHandler.handleRequest c now w = some (c1, w) ∧
      c1.state_ = ConnectionState.WAITING ∧
      c1.current_command_ = interpret c.parser_.request_.query_params ∧
      serialize (generate c1.current_command_) = fullOkResponse ∧
      (∀ t, t - now < (interpret c.parser_.request_.query_params).delay_ms →
        ConnectionHandler.onTimer c1 t w = some (c1, w)) ∧
      ConnectionHandler.onTimer c1 later w =
        some ({ c1 with state_ := ConnectionState.CLOSING }, w) ∧
      ({ c1 with state_ := ConnectionState.CLOSING } : ConnectionHandler).response_data_ = [] := by
  have hfull : serialize (generate (interpret c.parser_.request_.query_params)) =
      fullOkResponse :=
    serialize_generate_ok _ (by rw [h]; decide) (interpret_body_content _)
  refine ⟨{ c with current_command_ := interpret c.parser_.request_.query_params,
                   state_ := ConnectionState.WAITING,
                   delay_duration_ms_ := (interpret c.parser_.request_.query_params).delay_ms,
                   delay_start_ := now }, ?_, rfl, rfl, hfull, ?_, ?_, he⟩
  · unfold ConnectionHandler.handleRequest
    simp only [h, if_pos hd]
  · intro t ht
    exact onTimer_pending _ _ _ ht
  · exact onTimer_expired _ _ _ rfl he hl

theorem onTimer_delayed_response_sends_nothing_witness :
    ∃ c1, ConnectionHandler.handleRequest (connectionWith slowParams) 0
        (Wire.fresh [SendResult.accepted 40]) =
          some (c1, Wire.fresh [SendResult.accepted 40]) ∧
      c1.state_ = ConnectionState.WAITING ∧
      c1.current_command_ =
        interpret (connectionWith slowParams).parser_.request_.query_params ∧
      serialize (generate c1.current_command_) = fullOkResponse ∧
      (∀ t, t - 0 < (interpret
          (connectionWith slowParams).parser_.request_.query_params).delay_ms →
        ConnectionHandler.onTimer c1 t (Wire.fresh [SendResult.accepted 40]) =
          some (c1, Wire.fresh [SendResult.accepted 40])) ∧
      ConnectionHandler.onTimer c1 5000 (Wire.fresh [SendResult.accepted 40]) =
        some ({ c1 with state_ := ConnectionState.CLOSING },
              Wire.fresh [SendResult.accepted 40]) ∧
      ({ c1 with state_ := ConnectionState.CLOSING } : ConnectionHandler).response_data_ = [] :=
  onTimer_delayed_response_sends_nothing (connectionWith slowParams) 0 5000
    (Wire.fresh [SendResult.accepted 40]) rfl (by decide) rfl (by decide)

/-- C30. The timeout behavior ends after `INT32_MAX` milliseconds: when the request of
a connection with an empty output buffer is interpreted as `TIMEOUT`, `handleRequest`
moves to `WAITING` without calling `send`; readable and writable events and every
timer tick with fewer than 2147483647 elapsed milliseconds change nothing; a timer
tick with 2147483647 or more elapsed milliseconds moves the connection to `CLOSING`
(through `SENDING_RESPONSE`, with no `send` attempted). -/
theorem onTimer_timeout_expires (c : ConnectionHandler) (now : Int) (w : Wire)
    (h : (interpret c.parser_.request_.query_params).behavior = BehaviorType.TIMEOUT)
    (he : c.response_data_ = []) :
    ∃ c1, ConnectionHandler.handleRequest c now w = some (c1, w) ∧
      c1.state_ = ConnectionState.WAITING ∧
      (∀ t, t - now < 2147483647 → ConnectionHandler.onTimer c1 t w = some (c1, w)) ∧
      (∀ received t, ConnectionHandler.onReadable c1 received t w = .ok (some (c1, w))) ∧
      ConnectionHandler.onWritable c1 w = some (c1, w) ∧
      (∀ t, t - now ≥ 2147483647 →
        ConnectionHandler.onTimer c1 t w =
          some ({ c1 with state_ := ConnectionState.CLOSING }, w)) := by
  refine ⟨{ c with current_command_ := interpret c.parser_.request_.query_params,
                   state_ := ConnectionState.WAITING, delay_duration_ms_ := 2147483647,
                   delay_start_ := now }, ?_, rfl, ?_, ?_, ?_, ?_⟩
  · unfold ConnectionHandler.handleRequest
    simp only [h]
  · intro t ht
    exact onTimer_pending _ _ _ ht
  · intro received t
    unfold ConnectionHandler.onReadable
    rw [if_pos (show ConnectionState.WAITING ≠ ConnectionState.READING_REQUEST by decide)]
  · unfold ConnectionHandler.onWritable
    rw [if_pos (show ConnectionState.WAITING ≠ ConnectionState.SENDING_RESPONSE by decide)]
  · intro t ht
    exact onTimer_expired _ _ _ rfl he ht

theorem onTimer_timeout_expires_witness :
    ∃ c1, ConnectionHandler.handleRequest (connectionWith timeoutParams) 0 (Wire.fresh []) =
        some (c1, Wire.fresh []) ∧
      c1.state_ = ConnectionState.WAITING ∧
      (∀ t, t - 0 < 2147483647 →
        ConnectionHandler.onTimer c1 t (Wire.fresh []) = some (c1, Wire.fresh [])) ∧
      (∀ received t,
        ConnectionHandler.onReadable c1 received t (Wire.fresh []) =
          .ok (some (c1, Wire.fresh []))) ∧
      ConnectionHandler.onWritable c1 (Wire.fresh []) = some (c1, Wire.fresh []) ∧
      (∀ t, t - 0 ≥ 2147483647 →
        ConnectionHandler.onTimer c1 t (Wire.fresh []) =
          some ({ c1 with state_ := ConnectionState.CLOSING }, Wire.fresh [])) :=
  onTimer_timeout_expires (connectionWith timeoutParams) 0 (Wire.fresh []) rfl rfl

/-! ## Whole runs from a new connection -/

theorem close_partial_request_run :
    (ConnectionHandler.onReadable ConnectionHandler.new
        (RecvResult.received closePartialTenRequest) 0
        (Wire.fresh [SendResult.accepted 10])).map
      (Option.map (fun r => (r.1.state_, r.2.attempts, r.2.delivered))) =
      .ok (some (ConnectionState.CLOSING, [10], bytes "HTTP/1.1 2")) := by
  rfl

theorem slow_delay_request_run :
    (ConnectionHandler.onReadable ConnectionHandler.new
        (RecvResult.received slowDelayRequest) 0
        (Wire.fresh [SendResult.accepted 40])).map
      (Option.map (fun r =>
        (r.1.state_, r.1.delay_duration_ms_, r.1.response_data_, r.2,
         serialize (generate r.1.current_command_),
         (ConnectionHandler.onTimer r.1 99 r.2).map (fun q => (q.1.state_, q.2)),
         (ConnectionHandler.onTimer r.1 100 r.2).map (fun q => (q.1.state_, q.2))))) =
      .ok (some (ConnectionState.WAITING, 100, [], Wire.fresh [SendResult.accepted 40],
        fullOkResponse,
        some (ConnectionState.WAITING, Wire.fresh [SendResult.accepted 40]),
        some (ConnectionState.CLOSING, Wire.fresh [SendResult.accepted 40]))) := by
  rfl

theorem no_delay_request_run :
    (ConnectionHandler.onReadable ConnectionHandler.new
        (RecvResult.received (bytes "GET /?behavior=slow&delay=0 HTTP/1.1\r\n\r\n")) 0
        (Wire.fresh [SendResult.accepted 40])).map
      (Option.map (fun r => (r.1.state_, r.2.attempts, r.2.delivered))) =
      .ok (some (ConnectionState.CLOSING, [40], fullOkResponse)) := by
  rfl

theorem timeout_request_run :
    (ConnectionHandler.onReadable ConnectionHandler.new
        (RecvResult.received timeoutRequest) 0 (Wire.fresh [])).map
      (Option.map (fun r =>
        (r.1.state_, r.1.delay_duration_ms_, r.1.response_data_, r.2,
         (ConnectionHandler.onTimer r.1 2147483646 r.2).map (fun q => (q.1.state_, q.2)),
         (ConnectionHandler.onTimer r.1 2147483647 r.2).map (fun q => (q.1.state_, q.2))))) =
      .ok (some (ConnectionState.WAITING, 2147483647, [], Wire.fresh [],
        some (ConnectionState.WAITING, Wire.fresh []),
        some (ConnectionState.CLOSING, Wire.fresh []))) := by
  rfl

/-! ## The connection engine: events and failures -/

theorem onReadable_complete (c : ConnectionHandler) (data : Str) (now : Int) (w : Wire)
    (p : HttpParser) (hs : c.state_ = ConnectionState.READING_REQUEST) (hd : data ≠ [])
    (hp : c.parser_.parse data = .ok (p, ParseResult.COMPLETE)) :
    c.onReadable (RecvResult.received data) now w =
      .ok (ConnectionHandler.handleRequest
        { c with parser_ := p, state_ := ConnectionState.PROCESSING_COMMAND } now w) := by
  unfold ConnectionHandler.onReadable
  rw [if_neg (by rw [hs]; decide)]
  simp only [hd, if_false, hp]

theorem sendLoop_wouldBlock (rest : List SendResult) (c : ConnectionHandler)
    (attempts : List Nat) (delivered : Str) (h : c.bytes_sent_ < c.response_data_.length) :
    sendLoop (SendResult.wouldBlock :: rest) c attempts delivered =
      some (c, { pending := rest,
                 attempts := attempts ++
                   [sendSize c.current_command_ (c.response_data_.length - c.bytes_sent_)],
                 delivered := delivered }) := by
  rw [sendLoop]
  simp [h]

theorem sendLoop_failed (rest : List SendResult) (c : ConnectionHandler)
    (attempts : List Nat) (delivered : Str) (h : c.bytes_sent_ < c.response_data_.length) :
    sendLoop (SendResult.failed :: rest) c attempts delivered =
      some ({ c with state_ := ConnectionState.CLOSING },
            { pending := rest,
              attempts := attempts ++
                [sendSize c.current_command_ (c.response_data_.length - c.bytes_sent_)],
              delivered := delivered }) := by
  rw [sendLoop]
  simp [h]

theorem sendLoop_paced (n : Nat) (rest : List SendResult) (c : ConnectionHandler)
    (attempts : List Nat) (delivered : Str) (h : c.bytes_sent_ < c.response_data_.length)
    (hp : isPaced c.current_command_ = true) :
    sendLoop (SendResult.accepted n :: rest) c attempts delivered =
      some ({ c with bytes_sent_ := c.bytes_sent_ + n },
            { pending := rest,
              attempts := attempts ++
                [sendSize c.current_command_ (c.response_data_.length - c.bytes_sent_)],
              delivered := delivered ++
                ((c.response_data_.drop c.bytes_sent_).take
                  (sendSize c.current_command_
                    (c.response_data_.length - c.bytes_sent_))).take n }) := by
  rw [sendLoop]
  simp [h, hp]

/-- C31. When the parser completes a request whose directive is `CLOSE_IMMEDIATELY`,
`onReadable` returns with the state `CLOSING`; the socket is untouched (no `send` is
attempted, no byte is delivered) and the output buffer and the send cursor are what
they were, that is empty and 0 on a connection that has not answered yet. -/
theorem onReadable_close_immediately (c : ConnectionHandler) (data : Str) (now : Int)
    (w : Wire) (p : HttpParser) (hs : c.state_ = ConnectionState.READING_REQUEST)
    (hd : data ≠ []) (hp : c.parser_.parse data = .ok (p, ParseResult.COMPLETE))
    (hb : (interpret p.request_.query_params).behavior = BehaviorType.CLOSE_IMMEDIATELY) :
    ∃ c2, c.onReadable (RecvResult.received data) now w = .ok (some (c2, w)) ∧
      c2.state_ = ConnectionState.CLOSING ∧
      c2.response_data_ = c.response_data_ ∧ c2.bytes_sent_ = c.bytes_sent_ ∧
      (c.response_data_ = [] → c2.response_data_ = []) ∧
      ConnectionHandler.new.response_data_ = [] ∧ ConnectionHandler.new.bytes_sent_ = 0 := by
  refine ⟨{ c with parser_ := p, current_command_ := interpret p.request_.query_params,
                   state_ := ConnectionState.CLOSING }, ?_, rfl, rfl, rfl, fun h => h, rfl, rfl⟩
  rw [onReadable_complete c data now w p hs hd hp]
  unfold ConnectionHandler.handleRequest
  simp only [hb]

/-- The failure semantics for what `recv` and `send` return. On a readable event in
`READING_REQUEST`: a would-block read changes nothing;
end of stream and any other read error move the state to `CLOSING`, and so does a
parser `ERROR`, all without touching the socket; a parser `INCOMPLETE` keeps the state
`READING_REQUEST`. On a send pass with bytes left: a would-block `send` changes
nothing in the connection (state and send cursor stay), also after earlier sends of
the same pass were accepted; any other error that `send` returns moves the state to
`CLOSING`. -/
theorem io_failures (c : ConnectionHandler) (now : Int) (w : Wire)
    (hs : c.state_ = ConnectionState.READING_REQUEST) :
    c.onReadable RecvResult.wouldBlock now w = .ok (some (c, w)) ∧
    c.onReadable (RecvResult.received []) now w =
      .ok (some ({ c with state_ := ConnectionState.CLOSING }, w)) ∧
    c.onReadable RecvResult.failed now w =
      .ok (some ({ c with state_ := ConnectionState.CLOSING }, w)) ∧
    (∀ data p, data ≠ [] → c.parser_.parse data = .ok (p, ParseResult.ERROR) →
      c.onReadable (RecvResult.received data) now w =
        .ok (some ({ c with parser_ := p, state_ := ConnectionState.CLOSING }, w))) ∧
    (∀ data p, data ≠ [] → c.parser_.parse data = .ok (p, ParseResult.INCOMPLETE) →
      c.onReadable (RecvResult.received data) now w = .ok (some ({ c with parser_ := p }, w)) ∧
      ({ c with parser_ := p } : ConnectionHandler).state_ =
        ConnectionState.READING_REQUEST) ∧
    (∀ (s : ConnectionHandler) (rest : List SendResult),
      s.state_ = ConnectionState.SENDING_RESPONSE → s.bytes_sent_ < s.response_data_.length →
      w.pending = SendResult.wouldBlock :: rest →
      ∃ w2, s.onWritable w = some (s, w2) ∧ w2.delivered = w.delivered) ∧
    (∀ (s : ConnectionHandler) (n : Nat) (rest : List SendResult),
      s.state_ = ConnectionState.SENDING_RESPONSE → isPaced s.current_command_ = false →
      s.bytes_sent_ + n < s.response_data_.length →
      w.pending = SendResult.accepted n :: SendResult.wouldBlock :: rest →
      ∃ w2, s.onWritable w = some ({ s with bytes_sent_ := s.bytes_sent_ + n }, w2)) ∧
    (∀ (s : ConnectionHandler) (rest : List SendResult),
      s.state_ = ConnectionState.SENDING_RESPONSE → s.bytes_sent_ < s.response_data_.length →
      w.pending = SendResult.failed :: rest →
      ∃ w2, s.onWritable w = some ({ s with state_ := ConnectionState.CLOSING }, w2) ∧
        w2.delivered = w.delivered) := by
  have hne : ¬ c.state_ ≠ ConnectionState.READING_REQUEST := by rw [hs]; decide
  refine ⟨?_, ?_, ?_, ?_, ?_, ?_, ?_, ?_⟩
  · unfold ConnectionHandler.onReadable
    rw [if_neg hne]
  · unfold ConnectionHandler.onReadable
    rw [if_neg hne]
    simp
  · unfold ConnectionHandler.onReadable
    rw [if_neg hne]
  · intro data p hd hp
    unfold ConnectionHandler.onReadable
    rw [if_neg hne]
    simp only [hd, if_false, hp]
  · intro data p hd hp
    refine ⟨?_, hs⟩
    unfold ConnectionHandler.onReadable
    rw [if_neg hne]
    simp only [hd, if_false, hp]
  · intro s rest hst hlt hw
    unfold ConnectionHandler.onWritable ConnectionHandler.sendResponse
    rw [if_neg (by rw [hst]; decide), hw, sendLoop_wouldBlock rest s _ _ hlt]
    exact ⟨_, rfl, rfl⟩
  · intro s n rest hst hp hlt hw
    unfold ConnectionHandler.onWritable ConnectionHandler.sendResponse
    rw [if_neg (by rw [hst]; decide), hw,
      sendLoop_accepted n _ s _ _ (by omega) hp,
      sendLoop_wouldBlock rest _ _ _ hlt]
    exact ⟨_, rfl⟩
  · intro s rest hst hlt hw
    unfold ConnectionHandler.onWritable ConnectionHandler.sendResponse
    rw [if_neg (by rw [hst]; decide), hw, sendLoop_failed rest s _ _ hlt]
    exact ⟨_, rfl, rfl⟩

theorem runEvents_fixed (c : ConnectionHandler) (w : Wire)
    (h : ∀ e, c.onEvent w e = .ok (some (c, w))) :
    ∀ events, runEvents events c w = .ok (some (c, w)) := by
  intro events
  induction events with
  | nil => rfl
  | cons e es ih =>
    rw [runEvents, h e]
    exact ih

/-- C35. `onReadable` changes nothing unless the state is `READING_REQUEST`,
`onWritable` changes nothing unless the state is `SENDING_RESPONSE`, and `onTimer`
changes nothing unless the state is `WAITING`: the connection and the socket come back
as they were. So a connection in `CLOSING` or `CLOSED` stays as it is under every
sequence of the three events. -/
theorem event_gating (c : ConnectionHandler) (w : Wire) :
    (c.state_ ≠ ConnectionState.READING_REQUEST →
      ∀ received now, c.onReadable received now w = .ok (some (c, w))) ∧
    (c.state_ ≠ ConnectionState.SENDING_RESPONSE → c.onWritable w = some (c, w)) ∧
    (c.state_ ≠ ConnectionState.WAITING → ∀ now, c.onTimer now w = some (c, w)) ∧
    (c.state_ = ConnectionState.CLOSING ∨ c.state_ = ConnectionState.CLOSED →
      ∀ events, runEvents events c w = .ok (some (c, w))) := by
  have h1 : c.state_ ≠ ConnectionState.READING_REQUEST →
      ∀ received now, c.onReadable received now w = .ok (some (c, w)) := by
    intro h received now
    unfold ConnectionHandler.onReadable
    rw [if_pos h]
  have h2 : c.state_ ≠ ConnectionState.SENDING_RESPONSE → c.onWritable w = some (c, w) := by
    intro h
    unfold ConnectionHandler.onWritable
    rw [if_pos h]
  have h3 : c.state_ ≠ ConnectionState.WAITING → ∀ now, c.onTimer now w = some (c, w) := by
    intro h now
    unfold ConnectionHandler.onTimer
    rw [if_neg h]
  refine ⟨h1, h2, h3, ?_⟩
  intro hc
  apply runEvents_fixed
  intro e
  have hr : c.state_ ≠ ConnectionState.READING_REQUEST := by
    rcases hc with hc | hc <;> rw [hc] <;> decide
  have hw : c.state_ ≠ ConnectionState.SENDING_RESPONSE := by
    rcases hc with hc | hc <;> rw [hc] <;> decide
  have ht : c.state_ ≠ ConnectionState.WAITING := by
    rcases hc with hc | hc <;> rw [hc] <;> decide
  cases e with
  | readable received now => exact h1 hr received now
  | writable =>
    show Except.ok (c.onWritable w) = _
    rw [h2 hw]
  | timer now =>
    show Except.ok (c.onTimer now w) = _
    rw [h3 ht now]

/-! ## The connection engine: send passes -/

theorem sendLoop_nil (c : ConnectionHandler) (attempts : List Nat) (delivered : Str)
    (h : c.bytes_sent_ < c.response_data_.length) :
    sendLoop [] c attempts delivered = none := by
  rw [sendLoop]
  simp [h]

theorem isPaced_iff (cmd : TestCommand) :
    isPaced cmd = true ↔
      (cmd.behavior = BehaviorType.SLOW_HEADERS ∨ cmd.behavior = BehaviorType.SLOW_BODY) ∧
        cmd.bytes_per_second > 0 := by
  simp [isPaced]

theorem sendSize_paced (cmd : TestCommand) (m : Nat) (hp : isPaced cmd = true) (hm : 0 < m) :
    sendSize cmd m = pacedSize cmd.bytes_per_second m := by
  unfold sendSize pacedSize
  rw [if_pos hp]
  generalize (cmd.bytes_per_second / 10).toNat = k
  by_cases hk : min m k = 0
  · rw [if_pos hk]
    have hk0 : k = 0 := by omega
    subst hk0
    omega
  · rw [if_neg hk]
    omega

theorem sendSize_plain (cmd : TestCommand) (m : Nat) (hp : isPaced cmd = false) :
    sendSize cmd m = m := by
  simp [sendSize, hp]

theorem sendSize_bounds (cmd : TestCommand) (m : Nat) (hm : 0 < m) :
    1 ≤ sendSize cmd m ∧ sendSize cmd m ≤ m := by
  by_cases hp : isPaced cmd = true
  · rw [sendSize_paced cmd m hp hm]
    unfold pacedSize
    omega
  · rw [sendSize_plain cmd m (by simpa using hp)]
    omega

theorem sendLoop_state (pending : List SendResult) :
    ∀ (c : ConnectionHandler) (attempts : List Nat) (delivered : Str)
      (c2 : ConnectionHandler) (w : Wire),
      sendLoop pending c attempts delivered = some (c2, w) →
      (c2.state_ = c.state_ ∨ c2.state_ = ConnectionState.CLOSING) ∧
      c.bytes_sent_ ≤ c2.bytes_sent_ ∧ c2.delay_start_ = c.delay_start_ ∧
      c2.delay_duration_ms_ = c.delay_duration_ms_ := by
  induction pending with
  | nil =>
    intro c attempts delivered c2 w h
    by_cases hlt : c.bytes_sent_ < c.response_data_.length
    · rw [sendLoop_nil _ _ _ hlt] at h
      cases h
    · rw [sendLoop_done _ _ _ _ hlt] at h
      simp only [Option.some.injEq, Prod.mk.injEq] at h
      obtain ⟨h1, _⟩ := h
      subst h1
      exact ⟨Or.inr rfl, le_refl _, rfl, rfl⟩
  | cons result rest ih =>
    intro c attempts delivered c2 w h
    by_cases hlt : c.bytes_sent_ < c.response_data_.length
    · cases result with
      | wouldBlock =>
        rw [sendLoop_wouldBlock _ _ _ _ hlt] at h
        simp only [Option.some.injEq, Prod.mk.injEq] at h
        obtain ⟨h1, _⟩ := h
        subst h1
        exact ⟨Or.inl rfl, le_refl _, rfl, rfl⟩
      | failed =>
        rw [sendLoop_failed _ _ _ _ hlt] at h
        simp only [Option.some.injEq, Prod.mk.injEq] at h
        obtain ⟨h1, _⟩ := h
        subst h1
        exact ⟨Or.inr rfl, le_refl _, rfl, rfl⟩
      | accepted n =>
        by_cases hp : isPaced c.current_command_ = true
        · rw [sendLoop_paced _ _ _ _ _ hlt hp] at h
          simp only [Option.some.injEq, Prod.mk.injEq] at h
          obtain ⟨h1, _⟩ := h
          subst h1
          exact ⟨Or.inl rfl, Nat.le_add_right _ _, rfl, rfl⟩
        · rw [sendLoop_accepted _ _ _ _ _ hlt (by simpa using hp)] at h
          have hk := ih _ _ _ c2 w h
          exact ⟨hk.1, le_trans (Nat.le_add_right _ n) hk.2.1, hk.2.2.1, hk.2.2.2⟩
    · rw [sendLoop_done _ _ _ _ hlt] at h
      simp only [Option.some.injEq, Prod.mk.injEq] at h
      obtain ⟨h1, _⟩ := h
      subst h1
      exact ⟨Or.inr rfl, le_refl _, rfl, rfl⟩

theorem sendLoop_plain_complete (pending : List SendResult) :
    ∀ (c : ConnectionHandler) (attempts : List Nat) (delivered : Str)
      (c2 : ConnectionHandler) (w : Wire),
      isPaced c.current_command_ = false →
      sendLoop pending c attempts delivered = some (c2, w) →
      c2.response_data_.length ≤ c2.bytes_sent_ → c2.state_ = ConnectionState.CLOSING := by
  induction pending with
  | nil =>
    intro c attempts delivered c2 w _ h _
    by_cases hlt : c.bytes_sent_ < c.response_data_.length
    · rw [sendLoop_nil _ _ _ hlt] at h
      cases h
    · rw [sendLoop_done _ _ _ _ hlt] at h
      simp only [Option.some.injEq, Prod.mk.injEq] at h
      obtain ⟨h1, _⟩ := h
      subst h1
      rfl
  | cons result rest ih =>
    intro c attempts delivered c2 w hp h hall
    by_cases hlt : c.bytes_sent_ < c.response_data_.length
    · cases result with
      | wouldBlock =>
        rw [sendLoop_wouldBlock _ _ _ _ hlt] at h
        simp only [Option.some.injEq, Prod.mk.injEq] at h
        obtain ⟨h1, _⟩ := h
        subst h1
        omega
      | failed =>
        rw [sendLoop_failed _ _ _ _ hlt] at h
        simp only [Option.some.injEq, Prod.mk.injEq] at h
        obtain ⟨h1, _⟩ := h
        subst h1
        rfl
      | accepted n =>
        rw [sendLoop_accepted _ _ _ _ _ hlt hp] at h
        have hk := ih { c with bytes_sent_ := c.bytes_sent_ + n } _ _ c2 w hp h
        exact hk hall
    · rw [sendLoop_done _ _ _ _ hlt] at h
      simp only [Option.some.injEq, Prod.mk.injEq] at h
      obtain ⟨h1, _⟩ := h
      subst h1
      rfl

theorem sendLoop_view (pending : List SendResult) :
    ∀ (c1 c2 : ConnectionHandler) (attempts : List Nat) (delivered : Str),
      wireView c1 = wireView c2 →
      isPaced c1.current_command_ = isPaced c2.current_command_ →
      (∀ m, sendSize c1.current_command_ m = sendSize c2.current_command_ m) →
      (sendLoop pending c1 attempts delivered).map (fun r => (wireView r.1, r.2)) =
        (sendLoop pending c2 attempts delivered).map (fun r => (wireView r.1, r.2)) := by
  induction pending with
  | nil =>
    intro c1 c2 attempts delivered hv _ _
    simp only [wireView, Prod.mk.injEq] at hv
    obtain ⟨hs, hd, hb⟩ := hv
    by_cases hlt : c1.bytes_sent_ < c1.response_data_.length
    · rw [sendLoop_nil _ _ _ hlt, sendLoop_nil _ _ _ (by rw [← hd, ← hb]; exact hlt)]
    · rw [sendLoop_done _ _ _ _ hlt, sendLoop_done _ _ _ _ (by rw [← hd, ← hb]; exact hlt)]
      simp [wireView, hd, hb]
  | cons result rest ih =>
    intro c1 c2 attempts delivered hv hp hsz
    have hv2 := hv
    simp only [wireView, Prod.mk.injEq] at hv2
    obtain ⟨hs, hd, hb⟩ := hv2
    by_cases hlt : c1.bytes_sent_ < c1.response_data_.length
    · have hlt2 : c2.bytes_sent_ < c2.response_data_.length := by
        rw [← hd, ← hb]
        exact hlt
      cases result with
      | wouldBlock =>
        rw [sendLoop_wouldBlock _ _ _ _ hlt, sendLoop_wouldBlock _ _ _ _ hlt2]
        simp [hv, hsz, hd, hb]
      | failed =>
        rw [sendLoop_failed _ _ _ _ hlt, sendLoop_failed _ _ _ _ hlt2]
        simp [wireView, hsz, hd, hb]
      | accepted n =>
        by_cases hp1 : isPaced c1.current_command_ = true
        · rw [sendLoop_paced _ _ _ _ _ hlt hp1,
            sendLoop_paced _ _ _ _ _ hlt2 (by rw [← hp]; exact hp1)]
          simp [wireView, hsz, hd, hb, hs]
        · have hp1f : isPaced c1.current_command_ = false := by simpa using hp1
          rw [sendLoop_accepted _ _ _ _ _ hlt hp1f,
            sendLoop_accepted _ _ _ _ _ hlt2 (by rw [← hp]; exact hp1f), ← hd, ← hb]
          exact ih _ _ _ _ (by simp [wireView, hs, hd, hb]) hp hsz
    · rw [sendLoop_done _ _ _ _ hlt, sendLoop_done _ _ _ _ (by rw [← hd, ← hb]; exact hlt)]
      simp [wireView, hd, hb]

theorem truncate_other (cmd : TestCommand) (data : Str)
    (h1 : cmd.behavior ≠ BehaviorType.CLOSE_AFTER_HEADERS)
    (h2 : cmd.behavior ≠ BehaviorType.CLOSE_AFTER_PARTIAL) :
    truncateResponse cmd data = data := by
  unfold truncateResponse
  simp only [if_neg h1, if_neg h2]

theorem handleRequest_all_accepted (c : ConnectionHandler) (now : Int) (w : Wire)
    (h1 : (interpret c.parser_.request_.query_params).behavior ≠ BehaviorType.CLOSE_IMMEDIATELY)
    (h2 : (interpret c.parser_.request_.query_params).behavior ≠ BehaviorType.TIMEOUT)
    (h3 : (interpret c.parser_.request_.query_params).behavior = BehaviorType.SLOW_RESPONSE →
      ¬ (interpret c.parser_.request_.query_params).delay_ms > 0)
    (hp : isPaced (interpret c.parser_.request_.query_params) = false)
    (hall : allAccepted w.pending
      (truncateResponse (interpret c.parser_.request_.query_params)
        (serialize (generate (interpret c.parser_.request_.query_params)))).length = true) :
    ∃ c2 w2, ConnectionHandler.handleRequest c now w = some (c2, w2) ∧
      c2.state_ = ConnectionState.CLOSING ∧
      c2.response_data_ = truncateResponse (interpret c.parser_.request_.query_params)
        (serialize (generate (interpret c.parser_.request_.query_params))) ∧
      c2.bytes_sent_ = c2.response_data_.length ∧
      w2.delivered = w.delivered ++ c2.response_data_ := by
  obtain ⟨w2, hw, hd⟩ := sendLoop_allAccepted w.pending
    { c with current_command_ := interpret c.parser_.request_.query_params,
             response_data_ :=
               truncateResponse (interpret c.parser_.request_.query_params)
                 (serialize (generate (interpret c.parser_.request_.query_params))),
             bytes_sent_ := 0, state_ := ConnectionState.SENDING_RESPONSE }
    w.attempts w.delivered hp hall
  refine ⟨_, w2, (handleRequest_respond c now w h1 h2 h3).trans hw, rfl, rfl, ?_, hd⟩
  show max 0 _ = _
  simp

/-- C32. Pacing rule: for a connection whose directive is `SLOW_HEADERS` or `SLOW_BODY`
with rate `r > 0` and `m > 0` bytes left, one send pass makes exactly one `send`
attempt, of `min(m, max(1, r / 10))` bytes, which is at least 1 and at most `m`, and
returns after it whatever the result (the cursor advances by the count accepted, the
other results are left unused); with `r ≤ 0` the directive is not paced: each attempt
asks for all the bytes left and the pass goes as for the same connection with a
`NORMAL` directive. -/
theorem pacing_rule (c : ConnectionHandler) (w : Wire)
    (hk : c.current_command_.behavior = BehaviorType.SLOW_HEADERS ∨
      c.current_command_.behavior = BehaviorType.SLOW_BODY) :
    (c.current_command_.bytes_per_second > 0 →
      c.bytes_sent_ < c.response_data_.length →
      ∀ result rest, w.pending = result :: rest →
        ∃ c2 w2, c.sendResponse w = some (c2, w2) ∧
          w2.attempts = w.attempts ++
            [pacedSize c.current_command_.bytes_per_second
              (c.response_data_.length - c.bytes_sent_)] ∧
          w2.pending = rest ∧
          c2.bytes_sent_ =
            (match result with
             | SendResult.accepted n => c.bytes_sent_ + n
             | _ => c.bytes_sent_) ∧
          1 ≤ pacedSize c.current_command_.bytes_per_second
            (c.response_data_.length - c.bytes_sent_) ∧
          pacedSize c.current_command_.bytes_per_second
            (c.response_data_.length - c.bytes_sent_) ≤
              c.response_data_.length - c.bytes_sent_) ∧
    (c.current_command_.bytes_per_second ≤ 0 →
      isPaced c.current_command_ = false ∧
      (∀ m, sendSize c.current_command_ m = m) ∧
      (c.sendResponse w).map (fun r => (wireView r.1, r.2)) =
        (ConnectionHandler.sendResponse
          { c with current_command_ :=
              { c.current_command_ with behavior := BehaviorType.NORMAL } } w).map
          (fun r => (wireView r.1, r.2))) := by
  constructor
  · intro hr hlt result rest hw
    have hp : isPaced c.current_command_ = true := (isPaced_iff _).mpr ⟨hk, hr⟩
    have hsz := sendSize_paced c.current_command_ (c.response_data_.length - c.bytes_sent_) hp
      (by omega)
    have hb := sendSize_bounds c.current_command_ (c.response_data_.length - c.bytes_sent_)
      (by omega)
    rw [hsz] at hb
    unfold ConnectionHandler.sendResponse
    rw [hw]
    cases result with
    | wouldBlock =>
      rw [sendLoop_wouldBlock _ _ _ _ hlt, hsz]
      exact ⟨_, _, rfl, rfl, rfl, rfl, hb.1, hb.2⟩
    | failed =>
      rw [sendLoop_failed _ _ _ _ hlt, hsz]
      exact ⟨_, _, rfl, rfl, rfl, rfl, hb.1, hb.2⟩
    | accepted n =>
      rw [sendLoop_paced _ _ _ _ _ hlt hp, hsz]
      exact ⟨_, _, rfl, rfl, rfl, rfl, hb.1, hb.2⟩
  · intro hr
    have hp : isPaced c.current_command_ = false := by
      cases hq : isPaced c.current_command_ with
      | false => rfl
      | true =>
        have := ((isPaced_iff _).mp hq).2
        omega
    have hn : isPaced { c.current_command_ with behavior := BehaviorType.NORMAL } = false := by
      simp [isPaced]
    refine ⟨hp, fun m => sendSize_plain _ m hp, ?_⟩
    unfold ConnectionHandler.sendResponse
    exact sendLoop_view w.pending c _ w.attempts w.delivered rfl (by rw [hp, hn])
      (fun m => by rw [sendSize_plain _ m hp, sendSize_plain _ m hn])

theorem pacing_rule_witness :
    ∃ c2 w2, (sendingWith slowBodyParams).sendResponse
        (Wire.fresh [SendResult.accepted 10, SendResult.accepted 20]) = some (c2, w2) ∧
      w2.attempts = (Wire.fresh [SendResult.accepted 10, SendResult.accepted 20]).attempts ++
        [pacedSize (sendingWith slowBodyParams).current_command_.bytes_per_second
          ((sendingWith slowBodyParams).response_data_.length -
            (sendingWith slowBodyParams).bytes_sent_)] ∧
      w2.pending = [SendResult.accepted 20] ∧
      c2.bytes_sent_ =
        (match SendResult.accepted 10 with
         | SendResult.accepted n => (sendingWith slowBodyParams).bytes_sent_ + n
         | _ => (sendingWith slowBodyParams).bytes_sent_) ∧
      1 ≤ pacedSize (sendingWith slowBodyParams).current_command_.bytes_per_second
        ((sendingWith slowBodyParams).response_data_.length -
          (sendingWith slowBodyParams).bytes_sent_) ∧
      pacedSize (sendingWith slowBodyParams).current_command_.bytes_per_second
        ((sendingWith slowBodyParams).response_data_.length -
          (sendingWith slowBodyParams).bytes_sent_) ≤
        (sendingWith slowBodyParams).response_data_.length -
          (sendingWith slowBodyParams).bytes_sent_ :=
  (pacing_rule (sendingWith slowBodyParams)
    (Wire.fresh [SendResult.accepted 10, SendResult.accepted 20]) (Or.inr rfl)).1
    (by decide) (by decide) (SendResult.accepted 10) [SendResult.accepted 20] rfl

/-- C33, as stated, fails for paced directives: on the request
`GET /?behavior=slow_body&rate=1000` with a socket that accepts all 40 bytes, the pass
started by `onReadable` sends the whole response in one chunk and comes back with the
cursor at the end of the buffer and the state still `SENDING_RESPONSE`; only the next
pass, which sends nothing, sets `CLOSING`. -/
theorem paced_final_chunk_keeps_sending :
    (ConnectionHandler.onReadable ConnectionHandler.new
        (RecvResult.received slowBodyFastRequest) 0 (Wire.fresh [SendResult.accepted 40])).map
      (Option.map (fun r =>
        (isPaced r.1.current_command_, r.1.state_, r.1.bytes_sent_,
         r.1.response_data_.length, r.2.attempts, r.2.delivered,
         (ConnectionHandler.onWritable r.1 r.2).map (fun q => (q.1.state_, q.2.attempts))))) =
      .ok (some (true, ConnectionState.SENDING_RESPONSE, 40, 40, [40], fullOkResponse,
        some (ConnectionState.CLOSING, [40]))) := by
  rfl

/-- C33 (amended). When a send pass of a directive that is not paced returns with the
cursor at the end of the output buffer, the state is `CLOSING`. A pass of a paced
directive (`SLOW_HEADERS` or `SLOW_BODY` with a positive rate) whose `send` is accepted
returns with the state unchanged, also when that `send` was the final chunk. A pass
that starts with the cursor at the end of the buffer, paced or not, sets `CLOSING`
without a `send` attempt: a paced connection closes on the pass after its final
chunk. -/
theorem sendResponse_closes (c : ConnectionHandler) (w : Wire) :
    (isPaced c.current_command_ = false →
      ∀ c2 w2, c.sendResponse w = some (c2, w2) →
        c2.response_data_.length ≤ c2.bytes_sent_ → c2.state_ = ConnectionState.CLOSING) ∧
    (isPaced c.current_command_ = true → c.bytes_sent_ < c.response_data_.length →
      ∀ n rest, w.pending = SendResult.accepted n :: rest →
        ∃ w2, c.sendResponse w = some ({ c with bytes_sent_ := c.bytes_sent_ + n }, w2)) ∧
    (c.response_data_.length ≤ c.bytes_sent_ →
      c.sendResponse w = some ({ c with state_ := ConnectionState.CLOSING }, w)) := by
  refine ⟨?_, ?_, ?_⟩
  · intro hp c2 w2 h hall
    exact sendLoop_plain_complete w.pending c w.attempts w.delivered c2 w2 hp h hall
  · intro hp hlt n rest hw
    unfold ConnectionHandler.sendResponse
    rw [hw, sendLoop_paced _ _ _ _ _ hlt hp]
    exact ⟨_, rfl⟩
  · intro hle
    unfold ConnectionHandler.sendResponse
    rw [sendLoop_done _ _ _ _ (by omega)]

theorem sendResponse_closes_witness :
    (∃ w2, ConnectionHandler.sendResponse (sendingWith slowBodyFastParams)
        (Wire.fresh [SendResult.accepted 30]) =
      some ({ sendingWith slowBodyFastParams with
              bytes_sent_ := (sendingWith slowBodyFastParams).bytes_sent_ + 30 }, w2)) ∧
    ConnectionHandler.sendResponse
        { sendingWith slowBodyFastParams with bytes_sent_ := 40 } (Wire.fresh []) =
      some ({ sendingWith slowBodyFastParams with
              bytes_sent_ := 40, state_ := ConnectionState.CLOSING }, Wire.fresh []) :=
  ⟨(sendResponse_closes (sendingWith slowBodyFastParams)
      (Wire.fresh [SendResult.accepted 30])).2.1 rfl (by decide) 30 [] rfl,
   (sendResponse_closes { sendingWith slowBodyFastParams with bytes_sent_ := 40 }
      (Wire.fresh [])).2.2 (by decide)⟩

theorem runEvents_view (events : List Event) :
    ∀ (c1 c2 : ConnectionHandler) (w : Wire),
      wireView c1 = wireView c2 →
      isPaced c1.current_command_ = isPaced c2.current_command_ →
      (∀ m, sendSize c1.current_command_ m = sendSize c2.current_command_ m) →
      c1.state_ ≠ ConnectionState.READING_REQUEST → c1.state_ ≠ ConnectionState.WAITING →
      (runEvents events c1 w).map (Option.map (fun r => (wireView r.1, r.2))) =
        (runEvents events c2 w).map (Option.map (fun r => (wireView r.1, r.2))) := by
  induction events with
  | nil =>
    intro c1 c2 w hv _ _ _ _
    simp [runEvents, Except.map, hv]
  | cons e es ih =>
    intro c1 c2 w hv hp hsz hr hwt
    have hs : c1.state_ = c2.state_ := by
      simp only [wireView, Prod.mk.injEq] at hv
      exact hv.1
    cases e with
    | readable received now =>
      have e1 : c1.onEvent w (Event.readable received now) = .ok (some (c1, w)) := by
        show c1.onReadable received now w = _
        unfold ConnectionHandler.onReadable
        rw [if_pos hr]
      have e2 : c2.onEvent w (Event.readable received now) = .ok (some (c2, w)) := by
        show c2.onReadable received now w = _
        unfold ConnectionHandler.onReadable
        rw [if_pos (by rw [← hs]; exact hr)]
      rw [runEvents, runEvents, e1, e2]
      exact ih c1 c2 w hv hp hsz hr hwt
    | timer now =>
      have e1 : c1.onEvent w (Event.timer now) = .ok (some (c1, w)) := by
        show Except.ok (c1.onTimer now w) = _
        unfold ConnectionHandler.onTimer
        rw [if_neg hwt]
      have e2 : c2.onEvent w (Event.timer now) = .ok (some (c2, w)) := by
        show Except.ok (c2.onTimer now w) = _
        unfold ConnectionHandler.onTimer
        rw [if_neg (by rw [← hs]; exact hwt)]
      rw [runEvents, runEvents, e1, e2]
      exact ih c1 c2 w hv hp hsz hr hwt
    | writable =>
      by_cases hsend : c1.state_ = ConnectionState.SENDING_RESPONSE
      · have e1 : c1.onEvent w Event.writable =
            .ok (sendLoop w.pending c1 w.attempts w.delivered) := by
          show Except.ok (c1.onWritable w) = _
          unfold ConnectionHandler.onWritable ConnectionHandler.sendResponse
          rw [if_neg (by rw [hsend]; decide)]
        have e2 : c2.onEvent w Event.writable =
            .ok (sendLoop w.pending c2 w.attempts w.delivered) := by
          show Except.ok (c2.onWritable w) = _
          unfold ConnectionHandler.onWritable ConnectionHandler.sendResponse
          rw [if_neg (by rw [← hs, hsend]; decide)]
        have hview := sendLoop_view w.pending c1 c2 w.attempts w.delivered hv hp hsz
        rw [runEvents, runEvents, e1, e2]
        cases h1 : sendLoop w.pending c1 w.attempts w.delivered with
        | none =>
          rw [h1] at hview
          cases h2 : sendLoop w.pending c2 w.attempts w.delivered with
          | none => rfl
          | some r2 =>
            rw [h2] at hview
            simp at hview
        | some r1 =>
          rw [h1] at hview
          cases h2 : sendLoop w.pending c2 w.attempts w.delivered with
          | none =>
            rw [h2] at hview
            simp at hview
          | some r2 =>
            rw [h2] at hview
            simp only [Option.map_some', Option.some.injEq, Prod.mk.injEq] at hview
            obtain ⟨c1n, w1n⟩ := r1
            obtain ⟨c2n, w2n⟩ := r2
            simp only at hview
            obtain ⟨hvn, hwn⟩ := hview
            subst hwn
            have k1 := sendLoop_keeps _ _ _ _ _ _ h1
            have k2 := sendLoop_keeps _ _ _ _ _ _ h2
            have s1 := (sendLoop_state _ _ _ _ _ _ h1).1
            simp only
            refine ih c1n c2n w1n hvn (by rw [k1.2.1, k2.2.1]; exact hp)
              (by rw [k1.2.1, k2.2.1]; exact hsz) ?_ ?_
            · rcases s1 with s1 | s1
              · rw [s1]; exact hr
              · rw [s1]; decide
            · rcases s1 with s1 | s1
              · rw [s1]; exact hwt
              · rw [s1]; decide
      · have e1 : c1.onEvent w Event.writable = .ok (some (c1, w)) := by
          show Except.ok (c1.onWritable w) = _
          unfold ConnectionHandler.onWritable
          rw [if_pos hsend]
        have e2 : c2.onEvent w Event.writable = .ok (some (c2, w)) := by
          show Except.ok (c2.onWritable w) = _
          unfold ConnectionHandler.onWritable
          rw [if_pos (by rw [← hs]; exact hsend)]
        rw [runEvents, runEvents, e1, e2]
        exact ih c1 c2 w hv hp hsz hr hwt

/-- C36. `SLOW_HEADERS` and `SLOW_BODY` are indistinguishable on the wire: when the
request of one connection is interpreted as `SLOW_HEADERS` and that of another as
`SLOW_BODY` with the same rate, then for every socket behaviour and every sequence of
later events both connections have the same state, output buffer and send cursor and
the sockets have seen the same `send` attempts, sizes and bytes; the buffer of both is
the whole plain response and the size of an attempt depends on the rate and the bytes
left only. -/
theorem slow_headers_body_same_wire (c1 c2 : ConnectionHandler) (now : Int) (w : Wire)
    (events : List Event)
    (h1 : (interpret c1.parser_.request_.query_params).behavior = BehaviorType.SLOW_HEADERS)
    (h2 : (interpret c2.parser_.request_.query_params).behavior = BehaviorType.SLOW_BODY)
    (hr : (interpret c1.parser_.request_.query_params).bytes_per_second =
      (interpret c2.parser_.request_.query_params).bytes_per_second) :
    (requestThenEvents c1 now w events).map (Option.map (fun r => (wireView r.1, r.2))) =
      (requestThenEvents c2 now w events).map (Option.map (fun r => (wireView r.1, r.2))) ∧
    (∀ c w2, c1.handleRequest now w = some (c, w2) ∨ c2.handleRequest now w = some (c, w2) →
      c.response_data_ = fullOkResponse) ∧
    (∀ m, sendSize (interpret c1.parser_.request_.query_params) m =
      sendSize (interpret c2.parser_.request_.query_params) m) := by
  have hp : isPaced (interpret c1.parser_.request_.query_params) =
      isPaced (interpret c2.parser_.request_.query_params) := by
    simp [isPaced, h1, h2, hr]
  have hsz : ∀ m, sendSize (interpret c1.parser_.request_.query_params) m =
      sendSize (interpret c2.parser_.request_.query_params) m := by
    intro m
    simp [sendSize, hp, hr]
  have hd1 : truncateResponse (interpret c1.parser_.request_.query_params)
      (serialize (generate (interpret c1.parser_.request_.query_params))) = fullOkResponse := by
    rw [truncate_other _ _ (by rw [h1]; decide) (by rw [h1]; decide)]
    exact serialize_generate_ok _ (by rw [h1]; decide) (interpret_body_content _)
  have hd2 : truncateResponse (interpret c2.parser_.request_.query_params)
      (serialize (generate (interpret c2.parser_.request_.query_params))) = fullOkResponse := by
    rw [truncate_other _ _ (by rw [h2]; decide) (by rw [h2]; decide)]
    exact serialize_generate_ok _ (by rw [h2]; decide) (interpret_body_content _)
  have hrun1 := handleRequest_respond c1 now w (by rw [h1]; decide) (by rw [h1]; decide)
    (by rw [h1]; intro hb; exact absurd hb (by decide))
  have hrun2 := handleRequest_respond c2 now w (by rw [h2]; decide) (by rw [h2]; decide)
    (by rw [h2]; intro hb; exact absurd hb (by decide))
  rw [hd1] at hrun1
  rw [hd2] at hrun2
  refine ⟨?_, ?_, hsz⟩
  · have hview := sendLoop_view w.pending
      { c1 with current_command_ := interpret c1.parser_.request_.query_params,
                response_data_ := fullOkResponse, bytes_sent_ := 0,
                state_ := ConnectionState.SENDING_RESPONSE }
      { c2 with current_command_ := interpret c2.parser_.request_.query_params,
                response_data_ := fullOkResponse, bytes_sent_ := 0,
                state_ := ConnectionState.SENDING_RESPONSE }
      w.attempts w.delivered rfl hp hsz
    unfold requestThenEvents
    rw [hrun1, hrun2]
    cases k1 : sendLoop w.pending
      { c1 with current_command_ := interpret c1.parser_.request_.query_params,
                response_data_ := fullOkResponse, bytes_sent_ := 0,
                state_ := ConnectionState.SENDING_RESPONSE } w.attempts w.delivered with
    | none =>
      rw [k1] at hview
      cases k2 : sendLoop w.pending
        { c2 with current_command_ := interpret c2.parser_.request_.query_params,
                  response_data_ := fullOkResponse, bytes_sent_ := 0,
                  state_ := ConnectionState.SENDING_RESPONSE } w.attempts w.delivered with
      | none => rfl
      | some r2 =>
        rw [k2] at hview
        simp at hview
    | some r1 =>
      rw [k1] at hview
      cases k2 : sendLoop w.pending
        { c2 with current_command_ := interpret c2.parser_.request_.query_params,
                  response_data_ := fullOkResponse, bytes_sent_ := 0,
                  state_ := ConnectionState.SENDING_RESPONSE } w.attempts w.delivered with
      | none =>
        rw [k2] at hview
        simp at hview
      | some r2 =>
        rw [k2] at hview
        simp only [Option.map_some', Option.some.injEq, Prod.mk.injEq] at hview
        obtain ⟨c1n, w1n⟩ := r1
        obtain ⟨c2n, w2n⟩ := r2
        simp only at hview
        obtain ⟨hvn, hwn⟩ := hview
        subst hwn
        have q1 := sendLoop_keeps _ _ _ _ _ _ k1
        have q2 := sendLoop_keeps _ _ _ _ _ _ k2
        have s1 : c1n.state_ = ConnectionState.SENDING_RESPONSE ∨
            c1n.state_ = ConnectionState.CLOSING := (sendLoop_state _ _ _ _ _ _ k1).1
        simp only
        refine runEvents_view events c1n c2n w1n hvn (by rw [q1.2.1, q2.2.1]; exact hp)
          (by rw [q1.2.1, q2.2.1]; exact hsz) ?_ ?_
        · rcases s1 with s1 | s1 <;> rw [s1] <;> decide
        · rcases s1 with s1 | s1 <;> rw [s1] <;> decide
  · intro c w2 hc
    rcases hc with hc | hc
    · rw [hrun1] at hc
      exact (sendLoop_keeps _ _ _ _ _ _ hc).1
    · rw [hrun2] at hc
      exact (sendLoop_keeps _ _ _ _ _ _ hc).1

theorem slow_headers_body_same_wire_witness :
    (requestThenEvents (connectionWith slowHeadersParams) 0
        (Wire.fresh [SendResult.accepted 10, SendResult.wouldBlock, SendResult.accepted 7])
        [Event.writable, Event.timer 100, Event.writable]).map
      (Option.map (fun r => (wireView r.1, r.2))) =
    (requestThenEvents (connectionWith slowBodyParams) 0
        (Wire.fresh [SendResult.accepted 10, SendResult.wouldBlock, SendResult.accepted 7])
        [Event.writable, Event.timer 100, Event.writable]).map
      (Option.map (fun r => (wireView r.1, r.2))) :=
  (slow_headers_body_same_wire (connectionWith slowHeadersParams)
    (connectionWith slowBodyParams) 0
    (Wire.fresh [SendResult.accepted 10, SendResult.wouldBlock, SendResult.accepted 7])
    [Event.writable, Event.timer 100, Event.writable] rfl rfl rfl).1

theorem slow_body_run :
    (requestThenEvents (connectionWith slowBodyParams) 0
        (Wire.fresh [SendResult.accepted 10, SendResult.wouldBlock, SendResult.accepted 7])
        [Event.writable, Event.timer 100, Event.writable]).map
      (Option.map (fun r => (r.1.state_, r.1.bytes_sent_, r.2.attempts, r.2.delivered))) =
    .ok (some (ConnectionState.SENDING_RESPONSE, 17, [10, 10, 10],
      bytes "HTTP/1.1 200 OK\r\n")) := by
  rfl

/-! ## The send cursor -/

theorem finishParse_buffer (q : HttpParser) (ok : Bool) (b : Str) :
    finishParse ({ q with buffer_ := b }, ok) =
      (finishParse (q, ok)).map (fun r => ({ r.1 with buffer_ := b }, r.2)) := by
  cases ok with
  | false => rfl
  | true =>
    simp only [finishParse]
    cases extractQueryParams q.request_ q.request_.path <;> rfl

theorem parse_new_terminated (s : Str) (e : Nat) (h : findEndOfHeaders s = some e) :
    (HttpParser.new.parse s).map (fun r => (r.2, r.1.request_, r.1.error_message_)) =
      (finishParse (parseLines (segments 10 (s.take e)) true HttpParser.new)).map
        (fun r => (r.2, r.1.request_, r.1.error_message_)) := by
  have e1 := @parse_incomplete_some HttpParser.new s e rfl h
  have e2 : HttpParser.new.parse s =
      finishParse (parseLines (segments 10 (s.take e)) true
        { HttpParser.new with buffer_ := s }) := e1
  rw [e2, parseLines_buffer, finishParse_buffer]
  cases finishParse ((parseLines (segments 10 (s.take e)) true HttpParser.new).1,
    (parseLines (segments 10 (s.take e)) true HttpParser.new).2) <;> rfl

/-- C37. The outcome of `parse` depends only on the bytes up to and including the first
`\r\n\r\n`: when `h` ends with its first `\r\n\r\n`, a new parser fed `h ++ t` gives
the same result, request and error message (or the same exception) as one fed `h`,
whatever the bytes `t` after the terminator. -/
theorem parse_ignores_rest (h t : Str) (hh : findEndOfHeaders h = some h.length) :
    (HttpParser.new.parse (h ++ t)).map (fun r => (r.2, r.1.request_, r.1.error_message_)) =
      (HttpParser.new.parse h).map (fun r => (r.2, r.1.request_, r.1.error_message_)) := by
  rw [parse_new_terminated (h ++ t) h.length (findEndOfHeaders_append t hh).1,
    parse_new_terminated h h.length hh, List.take_left, List.take_length]

theorem parse_ignores_rest_witness :
    (HttpParser.new.parse (bytes "GET /a?x=1 HTTP/1.1\r\nHost: h\r\n\r\n" ++
        bytes "GET /?behavior=close HTTP/1.1\r\n\r\n")).map
      (fun r => (r.2, r.1.request_, r.1.error_message_)) =
    (HttpParser.new.parse (bytes "GET /a?x=1 HTTP/1.1\r\nHost: h\r\n\r\n")).map
      (fun r => (r.2, r.1.request_, r.1.error_message_)) :=
  parse_ignores_rest (bytes "GET /a?x=1 HTTP/1.1\r\nHost: h\r\n\r\n")
    (bytes "GET /?behavior=close HTTP/1.1\r\n\r\n") rfl

theorem toSizeT_neg (k : Nat) (h1 : 1 ≤ k) (h2 : k ≤ 18446744073709551616) :
    toSizeT (-(k : Int)) = 18446744073709551616 - k := by
  unfold toSizeT
  omega

theorem signedDecimal_minus (ds : Str) (hd : isDecimal ds = true) :
    signedDecimal (45 :: ds) = some (-(decimalValue ds : Int)) := by
  simp [signedDecimal, hd]

/-- C38. A negative `bytes` parameter wraps: for `behavior = close_partial` and
`bytes = -k` with `1 ≤ k ≤ 2^31` (the digits of `k` after a minus sign),
`bytes_before_close` is `2^64 - k`, the 40-byte response is not truncated, and when
every `send` succeeds it is sent in full before the state becomes `CLOSING`. -/
theorem negative_bytes_wrap (m : StrMap) (ds : Str)
    (hb : StrMap.find (bytes "behavior") m = some (bytes "close_partial"))
    (hv : StrMap.find (bytes "bytes") m = some (45 :: ds))
    (hd : isDecimal ds = true) (h1 : 1 ≤ decimalValue ds)
    (h2 : decimalValue ds ≤ 2147483648) :
    (interpret m).behavior = BehaviorType.CLOSE_AFTER_PARTIAL ∧
    (interpret m).bytes_before_close = 18446744073709551616 - decimalValue ds ∧
    truncateResponse (interpret m) (serialize (generate (interpret m))) = fullOkResponse ∧
    (∀ (c : ConnectionHandler) (now : Int) (w : Wire),
      c.parser_.request_.query_params = m → allAccepted w.pending 40 = true →
      ∃ c2 w2, c.handleRequest now w = some (c2, w2) ∧
        c2.state_ = ConnectionState.CLOSING ∧ c2.bytes_sent_ = 40 ∧
        w2.delivered = w.delivered ++ fullOkResponse) := by
  have hbeh : (interpret m).behavior = BehaviorType.CLOSE_AFTER_PARTIAL := by
    rw [interpret_behavior m _ hb]
    rfl
  have hparam : paramOrEmpty m (bytes "bytes") = 45 :: ds := by
    unfold paramOrEmpty
    rw [hv]
  have hint : parseInteger (45 :: ds) 0 = -(decimalValue ds : Int) :=
    parseInteger_signed 0 (signedDecimal_minus ds hd) (by omega) (by omega)
  have hn : (interpret m).bytes_before_close = 18446744073709551616 - decimalValue ds := by
    rw [(interpret_close_after m hb).1, hparam, hint, toSizeT_neg _ h1 (by omega)]
  have hfull : serialize (generate (interpret m)) = fullOkResponse :=
    serialize_generate_ok _ (by rw [hbeh]; decide) (interpret_body_content _)
  have htr : truncateResponse (interpret m) (serialize (generate (interpret m))) =
      fullOkResponse := by
    rw [hfull, truncate_partial_close _ hbeh, hn, min_eq_right (by omega)]
    rfl
  refine ⟨hbeh, hn, htr, ?_⟩
  intro c now w hc hall
  subst hc
  obtain ⟨c2, w2, hr, hs, hdata, hsent, hdel⟩ := handleRequest_all_accepted c now w
    (by rw [hbeh]; decide) (by rw [hbeh]; decide)
    (by rw [hbeh]; intro hx; exact absurd hx (by decide))
    (by simp [isPaced, hbeh]) (by rw [htr]; exact hall)
  rw [htr] at hdata
  rw [hdata] at hsent hdel
  exact ⟨c2, w2, hr, hs, hsent, hdel⟩

theorem negative_bytes_wrap_witness :
    (interpret closePartialNegativeParams).behavior = BehaviorType.CLOSE_AFTER_PARTIAL ∧
    (interpret closePartialNegativeParams).bytes_before_close = 18446744073709551615 ∧
    truncateResponse (interpret closePartialNegativeParams)
      (serialize (generate (interpret closePartialNegativeParams))) = fullOkResponse :=
  ⟨(negative_bytes_wrap closePartialNegativeParams (bytes "1") rfl rfl rfl (by decide)
      (by decide)).1,
   (negative_bytes_wrap closePartialNegativeParams (bytes "1") rfl rfl rfl (by decide)
      (by decide)).2.1,
   (negative_bytes_wrap closePartialNegativeParams (bytes "1") rfl rfl rfl (by decide)
      (by decide)).2.2.1⟩

theorem takeWhile_digits_append (ds rest : Str) (hall : ∀ c ∈ ds, isDigit c = true)
    (hr : ∀ c, rest.head? = some c → isDigit c = false) :
    (ds ++ rest).takeWhile isDigit = ds := by
  induction ds with
  | nil =>
    cases rest with
    | nil => rfl
    | cons c r => simp [List.takeWhile, hr c rfl]
  | cons d ds ih =>
    have hd : isDigit d = true := hall d (List.mem_cons_self _ _)
    have ih2 := ih (fun c hc => hall c (List.mem_cons_of_mem _ hc))
    simp [List.takeWhile, hd, ih2]

theorem isDecimal_append (ds rest : Str) (hd : isDecimal ds = true)
    (hr : ∀ c, rest.head? = some c → isDigit c = false) :
    (ds ++ rest).takeWhile isDigit = ds ∧ ds ≠ [] := by
  unfold isDecimal at hd
  simp only [Bool.and_eq_true, decide_eq_true_eq, List.all_eq_true] at hd
  exact ⟨takeWhile_digits_append ds rest hd.2 hr, hd.1⟩

theorem stoi10_leading_number {num : Str} {n : Int} (rest : Str)
    (h : signedDecimal num = some n)
    (hr : ∀ c, rest.head? = some c → isDigit c = false) :
    stoi10 (num ++ rest) =
      if n < -2147483648 ∨ 2147483647 < n then .error Exn.out_of_range else .ok n := by
  unfold signedDecimal at h
  cases num with
  | nil => simp [isDecimal] at h
  | cons c t =>
    simp only [List.head?_cons, Option.some.injEq, List.tail_cons] at h
    by_cases h45 : c = 45
    · subst h45
      simp only [if_true] at h
      split at h
      · rename_i hd
        obtain ⟨htw, hne⟩ := isDecimal_append t rest hd hr
        simp only [Option.some.injEq] at h
        subst h
        have hsp : isSpace 45 = false := by decide
        simp [stoi10, hsp, htw, hne, decNum_eq_foldl, decimalValue]
      · cases h
    · simp only [h45, if_false] at h
      by_cases h43 : c = 43
      · subst h43
        simp only [if_true] at h
        split at h
        · rename_i hd
          obtain ⟨htw, hne⟩ := isDecimal_append t rest hd hr
          simp only [Option.some.injEq] at h
          subst h
          have hsp : isSpace 43 = false := by decide
          simp [stoi10, hsp, htw, hne, decNum_eq_foldl, decimalValue]
        · cases h
      · simp only [h43, if_false] at h
        split at h
        · rename_i hd
          obtain ⟨htw, hne⟩ := isDecimal_append (c :: t) rest hd hr
          obtain ⟨d, t2, ht, hdig, _⟩ := isDecimal_facts hd
          simp only [Option.some.injEq] at h
          subst h
          simp only [List.cons.injEq] at ht
          obtain ⟨rfl, rfl⟩ := ht
          obtain ⟨hsp, _, _⟩ := isDigit_facts hdig
          rw [List.cons_append] at htw
          simp [stoi10, hsp, htw, h45, h43, decNum_eq_foldl, decimalValue]
        · cases h

/-- C39. `parseInteger` accepts a numeric prefix: for a value made of a decimal integer
within `int` range, with an optional sign, followed by any text whose first character
is not a digit, `parseInteger` returns that integer, whatever the default; so
`behavior = error` with `code = 502abc` gives the status code 502. -/
theorem parseInteger_leading_number (num rest : Str) (n d : Int)
    (hn : signedDecimal num = some n) (hlo : -2147483648 ≤ n) (hhi : n ≤ 2147483647)
    (hr : ∀ c, rest.head? = some c → isDigit c = false) :
    parseInteger (num ++ rest) d = n ∧
    (∀ m : StrMap, StrMap.find (bytes "behavior") m = some (bytes "error") →
      StrMap.find (bytes "code") m = some (num ++ rest) → (interpret m).status_code = n) ∧
    (interpret errorTrailingParams).status_code = 502 := by
  have hp : ∀ d2 : Int, parseInteger (num ++ rest) d2 = n := by
    intro d2
    unfold parseInteger
    have hne : num ++ rest ≠ [] := by
      intro hnil
      exact signedDecimal_ne_nil hn (List.append_eq_nil.mp hnil).1
    rw [if_neg hne, stoi10_leading_number rest hn hr, if_neg (by omega)]
  refine ⟨hp d, ?_, rfl⟩
  intro m hb hc
  rw [(interpret_error m hb).2.1]
  unfold paramOrEmpty
  rw [hc]
  exact hp 500

theorem parseInteger_leading_number_witness :
    parseInteger (bytes "100" ++ bytes " bytes") 7 = 100 :=
  (parseInteger_leading_number (bytes "100") (bytes " bytes") 100 7 rfl (by decide)
    (by decide) (by decide)).1

/-! ## The engine theorems at sample connections -/

theorem onReadable_close_immediately_witness :
    ∃ c2, ConnectionHandler.new.onReadable (RecvResult.received closeRequest) 0
        (Wire.fresh [SendResult.accepted 40]) =
          .ok (some (c2, Wire.fresh [SendResult.accepted 40])) ∧
      c2.state_ = ConnectionState.CLOSING ∧
      c2.response_data_ = ConnectionHandler.new.response_data_ ∧
      c2.bytes_sent_ = ConnectionHandler.new.bytes_sent_ ∧
      (ConnectionHandler.new.response_data_ = [] → c2.response_data_ = []) ∧
      ConnectionHandler.new.response_data_ = [] ∧ ConnectionHandler.new.bytes_sent_ = 0 :=
  onReadable_close_immediately ConnectionHandler.new closeRequest 0
    (Wire.fresh [SendResult.accepted 40]) closeRequestParser rfl (by decide) rfl rfl

theorem io_failures_witness :
    ConnectionHandler.new.onReadable RecvResult.wouldBlock 0
        (Wire.fresh [SendResult.wouldBlock]) =
      .ok (some (ConnectionHandler.new, Wire.fresh [SendResult.wouldBlock])) ∧
    ConnectionHandler.new.onReadable (RecvResult.received []) 0
        (Wire.fresh [SendResult.wouldBlock]) =
      .ok (some ({ ConnectionHandler.new with state_ := ConnectionState.CLOSING },
        Wire.fresh [SendResult.wouldBlock])) ∧
    (∃ w2, (sendingWith closeHeadersParams).onWritable (Wire.fresh [SendResult.wouldBlock]) =
        some (sendingWith closeHeadersParams, w2) ∧
      w2.delivered = (Wire.fresh [SendResult.wouldBlock]).delivered) :=
  ⟨(io_failures ConnectionHandler.new 0 (Wire.fresh [SendResult.wouldBlock]) rfl).1,
   (io_failures ConnectionHandler.new 0 (Wire.fresh [SendResult.wouldBlock]) rfl).2.1,
   (io_failures ConnectionHandler.new 0
      (Wire.fresh [SendResult.wouldBlock]) rfl).2.2.2.2.2.1
      (sendingWith closeHeadersParams) [] rfl (by decide) rfl⟩

theorem event_gating_witness :
    closingConnection.onReadable (RecvResult.received closeRequest) 0 (Wire.fresh []) =
      .ok (some (closingConnection, Wire.fresh [])) ∧
    closingConnection.onWritable (Wire.fresh []) = some (closingConnection, Wire.fresh []) ∧
    closingConnection.onTimer 5 (Wire.fresh []) = some (closingConnection, Wire.fresh []) ∧
    runEvents [Event.readable (RecvResult.received closeRequest) 0, Event.writable,
        Event.timer 5] closingConnection (Wire.fresh []) =
      .ok (some (closingConnection, Wire.fresh [])) :=
  ⟨(event_gating closingConnection (Wire.fresh [])).1 (by decide)
      (RecvResult.received closeRequest) 0,
   (event_gating closingConnection (Wire.fresh [])).2.1 (by decide),
   (event_gating closingConnection (Wire.fresh [])).2.2.1 (by decide) 5,
   (event_gating closingConnection (Wire.fresh [])).2.2.2 (Or.inl rfl)
      [Event.readable (RecvResult.received closeRequest) 0, Event.writable, Event.timer 5]⟩

/-! ## A hang-up during a send pass -/

theorem sendLoopInProcess_done (calls : List SendCall) (c : ConnectionHandler)
    (attempts : List Nat) (delivered : Str) (h : ¬ c.bytes_sent_ < c.response_data_.length) :
    sendLoopInProcess calls c attempts delivered =
      PassEnd.returned { c with state_ := ConnectionState.CLOSING } calls attempts
        delivered := by
  cases calls <;> rw [sendLoopInProcess] <;> simp [h]

theorem sendLoopInProcess_sigpipe (rest : List SendCall) (c : ConnectionHandler)
    (attempts : List Nat) (delivered : Str) (h : c.bytes_sent_ < c.response_data_.length) :
    sendLoopInProcess (SendCall.sigpipe :: rest) c attempts delivered =
      PassEnd.killed
        (attempts ++ [sendSize c.current_command_ (c.response_data_.length - c.bytes_sent_)])
        delivered := by
  rw [sendLoopInProcess]
  simp [h]

theorem sendLoopInProcess_accepted (n : Nat) (rest : List SendCall) (c : ConnectionHandler)
    (attempts : List Nat) (delivered : Str) (h : c.bytes_sent_ < c.response_data_.length)
    (hp : isPaced c.current_command_ = false) :
    sendLoopInProcess (SendCall.returns (SendResult.accepted n) :: rest) c attempts delivered =
      sendLoopInProcess rest { c with bytes_sent_ := c.bytes_sent_ + n }
        (attempts ++ [c.response_data_.length - c.bytes_sent_])
        (delivered ++ (c.response_data_.drop c.bytes_sent_).take n) := by
  rw [sendLoopInProcess]
  have hs : sendSize c.current_command_ (c.response_data_.length - c.bytes_sent_) =
      c.response_data_.length - c.bytes_sent_ := sendSize_plain _ _ hp
  have ht : (c.response_data_.drop c.bytes_sent_).take
      (c.response_data_.length - c.bytes_sent_) = c.response_data_.drop c.bytes_sent_ :=
    List.take_of_length_le (by simp)
  simp [h, hp, hs, ht]

theorem sendLoopInProcess_returns (pending : List SendResult) :
    ∀ (c : ConnectionHandler) (attempts : List Nat) (delivered : Str),
      sendLoopInProcess (pending.map SendCall.returns) c attempts delivered =
        PassEnd.ofPass (sendLoop pending c attempts delivered) := by
  induction pending with
  | nil =>
    intro c attempts delivered
    by_cases hlt : c.bytes_sent_ < c.response_data_.length
    · rw [sendLoop_nil _ _ _ hlt, List.map_nil, sendLoopInProcess]
      simp [hlt, PassEnd.ofPass]
    · rw [sendLoop_done _ _ _ _ hlt, sendLoopInProcess_done _ _ _ _ hlt]
      rfl
  | cons result rest ih =>
    intro c attempts delivered
    by_cases hlt : c.bytes_sent_ < c.response_data_.length
    · rw [List.map_cons]
      cases result with
      | wouldBlock =>
        rw [sendLoop_wouldBlock _ _ _ _ hlt, sendLoopInProcess]
        simp [hlt, PassEnd.ofPass]
      | failed =>
        rw [sendLoop_failed _ _ _ _ hlt, sendLoopInProcess]
        simp [hlt, PassEnd.ofPass]
      | accepted n =>
        by_cases hp : isPaced c.current_command_ = true
        · rw [sendLoop_paced _ _ _ _ _ hlt hp, sendLoopInProcess]
          simp [hlt, hp, PassEnd.ofPass]
        · have hpf : isPaced c.current_command_ = false := by simpa using hp
          rw [sendLoop_accepted _ _ _ _ _ hlt hpf,
            sendLoopInProcess_accepted _ _ _ _ _ hlt hpf]
          exact ih _ _ _
    · rw [sendLoop_done _ _ _ _ hlt, sendLoopInProcess_done _ _ _ _ hlt]
      rfl

/-- C34. The send side of the failure semantics fails for a hang-up: on a writable
event in `SENDING_RESPONSE` with bytes left, when the peer has hung up the `send` call
raises `SIGPIPE` and the process ends inside the call, so `onWritable` does not return
and the state never becomes `CLOSING`; the same happens after earlier sends of the pass
were accepted. An error that `send` returns does give `CLOSING`, and when every `send`
call returns the pass is the one of `sendResponse`. -/
theorem send_hangup_ends_process (c : ConnectionHandler) (rest : List SendCall)
    (attempts : List Nat) (delivered : Str)
    (hs : c.state_ = ConnectionState.SENDING_RESPONSE)
    (hlt : c.bytes_sent_ < c.response_data_.length) :
    c.onWritableInProcess (SendCall.sigpipe :: rest) attempts delivered =
      PassEnd.killed
        (attempts ++ [sendSize c.current_command_ (c.response_data_.length - c.bytes_sent_)])
        delivered ∧
    (∀ c2 rest2 attempts2 delivered2,
      c.onWritableInProcess (SendCall.sigpipe :: rest) attempts delivered ≠
        PassEnd.returned c2 rest2 attempts2 delivered2) ∧
    (∀ n, isPaced c.current_command_ = false → c.bytes_sent_ + n < c.response_data_.length →
      c.onWritableInProcess (SendCall.returns (SendResult.accepted n) :: SendCall.sigpipe :: rest)
          attempts delivered =
        PassEnd.killed
          (attempts ++ [c.response_data_.length - c.bytes_sent_,
            c.response_data_.length - (c.bytes_sent_ + n)])
          (delivered ++ (c.response_data_.drop c.bytes_sent_).take n)) ∧
    c.onWritableInProcess (SendCall.returns SendResult.failed :: rest) attempts delivered =
      PassEnd.returned { c with state_ := ConnectionState.CLOSING } rest
        (attempts ++ [sendSize c.current_command_ (c.response_data_.length - c.bytes_sent_)])
        delivered ∧
    (∀ pending : List SendResult,
      c.onWritableInProcess (pending.map SendCall.returns) attempts delivered =
        PassEnd.ofPass (c.onWritable
          { pending := pending, attempts := attempts, delivered := delivered })) := by
  have hne : ¬ c.state_ ≠ ConnectionState.SENDING_RESPONSE := by rw [hs]; decide
  have hk : c.onWritableInProcess (SendCall.sigpipe :: rest) attempts delivered =
      PassEnd.killed
        (attempts ++ [sendSize c.current_command_ (c.response_data_.length - c.bytes_sent_)])
        delivered := by
    unfold ConnectionHandler.onWritableInProcess
    rw [if_neg hne, sendLoopInProcess_sigpipe _ _ _ _ hlt]
  refine ⟨hk, ?_, ?_, ?_, ?_⟩
  · intro c2 rest2 attempts2 delivered2 h
    rw [hk] at h
    cases h
  · intro n hp hn
    unfold ConnectionHandler.onWritableInProcess
    rw [if_neg hne, sendLoopInProcess_accepted _ _ _ _ _ hlt hp,
      sendLoopInProcess_sigpipe _ _ _ _ hn]
    simp [sendSize_plain _ _ hp]
  · unfold ConnectionHandler.onWritableInProcess
    rw [if_neg hne, sendLoopInProcess]
    simp [hlt]
  · intro pending
    unfold ConnectionHandler.onWritableInProcess ConnectionHandler.onWritable
      ConnectionHandler.sendResponse
    rw [if_neg hne, if_neg hne]
    exact sendLoopInProcess_returns pending c attempts delivered

theorem send_hangup_ends_process_witness :
    (sendingWith slowBodyParams).onWritableInProcess [SendCall.sigpipe] [10]
        (bytes "HTTP/1.1 2") =
      PassEnd.killed
        ([10] ++ [sendSize (sendingWith slowBodyParams).current_command_
          ((sendingWith slowBodyParams).response_data_.length -
            (sendingWith slowBodyParams).bytes_sent_)])
        (bytes "HTTP/1.1 2") :=
  (send_hangup_ends_process (sendingWith slowBodyParams) [] [10] (bytes "HTTP/1.1 2") rfl
    (by decide)).1

theorem hangup_run :
    (ConnectionHandler.onReadable ConnectionHandler.new
        (RecvResult.received slowBodyRequest) 0 (Wire.fresh [SendResult.accepted 10])).map
      (Option.map (fun r =>
        (r.1.state_, r.1.bytes_sent_, r.2.attempts, r.2.delivered,
         r.1.onWritableInProcess [SendCall.sigpipe] r.2.attempts r.2.delivered))) =
      .ok (some (ConnectionState.SENDING_RESPONSE, 10, [10], bytes "HTTP/1.1 2",
        PassEnd.killed [10, 10] (bytes "HTTP/1.1 2"))) := by
  rfl

end Stitch
